import Mathlib

/-!
Verification of the puppet-dependency-resolver core against its specification.

The development shallowly embeds the TypeScript sources:
  * a model of the semver subset the resolver relies on (the `semver` npm
    package is an external collaborator; we embed the standard semantics of
    the comparator ranges the resolver actually builds),
  * `ModuleDeclaration`, `Requirement`, `RequirementsStore`,
    `DependencyGraph`, `ForgeCache` and the `DependencyResolver` loop,
    with JavaScript object aliasing made explicit through a heap of
    module declarations indexed by `ModId`,
  * the `PuppetFile` parser and emitter at the line level.

All definitions are executable so that concrete runs of the resolver can be
evaluated inside proofs.
-/

namespace Puppet

/-! ## Character-list string primitives

The model evaluates inside proofs, so the string operations it needs (split,
trim, prefix test, decimal parse) are implemented by structural recursion on
the character list of a string; they have the standard semantics of the
JavaScript operations they stand for. -/

def splitCharsAux (p : Char → Bool) : List Char → List Char → List (List Char)
  | [], cur => [cur.reverse]
  | c :: rest, cur =>
    if p c then cur.reverse :: splitCharsAux p rest []
    else splitCharsAux p rest (c :: cur)

/-- Split on every character satisfying `p`, keeping empty segments —
the semantics of `String.split` / JavaScript `split` with a character
class. -/
def strSplit (s : String) (p : Char → Bool) : List String :=
  (splitCharsAux p s.data []).map String.mk

def isSpaceChar (c : Char) : Bool := c = ' ' ∨ c = '\t' ∨ c = '\n' ∨ c = '\r'

def strTrim (s : String) : String :=
  ⟨((s.data.dropWhile isSpaceChar).reverse.dropWhile isSpaceChar).reverse⟩

def strStartsWith (s pre : String) : Bool :=
  s.data.take pre.data.length = pre.data

def strDrop (s : String) (n : Nat) : String := ⟨s.data.drop n⟩

def digitsToNat? : List Char → Option Nat
  | [] => none
  | cs =>
    if cs.all Char.isDigit then
      some (cs.foldl (fun acc c => acc * 10 + (c.toNat - 48)) 0)
    else none

/-- Decimal parse of a nonempty all-digit string. -/
def strToNat? (s : String) : Option Nat := digitsToNat? s.data

/-! ## Semantic versions and ranges (model of the `semver` npm package) -/

structure SemVer where
  major : Nat
  minor : Nat
  patch : Nat
deriving DecidableEq, Repr

/-- Parse a version string of the shape `major.minor.patch`. -/
def parseSemVer (s : String) : Option SemVer :=
  match strSplit (strTrim s) (fun c => c = '.') with
  | [a, b, c] =>
    match strToNat? a, strToNat? b, strToNat? c with
    | some x, some y, some z => some ⟨x, y, z⟩
    | _, _, _ => none
  | _ => none

inductive CompOp
  | eq | ge | le | lt | gt
deriving DecidableEq, Repr

inductive RangeAst
  | any
  | cmp (op : CompOp) (v : SemVer)
deriving DecidableEq, Repr

/-- Parse the comparator ranges the resolver constructs: the empty range
(matching anything), and a single comparator `=`, `>=`, `<=`, `<`, `>` or a
bare version (treated as an exact match). -/
def parseRange (s : String) : Option RangeAst :=
  let t := strTrim s
  if t = "" then some .any
  else if strStartsWith t ">=" then (parseSemVer (strDrop t 2)).map (.cmp .ge)
  else if strStartsWith t "<=" then (parseSemVer (strDrop t 2)).map (.cmp .le)
  else if strStartsWith t "<" then (parseSemVer (strDrop t 1)).map (.cmp .lt)
  else if strStartsWith t ">" then (parseSemVer (strDrop t 1)).map (.cmp .gt)
  else if strStartsWith t "=" then (parseSemVer (strDrop t 1)).map (.cmp .eq)
  else (parseSemVer t).map (.cmp .eq)

def SemVer.lt (a b : SemVer) : Bool :=
  a.major < b.major ∨
    (a.major = b.major ∧ (a.minor < b.minor ∨ (a.minor = b.minor ∧ a.patch < b.patch)))

def evalCmp (op : CompOp) (v bound : SemVer) : Bool :=
  match op with
  | .eq => v = bound
  | .ge => ¬ SemVer.lt v bound
  | .le => ¬ SemVer.lt bound v
  | .lt => SemVer.lt v bound
  | .gt => SemVer.lt bound v

def evalRange (r : RangeAst) (v : SemVer) : Bool :=
  match r with
  | .any => true
  | .cmp op bound => evalCmp op v bound

/-- `semver.satisfies(version, range)`: false whenever the version or the
range does not parse. -/
def satisfies (version range : String) : Bool :=
  match parseSemVer version, parseRange range with
  | some v, some r => evalRange r v
  | _, _ => false

/-- `new semver.Range(s)` throws on an unparsable range; a validated range
keeps its original text. -/
def mkRange (s : String) : Option String :=
  if (parseRange s).isSome then some s else none

/-- The errors a resolution run can raise. -/
inductive RErr
  | noVersionFound (srcSlug tgtSlug range : String)
  | deprecated (slug : String)
  | forgeUnavailable (slug : String)
  | stateInvariant (msg : String)
  | invalidRange (msg : String)
deriving DecidableEq, Repr

deriving instance DecidableEq for Except

/-! ## Module declarations and the heap

JavaScript module-declaration objects are mutable and shared between the
store, the graph and requirements.  We model the objects by identifiers into
a heap; the only field the resolver mutates after construction is `version`.
-/

abbrev ModId := Nat

structure ForgeDependency where
  name : String
  version_requirement : Option String := none
deriving DecidableEq, Repr

structure ModuleDeclaration where
  author : String := ""
  name : String := ""
  forgeModule : Bool := true
  version : Option String := none
  git : Option String := none
  ref : Option String := none
  comments : List String := []
  /-- For a repo module, the `dependencies` array of its `metadata.json`
  (captured when the repository was cloned during parsing). -/
  gitDependencies : Option (List ForgeDependency) := none
deriving DecidableEq, Repr

def ModuleDeclaration.getSlug (m : ModuleDeclaration) : String :=
  m.author ++ "-" ++ m.name

/-- JavaScript truthiness of `module.version`: `undefined` and `''` are falsy. -/
def ModuleDeclaration.versionTruthy (m : ModuleDeclaration) : Bool :=
  match m.version with
  | some v => v ≠ ""
  | none => false

abbrev Heap := List ModuleDeclaration

def Heap.getM (h : Heap) (i : ModId) : Option ModuleDeclaration := h.get? i

def Heap.slugOf (h : Heap) (i : ModId) : String :=
  ((h.getM i).map ModuleDeclaration.getSlug).getD ""

def Heap.versionOf (h : Heap) (i : ModId) : Option String :=
  (h.getM i).bind ModuleDeclaration.version

/-- `module.version = v` on the object `i`. -/
def Heap.setVersion (h : Heap) (i : ModId) (v : Option String) : Heap :=
  match h.getM i with
  | some m => h.set i { m with version := v }
  | none => h

/-- Allocate a fresh module object; returns its identifier. -/
def Heap.alloc (h : Heap) (m : ModuleDeclaration) : ModId × Heap :=
  (h.length, h ++ [m])

/-! ## Requirements -/

inductive RequirementSource
  | Puppetfile
  | Dependency
deriving DecidableEq, Repr

structure Requirement where
  source : Option RequirementSource := none
  sourceModule : Option ModId := none
  targetModule : Option ModId := none
  dependencyRange : Option String := none
deriving DecidableEq, Repr

/-- `Requirement.withTargetModule`: records the target and, when the target
declaration carries a (truthy) version while no dependency range is set yet,
defaults the range to `<= <version>`.  Constructing that `Range` can throw
when the version is unparsable. -/
def Requirement.withTargetModule (r : Requirement) (mid : ModId)
    (decl : ModuleDeclaration) : Except RErr Requirement :=
  let r' : Requirement := { r with targetModule := some mid }
  if decl.versionTruthy ∧ r.dependencyRange = none then
    match mkRange ("<= " ++ (decl.version.getD "")) with
    | some rg => .ok { r' with dependencyRange := some rg }
    | none => .error (.invalidRange ("<= " ++ (decl.version.getD "")))
  else .ok r'

def Requirement.withSource (r : Requirement) (s : RequirementSource) : Requirement :=
  { r with source := some s }

def Requirement.withSourceModule (r : Requirement) (mid : Option ModId) : Requirement :=
  { r with sourceModule := mid }

/-- `Requirement.withDependencyRange` with an already-validated range. -/
def Requirement.withDependencyRange (r : Requirement) (rg : String) : Requirement :=
  { r with dependencyRange := some rg }

/-- `Requirement.isValid`: the source returns `true` for a fully-populated
requirement and *throws* (a string) in every other case. -/
def Requirement.isValid (r : Requirement) : Except RErr Bool :=
  if r.source = some .Dependency ∧ r.sourceModule = none then
    .error (.stateInvariant "Requirement has no source module")
  else if r.targetModule = none then
    .error (.stateInvariant "Requirement has no target module")
  else if r.dependencyRange = none then
    .error (.stateInvariant "Requirement has no dependency range")
  else
    .ok true

def Requirement.getEdgeId (h : Heap) (r : Requirement) : String :=
  (if r.source = some .Puppetfile then "puppetfile"
   else ((r.sourceModule.bind h.getM).map ModuleDeclaration.getSlug).getD "")
  ++ "." ++ ((r.targetModule.bind h.getM).map ModuleDeclaration.getSlug).getD ""

/-! ## Dependency graph -/

structure DepEdge where
  key : String
  src : String
  tgt : String
  source : Option RequirementSource := none
  sourceModule : Option ModId := none
  targetModule : Option ModId := none
  dependencyRange : Option String := none
deriving DecidableEq, Repr

structure DependencyGraph where
  nodes : List (String × Option ModId) := []
  edges : List DepEdge := []
deriving DecidableEq, Repr

def DependencyGraph.hasNode (g : DependencyGraph) (n : String) : Bool :=
  g.nodes.any (fun p => p.1 = n)

def DependencyGraph.addNode (g : DependencyGraph) (n : String) (attr : Option ModId) :
    DependencyGraph :=
  { g with nodes := g.nodes ++ [(n, attr)] }

def DependencyGraph.nodeModule (g : DependencyGraph) (n : String) : Option ModId :=
  (g.nodes.find? (fun p => p.1 = n)).bind Prod.snd

def DependencyGraph.hasEdge (g : DependencyGraph) (k : String) : Bool :=
  g.edges.any (fun e => e.key = k)

def DependencyGraph.addEdge (g : DependencyGraph) (e : DepEdge) : DependencyGraph :=
  { g with edges := g.edges ++ [e] }

def DependencyGraph.inEdges (g : DependencyGraph) (n : String) : List DepEdge :=
  g.edges.filter (fun e => e.tgt = n)

def DependencyGraph.outEdges (g : DependencyGraph) (n : String) : List DepEdge :=
  g.edges.filter (fun e => e.src = n)

def DependencyGraph.dropNode (g : DependencyGraph) (n : String) : DependencyGraph :=
  { nodes := g.nodes.filter (fun p => p.1 ≠ n),
    edges := g.edges.filter (fun e => e.src ≠ n ∧ e.tgt ≠ n) }

/-- The edge-range check made for one incoming edge: trivially true when the
module carries no (truthy) version, otherwise `semver.satisfies` against the
edge's stored range (`satisfies(v, undefined)` is false). -/
def edgeOk (m : ModuleDeclaration) (e : DepEdge) : Bool :=
  match m.version with
  | none => true
  | some v =>
    if v = "" then true
    else
      match e.dependencyRange with
      | some rg => satisfies v rg
      | none => false

/-- `DependencyGraph.isValid(module)`: `everyInEdge` over the node named by
the module's slug; graphology throws when that node is absent. -/
def DependencyGraph.isValid (g : DependencyGraph) (m : ModuleDeclaration) :
    Except RErr Bool :=
  if ¬ g.hasNode m.getSlug then .error (.stateInvariant "node not found in graph")
  else .ok ((g.inEdges m.getSlug).all (edgeOk m))

/-! ## Requirements store -/

abbrev RequirementsStore := List Requirement

def RequirementsStore.addRequirement (s : RequirementsStore) (r : Requirement) :
    RequirementsStore := s ++ [r]

def RequirementsStore.hasNextRequirement (s : RequirementsStore) : Bool := s.length > 0

def RequirementsStore.getNextRequirement (s : RequirementsStore) :
    Option Requirement × RequirementsStore :=
  match s with
  | [] => (none, [])
  | r :: rest => (some r, rest)

/-- `RequirementsStore.withPuppetFile`: one requirement per top-level module,
in order: `withTargetModule` (which may default the range to `<= v`), then
`withSource(Puppetfile)`, then `withDependencyRange(new Range('=' + version))`
which overwrites the default and throws on an invalid range. -/
def RequirementsStore.withPuppetFile (h : Heap) (mods : List ModId) :
    Except RErr RequirementsStore :=
  mods.foldlM
    (fun acc mid => do
      match h.getM mid with
      | none => .error (.stateInvariant "missing module object")
      | some decl =>
        let r ← Requirement.withTargetModule {} mid decl
        let r := r.withSource .Puppetfile
        match mkRange ("=" ++ (decl.version.getD "")) with
        | some rg => .ok (acc.addRequirement (r.withDependencyRange rg))
        | none => .error (.invalidRange ("=" ++ (decl.version.getD ""))))
    []

/-- `RequirementsStore.updateTargetVersion`: overwrite `targetModule.version`
on every queued requirement whose target slug matches (a heap mutation, since
the module objects are shared). -/
def RequirementsStore.updateTargetVersion (s : RequirementsStore) (h : Heap)
    (slug version : String) : Heap :=
  s.foldl
    (fun acc r =>
      match r.targetModule with
      | some mid => if acc.slugOf mid = slug then acc.setVersion mid (some version) else acc
      | none => acc)
    h

/-- `RequirementsStore.deleteSourceRequirements`: the source keeps exactly the
requirements that *have* a source module whose slug differs from the given
slug — requirements without a source module are removed as well. -/
def RequirementsStore.deleteSourceRequirements (s : RequirementsStore) (h : Heap)
    (slug : String) : RequirementsStore :=
  s.filter
    (fun r =>
      match r.sourceModule with
      | some mid => h.slugOf mid ≠ slug
      | none => false)

/-! ## Forge registry and cache

The remote forge is an external collaborator; a `Registry` is the static
content it serves.  The `ForgeCache` release map is the only mutable part
(release lists shrink and regrow during backtracking); module data and
release-dependency lookups are cached idempotently, so they are modelled as
pure registry reads. -/

structure DeprecationStatus where
  deprecatedAt : String
  deprecatedFor : String := ""
  supersededBy : String := ""
deriving DecidableEq, Repr

structure RegistryModule where
  releases : List String := []
  deprecated : Option DeprecationStatus := none
deriving DecidableEq, Repr

structure Registry where
  /-- `GET /v3/modules/{slug}`, keyed by slug; a missing key is a 404. -/
  mods : List (String × RegistryModule) := []
  /-- `GET /v3/releases/{slug}-{version}`: the release dependency lists,
  keyed by slug and the interpolated version text. -/
  deps : List ((String × String) × List ForgeDependency) := []
deriving Repr

def alookup {α : Type} (l : List (String × α)) (k : String) : Option α :=
  (l.find? (fun p => p.1 = k)).map Prod.snd

/-- Write a key in an association map.  Only `alookup` ever reads the maps,
so the representation keeps the newest binding in front. -/
def aset {α : Type} (l : List (String × α)) (k : String) (v : α) : List (String × α) :=
  (k, v) :: l.filter (fun p => p.1 ≠ k)

def dlookup {α : Type} (l : List ((String × String) × α)) (k : String × String) : Option α :=
  (l.find? (fun p => p.1 = k)).map Prod.snd

abbrev ReleaseCache := List (String × List String)

/-- `ForgeCache.getReleases`: return the cached list, populating it from the
registry on first use; a slug the registry does not know is a transport
error. -/
def ForgeCache.getReleases (reg : Registry) (cache : ReleaseCache) (slug : String) :
    Except RErr (List String × ReleaseCache) :=
  match alookup cache slug with
  | some l => .ok (l, cache)
  | none =>
    match alookup reg.mods slug with
    | none => .error (.forgeUnavailable slug)
    | some rm => .ok (rm.releases, aset cache slug rm.releases)

def ForgeCache.updateAvailableReleases (cache : ReleaseCache) (slug : String)
    (releases : List String) : ReleaseCache :=
  aset cache slug releases

/-- `ForgeCache.getDeprecationStatus`: derived from the module data; an
empty `deprecated_at` is falsy and means "not deprecated". -/
def ForgeCache.getDeprecationStatus (reg : Registry) (slug : String) :
    Except RErr (Option DeprecationStatus) :=
  match alookup reg.mods slug with
  | none => .error (.forgeUnavailable slug)
  | some rm =>
    match rm.deprecated with
    | some d => if d.deprecatedAt ≠ "" then .ok (some d) else .ok none
    | none => .ok none

/-! ## Resolver state -/

structure RState where
  heap : Heap := []
  graph : DependencyGraph := {}
  cache : ReleaseCache := []
  store : RequirementsStore := []
deriving DecidableEq, Repr

/-- Fresh module creation during dependency materialisation:
`new ModuleDeclaration().withForgeApiUrl(url).fromText("mod 'author-name'")` —
a forge module without a literal version, whose version resolves to the head
of the (cached) release list.  The declaration regex requires a nonempty
author and name. -/
def newDepModule (reg : Registry) (st : RState) (author name : String) :
    Except RErr (ModId × RState) :=
  if author = "" ∨ name = "" then .error (.stateInvariant "Invalid module declaration")
  else do
    let slug := author ++ "-" ++ name
    let (rels, cache') ← ForgeCache.getReleases reg st.cache slug
    let decl : ModuleDeclaration :=
      { author := author, name := name, forgeModule := true, version := rels.head? }
    let (mid, heap') := st.heap.alloc decl
    .ok (mid, { st with heap := heap', cache := cache' })

/-- The version key the release-dependency request interpolates into the URL:
JavaScript renders an undefined version as the text `undefined`. -/
def versionKey (v : Option String) : String := v.getD "undefined"

/-- `ModuleDeclaration._getVersion`: the module's own version when truthy,
otherwise the newest cached release. -/
def moduleVersionForDeps (reg : Registry) (st : RState) (m : ModuleDeclaration) :
    Except RErr (Option String × RState) :=
  if m.versionTruthy then .ok (m.version, st)
  else do
    let (rels, cache') ← ForgeCache.getReleases reg st.cache m.getSlug
    .ok (rels.head?, { st with cache := cache' })

/-- Materialise one raw dependency into a `Requirement`:
split the name on `-`/`/` and keep the first two segments, default a missing
`version_requirement` to the empty range, allocate the target module, and
chain `withSource`, `withDependencyRange`, `withSourceModule`,
`withTargetModule` (in that order, so no `<=` default applies). -/
def buildDependency (reg : Registry) (st : RState) (srcMid : ModId)
    (dep : ForgeDependency) : Except RErr (Requirement × RState) := do
  let segs := strSplit dep.name (fun c => c = '/' ∨ c = '-')
  let author := (segs.get? 0).getD "undefined"
  let name := (segs.get? 1).getD "undefined"
  let vreq := dep.version_requirement.getD ""
  match mkRange vreq with
  | none => .error (.invalidRange vreq)
  | some rg => do
    let (tmid, st') ← newDepModule reg st author name
    match st'.heap.getM tmid with
    | none => .error (.stateInvariant "missing fresh module")
    | some tdecl => do
      let r := (Requirement.withSourceModule
        ((({} : Requirement).withSource .Dependency).withDependencyRange rg) (some srcMid))
      let r ← r.withTargetModule tmid tdecl
      .ok (r, st')

def buildDependencies (reg : Registry) (st : RState) (srcMid : ModId) :
    List ForgeDependency → Except RErr (List Requirement × RState)
  | [] => .ok ([], st)
  | d :: rest => do
    let (r, st') ← buildDependency reg st srcMid d
    let (rs, st'') ← buildDependencies reg st' srcMid rest
    .ok (r :: rs, st'')

/-- `ModuleDeclaration.getDependencies`: forge modules fetch the release
dependency list for `(slug, version)` from the cache/registry; repo modules
materialise the `dependencies` array of their `metadata.json` (absent array:
no dependencies). -/
def getDependenciesM (reg : Registry) (st : RState) (mid : ModId) :
    Except RErr (List Requirement × RState) :=
  match st.heap.getM mid with
  | none => .error (.stateInvariant "missing module")
  | some m =>
    if m.forgeModule then do
      let (v, st') ← moduleVersionForDeps reg st m
      match dlookup reg.deps (m.getSlug, versionKey v) with
      | none => .error (.forgeUnavailable (m.getSlug ++ "-" ++ versionKey v))
      | some raw => buildDependencies reg st' mid raw
    else
      match m.gitDependencies with
      | none => .ok ([], st)
      | some raw => buildDependencies reg st mid raw

/-! ## The version search (`Requirement.getNewVersion`) -/

/-- One backtracking pass: repeatedly remove the head of the release list
(keeping the cache in sync), set it as the target's version and re-check the
graph; reinsert the first (truthy) version the graph validates.  The state
mutations survive even when the search fails. -/
def gnvLoop (tmid : ModId) (slug : String) (noVersionErr : RErr) :
    List String → RState → Except RErr String × RState
  | [], st => (.error noVersionErr, st)
  | v :: rest, st =>
    let st := { st with
      cache := ForgeCache.updateAvailableReleases st.cache slug rest,
      heap := st.heap.setVersion tmid (some v) }
    match st.heap.getM tmid with
    | none => (.error (.stateInvariant "missing module"), st)
    | some decl =>
      match st.graph.isValid decl with
      | .error _ => (.error (.stateInvariant "node not found in graph"), st)
      | .ok valid =>
        if valid ∧ v ≠ "" then
          (.ok v,
           { st with cache := ForgeCache.updateAvailableReleases st.cache slug (v :: rest) })
        else gnvLoop tmid slug noVersionErr rest st

/-- `Requirement.getNewVersion`: if the graph validates the target at its
current version, return that version (empty text when unset) without touching
the release list; otherwise run the backtracking search, raising
`NoVersionFound` on exhaustion. -/
def Requirement.getNewVersion (reg : Registry) (r : Requirement) (st : RState) :
    Except RErr String × RState :=
  match r.targetModule with
  | none => (.ok "", st)
  | some tmid =>
    match st.heap.getM tmid with
    | none => (.error (.stateInvariant "missing module"), st)
    | some decl =>
      match st.graph.isValid decl with
      | .error _ => (.error (.stateInvariant "node not found in graph"), st)
      | .ok valid =>
        if valid then (.ok (decl.version.getD ""), st)
        else
          let slug := decl.getSlug
          let srcSlug :=
            ((r.sourceModule.bind st.heap.getM).map ModuleDeclaration.getSlug).getD "Puppetfile"
          let err := RErr.noVersionFound srcSlug slug (r.dependencyRange.getD "")
          match ForgeCache.getReleases reg st.cache slug with
          | .error e => (.error e, st)
          | .ok (rels, cache') => gnvLoop tmid slug err rels { st with cache := cache' }

/-! ## The resolver (`DependencyResolver`) -/

structure ResolverConfig where
  registry : Registry
  ignoreList : List String := []
  hideList : List String := []
deriving Repr

/-- `DependencyResolver._checkDeprecationStatus`: a deprecated module raises
`ModuleDeprecated` unless its slug is on the ignore list (then only a warning
is logged). -/
def checkDeprecationStatus (cfg : ResolverConfig) (st : RState) (mid : ModId) :
    Except RErr Unit :=
  match st.heap.getM mid with
  | none => .error (.stateInvariant "missing module")
  | some m =>
    if ¬ m.forgeModule then .ok ()
    else do
      let d ← ForgeCache.getDeprecationStatus cfg.registry m.getSlug
      match d with
      | none => .ok ()
      | some _ =>
        if cfg.ignoreList.any (fun s => s = m.getSlug) then .ok ()
        else .error (.deprecated m.getSlug)

/-- `DependencyResolver._addToGraph`: add the source node (`puppetfile` or
the source module's slug) if absent, then the target node if absent, then the
edge keyed `source.target` if no edge with that key exists. -/
def addToGraph (st : RState) (r : Requirement) : RState :=
  let g := st.graph
  let srcModSlug := ((r.sourceModule.bind st.heap.getM).map ModuleDeclaration.getSlug).getD ""
  let g :=
    if r.source = some .Dependency ∧ ¬ g.hasNode srcModSlug then
      g.addNode srcModSlug r.sourceModule
    else if r.source = some .Puppetfile ∧ ¬ g.hasNode "puppetfile" then
      g.addNode "puppetfile" none
    else g
  let tgtSlug := ((r.targetModule.bind st.heap.getM).map ModuleDeclaration.getSlug).getD ""
  let g := if ¬ g.hasNode tgtSlug then g.addNode tgtSlug r.targetModule else g
  let sourceKey :=
    match r.sourceModule with
    | some mid => st.heap.slugOf mid
    | none => "puppetfile"
  let key := sourceKey ++ "." ++ tgtSlug
  let g :=
    if ¬ g.hasEdge key then
      g.addEdge
        { key := key, src := sourceKey, tgt := tgtSlug, source := r.source,
          sourceModule := r.sourceModule, targetModule := r.targetModule,
          dependencyRange := r.dependencyRange }
    else g
  { st with graph := g }

/-- The dependency walk of `_checkVersion`'s unchanged-version branch: a
dependency whose target already has a graph node the graph validates is
rebound to that node (no new requirement, no new edge); otherwise a fresh
requirement `{Dependency, target-module → dependency}` is appended to the
store (`withTargetModule` before `withDependencyRange`, so the `<=` default
is built and then overwritten). -/
def enqueueDependencies (tmid : ModId) : List Requirement → RState → Except RErr RState
  | [], st => .ok st
  | d :: rest, st => do
    let _ ← d.isValid
    match d.targetModule, d.dependencyRange with
    | some dmid, some rg =>
      match st.heap.getM dmid with
      | none => .error (.stateInvariant "missing module")
      | some ddecl =>
        let skip : Except RErr Bool :=
          if st.graph.hasNode ddecl.getSlug then st.graph.isValid ddecl else .ok false
        match skip with
        | .error e => .error e
        | .ok true => enqueueDependencies tmid rest st
        | .ok false =>
          match st.heap.getM tmid with
          | none => .error (.stateInvariant "missing module")
          | some _ => do
            let r := (({} : Requirement).withSource .Dependency).withSourceModule (some tmid)
            let r ← r.withTargetModule dmid ddecl
            let r := r.withDependencyRange rg
            enqueueDependencies tmid rest { st with store := st.store.addRequirement r }
    | _, _ => enqueueDependencies tmid rest st

/-- `DependencyResolver._checkVersion`: on an unchanged version, enqueue the
target's dependencies; on a changed version, propagate the new version to the
module object and the queued requirements, drop sole-dependency children,
delete the target's source requirements, re-enqueue one replacement
requirement per incoming edge and drop the target's node. -/
def checkVersion (cfg : ResolverConfig) (st : RState) (tmid : ModId)
    (oldVersion newVersion : String) : Except RErr RState :=
  if newVersion = oldVersion then do
    let (deps, st') ← getDependenciesM cfg.registry st tmid
    enqueueDependencies tmid deps st'
  else
    let slug := st.heap.slugOf tmid
    let heap := st.heap.setVersion tmid (some newVersion)
    let heap := st.store.updateTargetVersion heap slug newVersion
    let st := { st with heap := heap }
    let outs := st.graph.outEdges slug
    let g :=
      outs.foldl
        (fun g e =>
          if g.hasEdge e.key then
            if ¬ (g.inEdges e.tgt).any (fun e2 => e2.src ≠ e.src) then g.dropNode e.tgt
            else g
          else g)
        st.graph
    let store := st.store.deleteSourceRequirements st.heap slug
    let ins := g.inEdges slug
    let rebuilt : Except RErr RequirementsStore :=
      ins.foldlM
        (fun acc e =>
          match st.heap.getM tmid with
          | none => .error (.stateInvariant "missing module")
          | some tdecl => do
            let r := (({} : Requirement).withSource .Dependency).withSourceModule e.sourceModule
            let r ← r.withTargetModule tmid tdecl
            let r : Requirement := { r with dependencyRange := e.dependencyRange }
            .ok (acc.addRequirement r))
        store
    match rebuilt with
    | .error e => .error e
    | .ok store' => .ok { st with graph := g.dropNode slug, store := store' }

/-- One iteration of the `resolve` while-loop applied to an already-dequeued
requirement. -/
def processRequirement (cfg : ResolverConfig) (st : RState) (r : Requirement) :
    Except RErr RState := do
  let _ ← r.isValid
  match r.targetModule with
  | none => .ok st
  | some tmid => do
    (match r.sourceModule with
     | some smid => checkDeprecationStatus cfg st smid
     | none => .ok ())
    checkDeprecationStatus cfg st tmid
    let st := addToGraph st r
    let oldVersion := (st.heap.versionOf tmid).getD ""
    let tgtSlug := st.heap.slugOf tmid
    match r.getNewVersion cfg.registry st with
    | (.error e, st') =>
      match e with
      | .noVersionFound a b c =>
        if cfg.ignoreList.any (fun s => s = tgtSlug) then
          .ok st'
        else .error (.noVersionFound a b c)
      | e => .error e
    | (.ok newVersion, st') => checkVersion cfg st' tmid oldVersion newVersion

/-- The `resolve` drain loop, fuel-bounded (running out of fuel is reported
as an error, never as success). -/
def resolveLoop (cfg : ResolverConfig) : Nat → RState → Except RErr RState
  | 0, _ => .error (.stateInvariant "fuel exhausted")
  | fuel + 1, st =>
    match st.store with
    | [] => .ok st
    | r :: rest => do
      let st' ← processRequirement cfg { st with store := rest } r
      resolveLoop cfg fuel st'

/-- The final graph walk of `resolve`: skip hidden slugs; a node goes to the
top-level list when the input manifest has a module under the split
`author-name` of the node id or when some incoming edge has source
`Puppetfile`; every other node except `puppetfile` goes to the dependent
list. -/
structure PuppetFileOut where
  modules : List (Option ModId) := []
  dependentModules : List (Option ModId) := []
deriving DecidableEq, Repr

def buildOutput (cfg : ResolverConfig) (srcModules : List (String × String))
    (st : RState) : PuppetFileOut :=
  st.graph.nodes.foldl
    (fun acc p =>
      let nodeId := p.1
      if cfg.hideList.any (fun s => s = nodeId) then acc
      else
        let parts := strSplit nodeId (fun c => c = '-')
        let author := (parts.get? 0).getD ""
        let hasModule :=
          match parts.get? 1 with
          | some nm => srcModules.any (fun m => m.1 = author ∧ m.2 = nm)
          | none => false
        let pfInEdge :=
          (st.graph.inEdges nodeId).any (fun e => e.source = some .Puppetfile)
        if hasModule || pfInEdge then
          { acc with modules := acc.modules ++ [p.2] }
        else if nodeId ≠ "puppetfile" then
          { acc with dependentModules := acc.dependentModules ++ [p.2] }
        else acc)
    {}

/-- A full `resolve` run from an initial state. -/
def resolve (cfg : ResolverConfig) (srcModules : List (String × String))
    (fuel : Nat) (st : RState) : Except RErr (PuppetFileOut × RState) := do
  let st' ← resolveLoop cfg fuel st
  .ok (buildOutput cfg srcModules st', st')

/-! ## Setting up a run from a manifest

A manifest for our purposes is the list of top-level forge modules (author,
name, pinned version); the initial state allocates their declaration objects
and seeds the store through `RequirementsStore.withPuppetFile`. -/

structure ManifestModule where
  author : String
  name : String
  version : String
deriving DecidableEq, Repr

def initialState (mf : List ManifestModule) : Except RErr RState := do
  let heap : Heap := mf.map (fun m =>
    { author := m.author, name := m.name, forgeModule := true, version := some m.version })
  let store ← RequirementsStore.withPuppetFile heap (List.range heap.length)
  .ok { heap := heap, store := store }

def runResolver (cfg : ResolverConfig) (mf : List ManifestModule) (fuel : Nat) :
    Except RErr (PuppetFileOut × RState) := do
  let st ← initialState mf
  resolve cfg (mf.map (fun m => (m.author, m.name))) fuel st

/-! ## Observables of a finished run -/

def isOkRun (r : Except RErr (PuppetFileOut × RState)) : Bool :=
  match r with
  | .ok _ => true
  | .error _ => false

/-- The graph validator applied to every node of a final state (a node
without a module attribute — the `puppetfile` node — is vacuously fine). -/
def graphAllValid (st : RState) : Bool :=
  st.graph.nodes.all
    (fun p =>
      match p.2.bind st.heap.getM with
      | some m =>
        match st.graph.isValid m with
        | .ok b => b
        | .error _ => false
      | none => true)

def runGraphValid (r : Except RErr (PuppetFileOut × RState)) : Bool :=
  match r with
  | .ok (_, st) => graphAllValid st
  | .error _ => true

def moduleSlugOfOpt (st : RState) (o : Option ModId) : Option String :=
  (o.bind st.heap.getM).map ModuleDeclaration.getSlug

/-- The output lists of a successful run, rendered as module slugs. -/
def runOutputSlugs (r : Except RErr (PuppetFileOut × RState)) :
    Option (List (Option String) × List (Option String)) :=
  match r with
  | .ok (out, st) =>
    some (out.modules.map (moduleSlugOfOpt st), out.dependentModules.map (moduleSlugOfOpt st))
  | .error _ => none

/-! ## Concrete scenario: the unsatisfiable pair from the specification

`test-wrongdepa` needs `test-wrongdepc >=1.2.3`, `test-wrongdepb` needs
`test-wrongdepc <1.2.3`, and the registry only offers `1.2.3`. -/

def regWrong : Registry :=
  { mods := [("test-wrongdepa", { releases := ["1.2.3"] }),
             ("test-wrongdepb", { releases := ["1.2.3"] }),
             ("test-wrongdepc", { releases := ["1.2.3"] })],
    deps :=
      [(("test-wrongdepa", "1.2.3"),
         [{ name := "test/wrongdepc", version_requirement := some ">=1.2.3" }]),
       (("test-wrongdepb", "1.2.3"),
         [{ name := "test/wrongdepc", version_requirement := some "<1.2.3" }]),
       (("test-wrongdepc", "1.2.3"), [])] }

def mfWrong : List ManifestModule :=
  [⟨"test", "wrongdepa", "1.2.3"⟩, ⟨"test", "wrongdepb", "1.2.3"⟩]

/-- The run of the unsatisfiable pair with `test-wrongdepc` ignored. -/
def c1Run : Except RErr (PuppetFileOut × RState) :=
  runResolver { registry := regWrong, ignoreList := ["test-wrongdepc"] } mfWrong 50

/-! ## Concrete scenario: a pinned top-level module lost from the output

All modules live on one forge; `test-t` is pinned to `1.0.0` in the manifest
while the registry's newest release is `2.0.0`.  The discovered dependency
chains trigger a cascade of version downgrades during which the node of
`test-t` is dropped, the replacement requirements that would have re-added it
are deleted from the store, and the run still finishes successfully. -/

def regT : Registry :=
  { mods := [("test-b", { releases := ["1.0.0"] }),
             ("test-t", { releases := ["2.0.0", "1.0.0"] }),
             ("test-p", { releases := ["2.0.0", "1.0.0"] }),
             ("test-d", { releases := ["1.0.0"] }),
             ("test-v", { releases := ["1.0.0"] }),
             ("test-w", { releases := ["1.0.0"] }),
             ("test-x", { releases := ["2.0.0", "1.0.0"] })],
    deps := [(("test-b", "1.0.0"),
               [{ name := "test/d", version_requirement := some ">=0.5.0" },
                { name := "test/v", version_requirement := some ">=0.5.0" }]),
             (("test-t", "1.0.0"), []),
             (("test-t", "2.0.0"), []),
             (("test-p", "1.0.0"),
               [{ name := "test/x", version_requirement := some ">=0.5.0" }]),
             (("test-p", "2.0.0"), []),
             (("test-d", "1.0.0"),
               [{ name := "test/p", version_requirement := some ">=0.5.0" }]),
             (("test-v", "1.0.0"),
               [{ name := "test/w", version_requirement := some ">=0.5.0" }]),
             (("test-w", "1.0.0"),
               [{ name := "test/x", version_requirement := some "<2.0.0" }]),
             (("test-x", "2.0.0"),
               [{ name := "test/t", version_requirement := some ">=0.5.0" }]),
             (("test-x", "1.0.0"), [])] }

def mfT : List ManifestModule :=
  [⟨"test", "b", "1.0.0"⟩, ⟨"test", "t", "1.0.0"⟩, ⟨"test", "p", "1.0.0"⟩]

/-- The cascade run: empty ignore list, empty hide list. -/
def c5Run : Except RErr (PuppetFileOut × RState) :=
  runResolver { registry := regT } mfT 200

/-! ## Concrete data for the requirements-store claims -/

def c4Heap : Heap :=
  [{ author := "test", name := "a", version := some "1.0.0" },
   { author := "test", name := "b", version := some "1.0.0" },
   { author := "test", name := "t", version := some "1.0.0" }]

/-- A manifest-sourced requirement (no source module) targeting `test-t`. -/
def c4ManifestReq : Requirement :=
  { source := some .Puppetfile, sourceModule := none, targetModule := some 2,
    dependencyRange := some "=1.0.0" }

/-- A dependency requirement sourced at `test-a`. -/
def c4ReqFromA : Requirement :=
  { source := some .Dependency, sourceModule := some 0, targetModule := some 2,
    dependencyRange := some ">=1.0.0" }

/-- A dependency requirement sourced at `test-b`. -/
def c4ReqFromB : Requirement :=
  { source := some .Dependency, sourceModule := some 1, targetModule := some 2,
    dependencyRange := some ">=1.0.0" }

def c4Store : RequirementsStore := [c4ManifestReq, c4ReqFromA, c4ReqFromB]

/-! ## Concrete data for the invalid-requirement claim -/

def c9Heap : Heap :=
  [{ author := "test", name := "broken", version := some "1.0.0" },
   { author := "test", name := "fine", version := some "1.0.0" }]

/-- A dequeued requirement with a target module but no dependency range. -/
def c9BadReq : Requirement :=
  { source := some .Puppetfile, sourceModule := none, targetModule := some 0,
    dependencyRange := none }

/-- A well-formed manifest requirement behind it. -/
def c9GoodReq : Requirement :=
  { source := some .Puppetfile, sourceModule := none, targetModule := some 1,
    dependencyRange := some "=1.0.0" }

def c9Registry : Registry :=
  { mods := [("test-broken", { releases := ["1.0.0"] }),
             ("test-fine", { releases := ["1.0.0"] })],
    deps := [(("test-broken", "1.0.0"), []), (("test-fine", "1.0.0"), [])] }

def c9State : RState := { heap := c9Heap, store := [c9BadReq, c9GoodReq] }

def c9Run : Except RErr RState :=
  resolveLoop { registry := c9Registry } 10 c9State

/-- The same state with the invalid requirement removed: the loop drains. -/
def c9RunSkipping : Except RErr RState :=
  resolveLoop { registry := c9Registry } 10 { c9State with store := [c9GoodReq] }

def isOkLoop (r : Except RErr RState) : Bool :=
  match r with
  | .ok _ => true
  | .error _ => false

/-- Successive FIFO dequeues through the store interface. -/
def dequeues (s : RequirementsStore) : Nat → Option Requirement
  | 0 => (s.getNextRequirement).1
  | n + 1 => dequeues (s.getNextRequirement).2 n

/-- The requirement that seeding from a manifest builds for module `mid`. -/
def pfSeedRequirement (h : Heap) (mid : ModId) : Requirement :=
  { source := some .Puppetfile, sourceModule := none, targetModule := some mid,
    dependencyRange := some ("=" ++ (((h.getM mid).bind ModuleDeclaration.version).getD "")) }

/-! Concrete data for witnesses. -/

def c7m : ModuleDeclaration := { author := "test", name := "m", version := some "1.5.0" }

def c7g : DependencyGraph :=
  { nodes := [("puppetfile", none), ("test-m", some 0)],
    edges := [{ key := "puppetfile.test-m", src := "puppetfile", tgt := "test-m",
                source := some .Puppetfile, targetModule := some 0,
                dependencyRange := some ">=1.0.0" }] }

def c10decl : ModuleDeclaration := { author := "test", name := "c", version := some "1.2.3" }

/-- The boolean value of the graph validator at slug `decl.getSlug` with a
candidate version `u`. -/
def validB (g : DependencyGraph) (decl : ModuleDeclaration) (u : String) : Bool :=
  (g.inEdges decl.getSlug).all (edgeOk { decl with version := some u })

def c2decl : ModuleDeclaration := { author := "test", name := "c", version := some "2.0.0" }

def c2req : Requirement :=
  { source := some .Dependency, sourceModule := none, targetModule := some 0,
    dependencyRange := some "<=1.5.0" }

def c2st : RState :=
  { heap := [c2decl],
    graph := { nodes := [("test-a", none), ("test-c", some 0)],
               edges := [{ key := "test-a.test-c", src := "test-a", tgt := "test-c",
                           source := some .Dependency, targetModule := some 0,
                           dependencyRange := some "<=1.5.0" }] },
    cache := [("test-c", ["2.0.0", "1.5.0"])] }

def c6Heap : Heap :=
  [{ author := "test", name := "one", version := some "1.0.0" },
   { author := "test", name := "two", version := some "2.0.0" }]

/-! Concrete data for the ignore-list claim: `test-a` needs `test-c >=2.0.0`
(unsatisfiable, `test-c` ignored), `test-b` needs `test-e <1.0.0`
(unsatisfiable, `test-e` not ignored). -/

def regC3 : Registry :=
  { mods := [("test-a", { releases := ["1.2.3"] }),
             ("test-b", { releases := ["1.2.3"] }),
             ("test-c", { releases := ["1.2.3"] }),
             ("test-e", { releases := ["1.2.3"] })],
    deps := [(("test-a", "1.2.3"), [{ name := "test/c", version_requirement := some ">=2.0.0" }]),
             (("test-b", "1.2.3"), [{ name := "test/e", version_requirement := some "<1.0.0" }]),
             (("test-c", "1.2.3"), []),
             (("test-e", "1.2.3"), [])] }

def mfC3 : List ManifestModule := [⟨"test", "a", "1.2.3"⟩, ⟨"test", "b", "1.2.3"⟩]

/-! Concrete data for the witness of the amended C3 theorem: a single
queued requirement whose target cannot satisfy its range. -/

def c3wHeap : Heap :=
  [{ author := "test", name := "a", version := some "1.0.0" },
   { author := "test", name := "c", version := some "1.0.0" }]

def c3wReq : Requirement :=
  { source := some .Dependency, sourceModule := some 0, targetModule := some 1,
    dependencyRange := some ">=2.0.0" }

def c3wState : RState :=
  { heap := c3wHeap, graph := { nodes := [("test-a", some 0)] }, store := [c3wReq] }

def c3wRegistry : Registry :=
  { mods := [("test-a", { releases := ["1.0.0"] }),
             ("test-c", { releases := ["1.0.0"] })],
    deps := [(("test-a", "1.0.0"), []), (("test-c", "1.0.0"), [])] }

/-! ## The manifest parser and emitter (`PuppetFile`)

The source splits the manifest text on newlines and runs a line machine;
emission renders through a fixed template.  Both are modelled at the same
line level, with `strSplit`/`strJoinLines` providing the text round-trip.
The declaration regex is modelled for the hyphen-separated `author-name`
form (authors without `-`/`/`), which is the form the emitter produces. -/

def containsSubChars (hay sub : List Char) : Bool :=
  if sub.isPrefixOf hay then true
  else
    match hay with
    | [] => false
    | _ :: t => containsSubChars t sub

/-- JavaScript `line.includes(sub)`. -/
def containsSub (s sub : String) : Bool := containsSubChars s.data sub.data

/-- The line matches `/^\s*#\s*(?<comment>.*)$/`. -/
def isCommentLine (line : String) : Bool :=
  (line.data.dropWhile isSpaceChar).head? = some '#' 

/-- The captured comment group of a comment line. -/
def commentText (line : String) : String :=
  ⟨((line.data.dropWhile isSpaceChar).drop 1).dropWhile isSpaceChar⟩

def isBlankLine (line : String) : Bool := line.data.all isSpaceChar

/-- The first match of `/forge '([^']+)'/` anywhere in the line. -/
def forgeMatchChars : List Char → Option String
  | [] => none
  | c :: rest =>
    if ("forge '".data).isPrefixOf (c :: rest) then
      let after := (c :: rest).drop 7
      let url := after.takeWhile (fun ch => ch ≠ '\'')
      if url ≠ [] ∧ (after.drop url.length).head? = some '\'' then some ⟨url⟩
      else forgeMatchChars rest
    else forgeMatchChars rest

def splitOnArrowAux : List Char → List Char → List (List Char)
  | [], cur => [cur.reverse]
  | [c], cur => [(c :: cur).reverse]
  | c :: c2 :: rest, cur =>
    if c = '=' ∧ c2 = '>' then cur.reverse :: splitOnArrowAux rest []
    else splitOnArrowAux (c2 :: rest) (c :: cur)

/-- JavaScript `split(/=>/)`. -/
def splitOnArrow (cs : List Char) : List (List Char) := splitOnArrowAux cs []

def dropWS (cs : List Char) : List Char := cs.filter (fun c => ¬ isSpaceChar c)

/-- One `key => value` piece: strip quotes and split on `=>`. -/
def paramOfSeg (seg : List Char) : String × Option String :=
  match splitOnArrow (seg.filter (fun c => c ≠ '\'')) with
  | k :: v :: _ => ((⟨k⟩ : String), some (⟨v⟩ : String))
  | [k] => ((⟨k⟩ : String), none)
  | [] => ("", none)

/-- The parameter record of a declaration: strip all whitespace, split on
commas, strip quotes, and split each piece on `=>` into key and value; later
keys overwrite earlier ones. -/
def parseParams (cs : List Char) : List (String × Option String) :=
  ((splitCharsAux (fun c => c = ',') (dropWS cs) []).map paramOfSeg).foldl
    (fun acc kv => kv :: acc.filter (fun p => p.1 ≠ kv.1)) []

def getParam (ps : List (String × Option String)) (k : String) : Option (Option String) :=
  (ps.find? (fun p => p.1 = k)).map Prod.snd

/-- `ModuleDeclaration.fromText` on one (concatenated) declaration:
`mod '<author>-<name>'` with an optional `, '<version>'` group, followed by
`key => value` parameters; a `:git` parameter makes it a repo module (whose
version would come from the repository metadata, not the text). -/
def parseModLine (text : String) : Option ModuleDeclaration :=
  if ("mod '".data).isPrefixOf text.data then
    let r0 := text.data.drop 5
    let author := r0.takeWhile (fun c => c ≠ '-')
    match r0.drop author.length with
    | '-' :: r2 =>
      if author = [] then none
      else
        let nm := r2.takeWhile (fun c => c ≠ '\'')
        match r2.drop nm.length with
        | '\'' :: r4 =>
          if nm = [] then none
          else
            let vp : Option String × List Char :=
              match r4 with
              | ',' :: r5 =>
                let r6 := r5.dropWhile isSpaceChar
                if r6.head? = some '\'' then
                  let r7 := r6.tail
                  let v := r7.takeWhile (fun c => c ≠ '\'')
                  match r7.drop v.length with
                  | '\'' :: r9 => if v = [] then (none, r4) else (some ⟨v⟩, r9)
                  | _ => (none, r4)
                else (none, r4)
              | _ => (none, r4)
            let ps := parseParams vp.2
            match getParam ps ":git" with
            | some g =>
              some { author := ⟨author⟩, name := ⟨nm⟩, forgeModule := false,
                     git := g, ref := (getParam ps ":ref").bind id }
            | none =>
              some { author := ⟨author⟩, name := ⟨nm⟩, forgeModule := true,
                     version := vp.1 }
        | _ => none
    | _ => none
  else none

structure PuppetFile where
  forge : String := "https://forgeapi.puppetlabs.com"
  preambleLines : List String := []
  modules : List ModuleDeclaration := []
  dependentModules : List ModuleDeclaration := []
deriving DecidableEq, Repr

def depIdDefault : String := "## dependencies"

structure ParseSt where
  forge : String := "https://forgeapi.puppetlabs.com"
  cur : String := ""
  inDecl : Bool := false
  inDeps : Bool := false
  curComment : List String := []
  readingComment : List String := []
  modules : List ModuleDeclaration := []
  dependentModules : List ModuleDeclaration := []
deriving DecidableEq, Repr

/-- `addToModules`: parse the pending declaration (throwing on an invalid
one), attach the saved comment block and push it to the section list. -/
def flushSt (st : ParseSt) : Option ParseSt :=
  if st.inDecl ∧ st.cur ≠ "" then
    match parseModLine st.cur with
    | none => none
    | some m =>
      let m := { m with comments := st.curComment }
      some (if st.inDeps then { st with dependentModules := st.dependentModules ++ [m] }
            else { st with modules := st.modules ++ [m] })
  else some st

/-- One line of `PuppetFile.fromText`'s machine. -/
def lineStep (depId : String) (st : ParseSt) (line : String) : Option ParseSt :=
  if strStartsWith line "mod" ∨ containsSub line depId then
    (flushSt st).map fun st1 =>
      let st2 := { st1 with curComment := st1.readingComment, readingComment := [] }
      if containsSub line depId then { st2 with inDeps := true, cur := "", inDecl := false }
      else { st2 with inDecl := true, cur := line }
  else if isCommentLine line then
    some { st with readingComment := st.readingComment ++ [commentText line] }
  else if isBlankLine line then some { st with readingComment := [] }
  else if st.inDecl then some { st with cur := st.cur ++ line }
  else
    match forgeMatchChars line.data with
    | some u => some { st with forge := u }
    | none => some st

def runLines (depId : String) (o : Option ParseSt) (ls : List String) : Option ParseSt :=
  ls.foldl (fun o l => o.bind (fun st => lineStep depId st l)) o

/-- `PuppetFile.fromText` at the line level (the text has already been split
on newlines); the parser never populates the preamble. -/
def PuppetFile.fromLines (depId : String) (ls : List String) : Option PuppetFile :=
  (runLines depId (some {}) ls).bind fun st =>
    (flushSt st).map fun st1 =>
      { forge := st1.forge, modules := st1.modules,
        dependentModules := st1.dependentModules }

/-! Emission, modelling the Handlebars template of `PuppetFile.toText` at
the line level (whitespace semantics fixed by the repository's round-trip
test). -/

def strLtChars : List Char → List Char → Bool
  | [], [] => false
  | [], _ :: _ => true
  | _ :: _, [] => false
  | a :: as, b :: bs =>
    if a.val < b.val then true
    else if b.val < a.val then false
    else strLtChars as bs

def nameLtB (a b : ModuleDeclaration) : Bool := strLtChars a.name.data b.name.data

def insertByName (m : ModuleDeclaration) : List ModuleDeclaration → List ModuleDeclaration
  | [] => [m]
  | x :: xs => if nameLtB m x then m :: x :: xs else x :: insertByName m xs

/-- The `sort(sortByModuleName)` comparator applied as a sort. -/
def sortByName (l : List ModuleDeclaration) : List ModuleDeclaration :=
  l.foldr insertByName []

/-- JS truthiness of the `ref` field used by the template's `if ref` guard. -/
def refTruthy (m : ModuleDeclaration) : Bool :=
  match m.ref with
  | some r => r ≠ ""
  | none => false

def commentLine (c : String) : String := "# " ++ c

def modLine (a n v : String) : String :=
  "mod '" ++ a ++ "-" ++ n ++ "', '" ++ v ++ "'"

def modLineGit1 (a n : String) : String := "mod '" ++ a ++ "-" ++ n ++ "',"

def gitLine (g : String) (hasRef : Bool) : String :=
  "    :git => '" ++ g ++ "'" ++ (if hasRef then "," else "")

def refLine (r : String) : String := "    :ref => '" ++ r ++ "'"

def forgeLine (u : String) : String := "forge '" ++ u ++ "'"

/-- Handlebars `escapeExpression` on one character: the double-stash
substitutions for `&` `<` `>` `"` `'` backquote (code 96) and `=`; every
other character is kept. -/
def hbsEscChar (c : Char) : List Char :=
  if c = '&' then "&amp;".data
  else if c = '<' then "&lt;".data
  else if c = '>' then "&gt;".data
  else if c = '"' then "&quot;".data
  else if c = '\'' then "&#x27;".data
  else if c = Char.ofNat 96 then "&#x60;".data
  else if c = '=' then "&#x3D;".data
  else [c]

/-- Handlebars `escapeExpression`, applied by every double-stash field of
the template (the triple-stash comment bodies are the only raw fields). -/
def hbsEscape (s : String) : String := String.mk (s.data.map hbsEscChar).join

def gitBlock (m : ModuleDeclaration) : List String :=
  m.comments.map commentLine ++
  [modLineGit1 m.author m.name, gitLine (m.git.getD "") (refTruthy m)] ++
  (if refTruthy m then [refLine (m.ref.getD "")] else [])

def forgeBlock (m : ModuleDeclaration) : List String :=
  m.comments.map commentLine ++
  [modLine m.author m.name (m.version.getD "")]

/-- The rendered lines of one repo-module entry: comments raw
(triple-stash), every other field through `hbsEscape`, the `if ref` guard
on the raw ref value. -/
def gitBlockE (m : ModuleDeclaration) : List String :=
  m.comments.map commentLine ++
  [modLineGit1 (hbsEscape m.author) (hbsEscape m.name),
    gitLine (hbsEscape (m.git.getD "")) (refTruthy m)] ++
  (if refTruthy m then [refLine (hbsEscape (m.ref.getD ""))] else [])

/-- The rendered lines of one forge-module entry, fields escaped. -/
def forgeBlockE (m : ModuleDeclaration) : List String :=
  m.comments.map commentLine ++
  [modLine (hbsEscape m.author) (hbsEscape m.name)
    (hbsEscape (m.version.getD ""))]

def joinSep (sep : List String) : List (List String) → List String
  | [] => []
  | [b] => b
  | b :: rest => b ++ sep ++ joinSep sep rest

/-- `PuppetFile.toText` at the line level: forge line, optional preamble,
git modules sorted by name (separated by the template's four-space line),
forge modules sorted by name (separated by blank lines), the dependency
sentinel, dependent modules sorted by name; every double-stash field runs
through `hbsEscape`. -/
def PuppetFile.toLines (depId : String) (pf : PuppetFile) : List String :=
  [forgeLine (hbsEscape pf.forge), ""] ++
  (if pf.preambleLines ≠ [] then pf.preambleLines.map hbsEscape ++ [""] else []) ++
  ["# Git modules", ""] ++
  joinSep ["    "] ((sortByName (pf.modules.filter (fun m => ¬ m.forgeModule))).map gitBlockE) ++
  ["", "# Forge modules", ""] ++
  joinSep [""] ((sortByName (pf.modules.filter (fun m => m.forgeModule))).map forgeBlockE) ++
  ["", hbsEscape depId, ""] ++
  joinSep [""] ((sortByName pf.dependentModules).map forgeBlockE)

/-- The emission specialised to escape-free fields (`hbsEscape` dropped):
the form the parse-simulation lemmas compute with.  On the canonical
domain it agrees with `PuppetFile.toLines` (`toLines_esc`). -/
def toLinesPlain (depId : String) (pf : PuppetFile) : List String :=
  [forgeLine pf.forge, ""] ++
  (if pf.preambleLines ≠ [] then pf.preambleLines ++ [""] else []) ++
  ["# Git modules", ""] ++
  joinSep ["    "] ((sortByName (pf.modules.filter (fun m => ¬ m.forgeModule))).map gitBlock) ++
  ["", "# Forge modules", ""] ++
  joinSep [""] ((sortByName (pf.modules.filter (fun m => m.forgeModule))).map forgeBlock) ++
  ["", depId, ""] ++
  joinSep [""] ((sortByName pf.dependentModules).map forgeBlock)

def strJoinLines : List String → String
  | [] => ""
  | [l] => l
  | l :: rest => l ++ "\n" ++ strJoinLines rest

def PuppetFile.toText (pf : PuppetFile) : String :=
  strJoinLines (pf.toLines depIdDefault)

def PuppetFile.fromText (text : String) : Option PuppetFile :=
  PuppetFile.fromLines depIdDefault (strSplit text (fun c => c = '\n'))

/-! Concrete data for the C8 preamble counterexample: a canonical manifest
whose preamble block is nonempty. -/

def c8pf : PuppetFile :=
  { forge := "https://forge.example",
    preambleLines := ["# organization preamble"],
    modules := [{ author := "test", name := "default", version := some "1.2.3" }],
    dependentModules := [{ author := "test", name := "dependency", version := some "1.2.4" }] }

/-! Wellformedness of the canonical manifest form: the form the emitter
itself produces.  The constraints keep every field clear of the characters
that the parser's regexes treat specially. -/

def plainChar (c : Char) : Prop :=
  c ≠ '\'' ∧ c ≠ '#' ∧ c ≠ ',' ∧ c ≠ '=' ∧ c ≠ '>' ∧ isSpaceChar c = false

def wfWord (s : String) : Prop := s ≠ "" ∧ ∀ c ∈ s.data, plainChar c

def wfAuthor (s : String) : Prop := wfWord s ∧ ∀ c ∈ s.data, c ≠ '-' ∧ c ≠ '/'

def headNotSpace : List Char → Prop
  | [] => True
  | ch :: _ => isSpaceChar ch = false

def wfComment (c : String) : Prop :=
  (∀ ch ∈ c.data, ch ≠ '#' ∧ ch ≠ '\n' ∧ ch ≠ '\r') ∧ headNotSpace c.data

def wfForgeUrl (u : String) : Prop :=
  u ≠ "" ∧ ∀ c ∈ u.data, c ≠ '\'' ∧ c ≠ '#' ∧ c ≠ '\n' ∧ c ≠ '\r'

def wfOptWord : Option String → Prop
  | some s => wfWord s
  | none => False

def wfOptRef : Option String → Prop
  | some s => wfWord s
  | none => True

def wfGitMod (m : ModuleDeclaration) : Prop :=
  m.forgeModule = false ∧ wfAuthor m.author ∧ wfWord m.name ∧
  wfOptWord m.git ∧ wfOptRef m.ref ∧
  ∀ c ∈ m.comments, wfComment c

def wfForgeMod (m : ModuleDeclaration) : Prop :=
  m.forgeModule = true ∧ wfAuthor m.author ∧ wfWord m.name ∧
  wfOptWord m.version ∧
  ∀ c ∈ m.comments, wfComment c

def wfMod (m : ModuleDeclaration) : Prop :=
  (m.forgeModule = true → wfForgeMod m) ∧ (m.forgeModule = false → wfGitMod m)

/-- Strictly ascending module names (adjacent-chain form). -/
def isSortedByName : List ModuleDeclaration → Bool
  | [] => true
  | [_] => true
  | a :: b :: t => nameLtB a b && isSortedByName (b :: t)

/-- A string the Handlebars escaping leaves untouched: it holds none of
the seven escaped characters. -/
def escFree (s : String) : Prop := hbsEscape s = s

/-- Every double-stash field of a module entry is escape-free. -/
def escFreeMod (m : ModuleDeclaration) : Prop :=
  escFree m.author ∧ escFree m.name ∧ escFree (m.version.getD "") ∧
  escFree (m.git.getD "") ∧ escFree (m.ref.getD "")

/-- A manifest in the emitter's canonical form: no preamble, wellformed
fields, no HTML-escaped character in any rendered field, each section
strictly sorted by module name. -/
def canonicalPF (pf : PuppetFile) : Prop :=
  wfForgeUrl pf.forge ∧
  pf.preambleLines = [] ∧
  (∀ m ∈ pf.modules, wfMod m) ∧
  (∀ m ∈ pf.dependentModules, wfForgeMod m) ∧
  isSortedByName (pf.modules.filter (fun m => ¬ m.forgeModule)) = true ∧
  isSortedByName (pf.modules.filter (fun m => m.forgeModule)) = true ∧
  isSortedByName pf.dependentModules = true ∧
  escFree pf.forge ∧
  (∀ m ∈ pf.modules, escFreeMod m) ∧
  (∀ m ∈ pf.dependentModules, escFreeMod m)

instance : DecidablePred plainChar := fun _ => by unfold plainChar; infer_instance

instance : DecidablePred wfWord := fun _ => by unfold wfWord; infer_instance

instance : ∀ l, Decidable (headNotSpace l) := fun l => by
  cases l <;> unfold headNotSpace <;> infer_instance

instance : ∀ o, Decidable (wfOptWord o) := fun o => by
  cases o <;> unfold wfOptWord <;> infer_instance

instance : ∀ o, Decidable (wfOptRef o) := fun o => by
  cases o <;> unfold wfOptRef <;> infer_instance

instance : DecidablePred wfComment := fun _ => by unfold wfComment; infer_instance

instance : DecidablePred wfForgeMod := fun _ => by
  unfold wfForgeMod wfAuthor; infer_instance

instance : DecidablePred wfGitMod := fun _ => by
  unfold wfGitMod wfAuthor; infer_instance

instance : DecidablePred wfMod := fun _ => by unfold wfMod; infer_instance

instance : DecidablePred escFree := fun _ => by unfold escFree; infer_instance

instance : DecidablePred escFreeMod := fun _ => by
  unfold escFreeMod; infer_instance

instance (pf : PuppetFile) : Decidable (canonicalPF pf) := by
  unfold canonicalPF wfForgeUrl; infer_instance

/-! Proof-infrastructure abbreviations: the shape of the parse machine's
state at block boundaries, the parser's normal form of a module, and the
accumulator the section runs compute. -/

/-- What `parseModLine` reconstructs from an emitted declaration of `m`. -/
def normMod (m : ModuleDeclaration) : ModuleDeclaration :=
  if m.forgeModule then
    { author := m.author, name := m.name, forgeModule := true, version := m.version,
      git := none, ref := none, comments := m.comments, gitDependencies := none }
  else
    { author := m.author, name := m.name, forgeModule := false, version := none,
      git := m.git, ref := m.ref, comments := m.comments, gitDependencies := none }

/-- The concatenated declaration text accumulated for a repo module. -/
def gitDeclCur (m : ModuleDeclaration) : String :=
  if refTruthy m then
    modLineGit1 m.author m.name ++ gitLine (m.git.getD "") true ++
      refLine (m.ref.getD "")
  else modLineGit1 m.author m.name ++ gitLine (m.git.getD "") false

/-- The pending declaration text for a block-boundary state. -/
def pendCur : Option ModuleDeclaration → String
  | none => ""
  | some m =>
    if m.forgeModule then modLine m.author m.name (m.version.getD "")
    else gitDeclCur m

def pendComments : Option ModuleDeclaration → List String
  | none => []
  | some m => m.comments

def pendMods : Option ModuleDeclaration → List ModuleDeclaration
  | none => []
  | some m => [normMod m]

/-- The machine state at a block boundary: `pend` is the declaration still
being read (flushed by the next `mod`/sentinel line or at end of input). -/
def midSt (u : String) (dep : Bool) (M D : List ModuleDeclaration)
    (pend : Option ModuleDeclaration) : ParseSt :=
  { forge := u, cur := pendCur pend, inDecl := pend.isSome, inDeps := dep,
    curComment := pendComments pend, readingComment := [],
    modules := M, dependentModules := D }

def wfPend : Option ModuleDeclaration → Prop
  | none => True
  | some m => wfMod m

/-- Accumulator of a block-sequence run: each block flushes the previous
pending declaration and leaves its own pending. -/
def secAcc (acc : List ModuleDeclaration) (pend : Option ModuleDeclaration) :
    List ModuleDeclaration → List ModuleDeclaration × Option ModuleDeclaration
  | [] => (acc, pend)
  | m :: rest => secAcc (acc ++ pendMods pend) (some m) rest

/-- A canonical manifest (no preamble) used to witness the round trip:
one repo module with comments, two forge modules, one dependent module. -/
def c8wit : PuppetFile :=
  { forge := "http://localhost:8080",
    modules :=
      [{ author := "test", name := "git", forgeModule := false,
         git := some "/tmp/puppet.git", ref := some "main",
         comments := ["Some comment", "before the module"] },
       { author := "test", name := "default", version := some "1.2.3" },
       { author := "test", name := "default2", version := some "1.2.3",
         comments := ["A forge module"] }],
    dependentModules :=
      [{ author := "test", name := "dependency", version := some "1.2.4" }] }

/-! Data for the final-graph invariant check with an *empty* ignore list:
`a-b@1.0.0` depends on `a/s (>=2.0.0)` while the manifest pins `a-s` to
`1.0.0`; the forge serves `''` as the only release of `a-s`, so the
dependency's fresh declaration materialises without a (truthy) version. -/

def regC1b : Registry :=
  { mods := [("a-s", { releases := [""] }), ("a-b", { releases := ["1.0.0"] })],
    deps := [(("a-s", "1.0.0"), []),
             (("a-b", "1.0.0"),
               [{ name := "a/s", version_requirement := some ">=2.0.0" }]),
             (("a-s", ""), [])] }

def mfC1b : List ManifestModule :=
  [⟨"a", "b", "1.0.0"⟩, ⟨"a", "s", "1.0.0"⟩]

def c1bRun : Except RErr (PuppetFileOut × RState) :=
  runResolver { registry := regC1b } mfC1b 20

/-! # Theorems -/

/-- Claim C4 (failing input): on a store holding a manifest-sourced
requirement (no source module) and two dependency requirements,
`deleteSourceRequirements "test-a"` keeps only the requirement sourced at
`test-b` — the manifest-sourced requirement is dropped although its source
slug (there is none) does not match, contradicting the specification's
"drop every queued requirement whose *source* slug matches". -/
theorem C4_deleteSourceRequirements_drops_manifest_requirement :
    RequirementsStore.deleteSourceRequirements c4Store c4Heap "test-a" = [c4ReqFromB] ∧
    c4ManifestReq ∈ c4Store ∧ c4ManifestReq.sourceModule = none := by
  decide

/-- Claim C7: with the module's node present, the graph validity predicate
returns true exactly when every incoming edge of that node carries a range
satisfied by the module's version, and a module without a version is
trivially valid. -/
theorem C7_isValid_characterisation (g : DependencyGraph) (m : ModuleDeclaration)
    (h : g.hasNode m.getSlug = true) :
    (g.isValid m = .ok true ↔
      ∀ e ∈ g.inEdges m.getSlug, ∀ v, m.version = some v → v ≠ "" →
        ∃ rg, e.dependencyRange = some rg ∧ satisfies v rg = true) ∧
    (m.version = none → g.isValid m = .ok true) := by
  have hiv : g.isValid m = .ok ((g.inEdges m.getSlug).all (edgeOk m)) := by
    simp [DependencyGraph.isValid, h]
  constructor
  · rw [hiv]
    simp only [Except.ok.injEq, List.all_eq_true]
    constructor
    · intro hall e he v hv hne
      have := hall e he
      rw [edgeOk, hv] at this
      simp only [hne, if_false] at this
      cases hrg : e.dependencyRange with
      | none => rw [hrg] at this; exact absurd this (by simp)
      | some rg => rw [hrg] at this; exact ⟨rg, rfl, this⟩
    · intro hptwise e he
      rw [edgeOk]
      cases hv : m.version with
      | none => rfl
      | some v =>
        by_cases hne : v = ""
        · simp [hne]
        · obtain ⟨rg, hrg, hsat⟩ := hptwise e he v hv hne
          simp [hne, hrg, hsat]
  · intro hv
    rw [hiv]
    congr 1
    rw [List.all_eq_true]
    intro e _
    rw [edgeOk, hv]

/-- Claim C9 (counterexample): dequeuing a requirement whose dependency range
is missing makes `resolve` abort with the invariant error thrown by
`Requirement.isValid` — the following well-formed requirement is never
processed — whereas skipping the invalid requirement would have let the run
complete. -/
theorem C9_invalid_requirement_aborts :
    c9Run = .error (.stateInvariant "Requirement has no dependency range") ∧
    isOkLoop c9RunSkipping = true := by
  decide

/-- Claim C9 (amended): when the head of the store is a requirement whose
validity check throws (missing target module, missing dependency range, or a
dependency source without a source module), the resolution loop propagates
that error instead of skipping the requirement. -/
theorem C9_amended_invalid_requirement_error (cfg : ResolverConfig) (fuel : Nat)
    (st : RState) (r : Requirement) (rest : RequirementsStore) (e : RErr)
    (hs : st.store = r :: rest) (hr : r.isValid = .error e) :
    resolveLoop cfg (fuel + 1) st = .error e := by
  rw [resolveLoop, hs]
  simp [processRequirement, hr, Except.bind, bind]

/-- Witness for the amended C9 theorem at the concrete broken store. -/
theorem C9_amended_witness :
    resolveLoop { registry := c9Registry } 4 c9State =
      .error (.stateInvariant "Requirement has no dependency range") :=
  C9_amended_invalid_requirement_error { registry := c9Registry } 3 c9State
    c9BadReq [c9GoodReq] (.stateInvariant "Requirement has no dependency range")
    (by decide) (by decide)

/-- Claim C10: `withTargetModule` defaults the dependency range to
`<= <target version>` exactly when the target declaration carries a (truthy)
version and no range is set yet; an existing range, or a missing version,
leaves the range (or its absence) unchanged. -/
theorem C10_withTargetModule_range_default (r : Requirement) (mid : ModId)
    (decl : ModuleDeclaration) :
    (∀ v, decl.version = some v → v ≠ "" → r.dependencyRange = none →
      (parseRange ("<= " ++ v)).isSome = true →
      r.withTargetModule mid decl =
        .ok { r with targetModule := some mid, dependencyRange := some ("<= " ++ v) }) ∧
    (∀ rg, r.dependencyRange = some rg →
      r.withTargetModule mid decl = .ok { r with targetModule := some mid }) ∧
    (decl.versionTruthy = false →
      r.withTargetModule mid decl = .ok { r with targetModule := some mid }) := by
  refine ⟨?_, ?_, ?_⟩
  · intro v hv hne hnr hparse
    rw [Requirement.withTargetModule]
    have ht : decl.versionTruthy = true := by
      rw [ModuleDeclaration.versionTruthy, hv]; simp [hne]
    rw [if_pos ⟨ht, hnr⟩]
    rw [hv]
    simp only [Option.getD_some]
    rw [mkRange, if_pos hparse]
  · intro rg hrg
    rw [Requirement.withTargetModule]
    rw [if_neg (by simp [hrg])]
  · intro ht
    rw [Requirement.withTargetModule]
    rw [if_neg (by simp [ht])]

/-- Supporting observation for the final-graph invariant: in the
"unsatisfiable, ignored" scenario — `test-wrongdepa` needs
`test-wrongdepc >=1.2.3`, `test-wrongdepb` needs `test-wrongdepc <1.2.3`,
only `1.2.3` exists and `test-wrongdepc` is on the ignore list — resolve
succeeds, yet the final graph keeps the edge
`test-wrongdepb → test-wrongdepc (<1.2.3)` which `test-wrongdepc@1.2.3` does
not satisfy. -/
theorem ignoredRun_leaves_unsatisfied_edge :
    isOkRun c1Run = true ∧ runGraphValid c1Run = false := by
  decide

/-- Claim C1 (failing input, no ignore list involved): with an empty ignore
and hide list, the run on `mfC1b`/`regC1b` succeeds, the final graph contains
the edge `a-b → a-s (>=2.0.0)`, and the stored module of node `a-s` has
version `1.0.0`, which does not satisfy that range — the final-graph
validator fails.  The dependency's fresh `a-s` declaration has the falsy
version `''`, so `getNewVersion`'s `graph.isValid(targetModule)` check is
vacuously true and the freshly added edge is never validated against the
node's stored module. -/
theorem C1_successful_run_leaves_unsatisfied_edge :
    isOkRun c1bRun = true ∧ runGraphValid c1bRun = false ∧
    (match c1bRun with
     | .ok (_, st) =>
       st.graph.edges.any
         (fun e => e.key = "a-b.a-s" ∧ e.dependencyRange = some ">=2.0.0")
     | .error _ => false) = true := by
  decide

/-- Claim C5 (failing input): in the cascade scenario the run succeeds with
an empty hide list, yet the pinned top-level module `test-t` of the input
manifest appears in neither output list — its graph node was dropped during
a version change and every replacement requirement that would have re-added
it was deleted from the store. -/
theorem C5_top_level_module_lost :
    runOutputSlugs c5Run =
      some ([some "test-b", some "test-p"],
            [some "test-d", some "test-v", some "test-w", some "test-x"]) ∧
    (⟨"test", "t", "1.0.0"⟩ : ManifestModule) ∈ mfT := by
  decide

/-- Witness for the C7 characterisation at a concrete one-edge graph. -/
theorem C7_isValid_witness :
    (c7g.isValid c7m = .ok true ↔
      ∀ e ∈ c7g.inEdges c7m.getSlug, ∀ v, c7m.version = some v → v ≠ "" →
        ∃ rg, e.dependencyRange = some rg ∧ satisfies v rg = true) ∧
    (c7m.version = none → c7g.isValid c7m = .ok true) :=
  C7_isValid_characterisation c7g c7m (by decide)

/-- Witness for the C10 range-defaulting rule at a concrete declaration. -/
theorem C10_withTargetModule_witness :
    ({} : Requirement).withTargetModule 0 c10decl =
      .ok { targetModule := some 0, dependencyRange := some "<= 1.2.3" } :=
  (C10_withTargetModule_range_default {} 0 c10decl).1 "1.2.3" rfl (by decide) rfl (by decide)

/-! ## Lemmas about the heap and the association maps -/

theorem heapGetM_eq_some_lt {h : Heap} {i : ModId} {m : ModuleDeclaration}
    (hg : h.getM i = some m) : i < h.length := by
  rw [Heap.getM] at hg
  exact List.get?_eq_some.mp hg |>.1

theorem heapGetM_setVersion_self {h : Heap} {i : ModId} {m : ModuleDeclaration}
    (hg : h.getM i = some m) (v : Option String) :
    (h.setVersion i v).getM i = some { m with version := v } := by
  rw [Heap.setVersion, hg, Heap.getM]
  rw [Heap.getM] at hg
  have hlt : i < h.length := List.get?_eq_some.mp hg |>.1
  rw [List.get?_set_eq]
  simp [hlt]

theorem exceptBind_ok {ε α β : Type} (a : α) (f : α → Except ε β) :
    (Except.ok a >>= f : Except ε β) = f a := rfl

theorem exceptBind_error {ε α β : Type} (e : ε) (f : α → Except ε β) :
    (Except.error e >>= f : Except ε β) = Except.error e := rfl

theorem heap_setVersion_setVersion {h : Heap} {i : ModId} (u v : Option String) :
    (h.setVersion i u).setVersion i v = h.setVersion i v := by
  cases hg : h.getM i with
  | none =>
    have h1 : h.setVersion i u = h := by rw [Heap.setVersion, hg]
    rw [h1]
  | some m =>
    have h1 : h.setVersion i u = h.set i { m with version := u } := by
      rw [Heap.setVersion, hg]
    have h2 : Heap.getM (h.set i { m with version := u }) i = some { m with version := u } := by
      rw [Heap.getM]
      have hlt : i < h.length := heapGetM_eq_some_lt hg
      rw [List.get?_set_eq]
      simp [hlt]
    calc (h.setVersion i u).setVersion i v
        = (h.set i { m with version := u }).set i { m with version := v } := by
          rw [h1, Heap.setVersion, h2]
      _ = h.set i { m with version := v } := List.set_set ..
      _ = h.setVersion i v := by rw [Heap.setVersion, hg]

theorem aset_aset {α : Type} (l : List (String × α)) (k : String) (x y : α) :
    aset (aset l k x) k y = aset l k y := by
  rw [aset, aset, aset]
  congr 1
  rw [List.filter_cons]
  simp [List.filter_filter]

/-- FIFO: the `n`-th successive dequeue through the store interface yields
the `n`-th queued requirement. -/
theorem dequeues_eq_get? (l : RequirementsStore) (n : Nat) : dequeues l n = l.get? n := by
  induction n generalizing l with
  | zero => cases l <;> rfl
  | succ k ih =>
    cases l with
    | nil =>
      rw [dequeues]
      show dequeues ([] : RequirementsStore) k = none
      rw [ih]
      rfl
    | cons a rest =>
      rw [dequeues]
      show dequeues rest k = _
      rw [ih]
      rfl

/-- Claim C6: seeding the store from a manifest enqueues exactly one
requirement per top-level module, in declaration order, each with source
`Puppetfile`, no source module, the module as target and the exact range
`=<version>`; FIFO dequeues then yield them in that same order. -/
theorem C6_withPuppetFile_seeds_in_order (h : Heap) (mods : List ModId)
    (hg : ∀ mid ∈ mods, ∃ decl v, h.getM mid = some decl ∧ decl.version = some v ∧
      v ≠ "" ∧ (parseRange ("<= " ++ v)).isSome = true ∧
      (parseRange ("=" ++ v)).isSome = true) :
    RequirementsStore.withPuppetFile h mods = .ok (mods.map (pfSeedRequirement h)) ∧
    ∀ n, dequeues (mods.map (pfSeedRequirement h)) n = (mods.map (pfSeedRequirement h)).get? n := by
  constructor
  · have aux : ∀ (ms : List ModId) (acc : RequirementsStore),
        (∀ mid ∈ ms, ∃ decl v, h.getM mid = some decl ∧ decl.version = some v ∧
          v ≠ "" ∧ (parseRange ("<= " ++ v)).isSome = true ∧
          (parseRange ("=" ++ v)).isSome = true) →
        (ms.foldlM
          (fun acc mid =>
            match h.getM mid with
            | none => Except.error (RErr.stateInvariant "missing module object")
            | some decl => do
              let r ← Requirement.withTargetModule {} mid decl
              let r := r.withSource .Puppetfile
              match mkRange ("=" ++ (decl.version.getD "")) with
              | some rg => Except.ok (acc.addRequirement (r.withDependencyRange rg))
              | none => Except.error (RErr.invalidRange ("=" ++ (decl.version.getD ""))))
          acc) = .ok (acc ++ ms.map (pfSeedRequirement h)) := by
      intro ms
      induction ms with
      | nil => intro acc _; simp; rfl
      | cons mid rest ih =>
        intro acc hms
        obtain ⟨decl, v, hdecl, hv, hne, hple, hpeq⟩ := hms mid (by simp)
        have hstep :
            (match h.getM mid with
            | none => Except.error (RErr.stateInvariant "missing module object")
            | some decl => do
              let r ← Requirement.withTargetModule {} mid decl
              let r := r.withSource .Puppetfile
              match mkRange ("=" ++ (decl.version.getD "")) with
              | some rg => Except.ok (acc.addRequirement (r.withDependencyRange rg))
              | none => Except.error (RErr.invalidRange ("=" ++ (decl.version.getD ""))))
            = .ok (acc ++ [pfSeedRequirement h mid]) := by
          have htgt : Requirement.withTargetModule {} mid decl =
              .ok { targetModule := some mid, dependencyRange := some ("<= " ++ v) } := by
            rw [Requirement.withTargetModule]
            have ht : decl.versionTruthy = true := by
              rw [ModuleDeclaration.versionTruthy, hv]; simp [hne]
            rw [if_pos ⟨ht, rfl⟩, hv]
            simp only [Option.getD_some]
            rw [mkRange, if_pos hple]
          have hmk : mkRange ("=" ++ (decl.version.getD "")) = some ("=" ++ v) := by
            rw [hv]
            simp only [Option.getD_some]
            rw [mkRange, if_pos hpeq]
          simp only [hdecl]
          rw [htgt, exceptBind_ok]
          show (match mkRange ("=" ++ (decl.version.getD "")) with
            | some rg => Except.ok (acc.addRequirement
                ((({ targetModule := some mid, dependencyRange := some ("<= " ++ v) }
                  : Requirement).withSource .Puppetfile).withDependencyRange rg))
            | none => Except.error (RErr.invalidRange ("=" ++ (decl.version.getD "")))) = _
          rw [hmk]
          show Except.ok (acc.addRequirement
              ((({ targetModule := some mid, dependencyRange := some ("<= " ++ v) }
                : Requirement).withSource .Puppetfile).withDependencyRange ("=" ++ v)))
            = Except.ok (acc ++ [pfSeedRequirement h mid])
          rw [pfSeedRequirement, hdecl]
          simp [Requirement.withSource, Requirement.withDependencyRange,
            RequirementsStore.addRequirement, hv]
        rw [List.foldlM_cons, hstep, exceptBind_ok]
        rw [ih (acc ++ [pfSeedRequirement h mid]) (fun m hm => hms m (by simp [hm]))]
        simp
    have := aux mods [] hg
    rw [RequirementsStore.withPuppetFile]
    simpa using this
  · intro n
    exact dequeues_eq_get? _ n

/-- Witness for the seeding theorem on a concrete two-module manifest heap. -/
theorem C6_withPuppetFile_witness :
    RequirementsStore.withPuppetFile c6Heap [0, 1] =
      .ok (([0, 1] : List ModId).map (pfSeedRequirement c6Heap)) ∧
    ∀ n, dequeues (([0, 1] : List ModId).map (pfSeedRequirement c6Heap)) n =
      (([0, 1] : List ModId).map (pfSeedRequirement c6Heap)).get? n :=
  C6_withPuppetFile_seeds_in_order c6Heap [0, 1]
    (by
      intro mid hmid
      simp only [List.mem_cons, List.not_mem_nil, or_false] at hmid
      rcases hmid with rfl | rfl
      · exact ⟨{ author := "test", name := "one", version := some "1.0.0" }, "1.0.0",
          by decide, by decide, by decide, by decide, by decide⟩
      · exact ⟨{ author := "test", name := "two", version := some "2.0.0" }, "2.0.0",
          by decide, by decide, by decide, by decide, by decide⟩)

/-- The graph validator on a node that exists evaluates to the conjunction of
its incoming edge checks. -/
theorem graph_isValid_eq (g : DependencyGraph) (m : ModuleDeclaration)
    (h : g.hasNode m.getSlug = true) :
    g.isValid m = .ok ((g.inEdges m.getSlug).all (edgeOk m)) := by
  simp [DependencyGraph.isValid, h]

/-- The validator applied to a re-versioned declaration computed through
`validB`. -/
theorem graph_isValid_reversion (g : DependencyGraph) (decl : ModuleDeclaration)
    (u : String) (h : g.hasNode decl.getSlug = true) :
    g.isValid { decl with version := some u } = .ok (validB g decl u) :=
  graph_isValid_eq g { decl with version := some u } h

/-- One rejected candidate: the loop pops the head, records it as the
target's version, fails the validity-and-nonempty test and continues. -/
theorem gnvLoop_step (tmid : ModId) (err : RErr) (decl d : ModuleDeclaration) (u : String)
    (rest : List String) (st : RState)
    (hg : st.heap.getM tmid = some d)
    (hsame : ∀ w, ({ d with version := w } : ModuleDeclaration) = { decl with version := w })
    (hn : st.graph.hasNode decl.getSlug = true)
    (hcond : ¬(validB st.graph decl u = true ∧ u ≠ "")) :
    gnvLoop tmid decl.getSlug err (u :: rest) st =
      gnvLoop tmid decl.getSlug err rest
        { st with cache := ForgeCache.updateAvailableReleases st.cache decl.getSlug rest,
                  heap := st.heap.setVersion tmid (some u) } := by
  simp only [gnvLoop, heapGetM_setVersion_self hg (some u), hsame (some u),
    graph_isValid_reversion st.graph decl u hn, if_neg hcond]

/-- The accepted candidate: the loop pops the head, the graph validates it and
it is nonempty, so it is pushed back onto the cache and returned. -/
theorem gnvLoop_succeed (tmid : ModId) (err : RErr) (decl d : ModuleDeclaration) (v : String)
    (post : List String) (st : RState)
    (hg : st.heap.getM tmid = some d)
    (hsame : ∀ w, ({ d with version := w } : ModuleDeclaration) = { decl with version := w })
    (hn : st.graph.hasNode decl.getSlug = true)
    (hv : validB st.graph decl v = true) (hne : v ≠ "") :
    gnvLoop tmid decl.getSlug err (v :: post) st =
      (.ok v, { st with heap := st.heap.setVersion tmid (some v),
                        cache := aset st.cache decl.getSlug (v :: post) }) := by
  simp only [gnvLoop, heapGetM_setVersion_self hg (some v), hsame (some v),
    graph_isValid_reversion st.graph decl v hn, hv]
  rw [if_pos ⟨trivial, hne⟩]
  simp only [ForgeCache.updateAvailableReleases, aset_aset]

/-- The backtracking loop finds the first candidate that is nonempty and
validates, reinserts it at the head of the cached list and records it as the
target module's version. -/
theorem gnvLoop_found (tmid : ModId) (err : RErr) (decl : ModuleDeclaration) (v : String) :
    ∀ (pre : List String) (post : List String) (st : RState) (d : ModuleDeclaration),
    st.heap.getM tmid = some d →
    (∀ u : Option String, ({ d with version := u } : ModuleDeclaration) = { decl with version := u }) →
    st.graph.hasNode decl.getSlug = true →
    (∀ u ∈ pre, validB st.graph decl u = false ∨ u = "") →
    validB st.graph decl v = true → v ≠ "" →
    gnvLoop tmid decl.getSlug err (pre ++ v :: post) st =
      (.ok v, { st with heap := st.heap.setVersion tmid (some v),
                        cache := aset st.cache decl.getSlug (v :: post) }) := by
  intro pre
  induction pre with
  | nil =>
    intro post st d hg hsame hn _ hv hne
    rw [List.nil_append]
    exact gnvLoop_succeed tmid err decl d v post st hg hsame hn hv hne
  | cons u pre ih =>
    intro post st d hg hsame hn hpre hv hne
    have hcond : ¬(validB st.graph decl u = true ∧ u ≠ "") := by
      rcases hpre u (by simp) with hf | he
      · rw [hf]; simp
      · simp [he]
    rw [List.cons_append,
      gnvLoop_step tmid err decl d u (pre ++ v :: post) st hg hsame hn hcond]
    have hres := ih post
      { st with
          cache := ForgeCache.updateAvailableReleases st.cache decl.getSlug (pre ++ v :: post),
          heap := st.heap.setVersion tmid (some u) }
      { decl with version := some u }
      (by simp only [heapGetM_setVersion_self hg (some u), hsame (some u)])
      (fun w => rfl) hn (fun w hw => hpre w (by simp [hw])) hv hne
    rw [hres]
    congr 2
    · exact heap_setVersion_setVersion (some u) (some v)
    · simp only [ForgeCache.updateAvailableReleases, aset_aset]

/-- The backtracking loop raises the `NoVersionFound` error when no candidate
is nonempty and validates. -/
theorem gnvLoop_exhausted (tmid : ModId) (err : RErr) (decl : ModuleDeclaration) :
    ∀ (l : List String) (st : RState) (d : ModuleDeclaration),
    st.heap.getM tmid = some d →
    (∀ u : Option String, ({ d with version := u } : ModuleDeclaration) = { decl with version := u }) →
    st.graph.hasNode decl.getSlug = true →
    (∀ u ∈ l, validB st.graph decl u = false ∨ u = "") →
    (gnvLoop tmid decl.getSlug err l st).1 = .error err := by
  intro l
  induction l with
  | nil => intro st d _ _ _ _; rfl
  | cons u rest ih =>
    intro st d hg hsame hn hall
    have hcond : ¬(validB st.graph decl u = true ∧ u ≠ "") := by
      rcases hall u (by simp) with hf | he
      · rw [hf]; simp
      · simp [he]
    rw [gnvLoop_step tmid err decl d u rest st hg hsame hn hcond]
    exact ih
      { st with
          cache := ForgeCache.updateAvailableReleases st.cache decl.getSlug rest,
          heap := st.heap.setVersion tmid (some u) }
      { decl with version := some u }
      (by simp only [heapGetM_setVersion_self hg (some u), hsame (some u)])
      (fun w => rfl) hn (fun w hw => hall w (by simp [hw]))

/-- Claim C2: if the graph validates the target at its current version, the
version search returns that version and leaves the state — in particular the
release list — unchanged; otherwise it scans the cached release list head
first: skipping a (nonempty) prefix the graph rejects, it returns the first
validating version, reinserted at the head of the shortened cache, with the
target module's version set to it; when no cached version validates it raises
`NoVersionFound`. -/
theorem C2_getNewVersion_characterisation (reg : Registry) (r : Requirement)
    (st : RState) (tmid : ModId) (decl : ModuleDeclaration)
    (htm : r.targetModule = some tmid)
    (hg : st.heap.getM tmid = some decl)
    (hn : st.graph.hasNode decl.getSlug = true) :
    (st.graph.isValid decl = .ok true →
      r.getNewVersion reg st = (.ok (decl.version.getD ""), st)) ∧
    (∀ l, st.graph.isValid decl = .ok false →
      alookup st.cache decl.getSlug = some l →
      (∀ pre v post, l = pre ++ v :: post →
        (∀ u ∈ pre, validB st.graph decl u = false) →
        validB st.graph decl v = true → v ≠ "" →
        r.getNewVersion reg st =
          (.ok v, { st with heap := st.heap.setVersion tmid (some v),
                            cache := aset st.cache decl.getSlug (v :: post) })) ∧
      ((∀ u ∈ l, validB st.graph decl u = false) →
        (r.getNewVersion reg st).1 =
          .error (.noVersionFound
            (((r.sourceModule.bind st.heap.getM).map ModuleDeclaration.getSlug).getD "Puppetfile")
            decl.getSlug (r.dependencyRange.getD "")))) := by
  constructor
  · intro hvalid
    simp only [Requirement.getNewVersion, htm, hg, hvalid, if_true]
  · intro l hinvalid hcache
    have hrel : ForgeCache.getReleases reg st.cache decl.getSlug = .ok (l, st.cache) := by
      rw [ForgeCache.getReleases, hcache]
    have hentry : r.getNewVersion reg st =
        gnvLoop tmid decl.getSlug
          (.noVersionFound
            (((r.sourceModule.bind st.heap.getM).map ModuleDeclaration.getSlug).getD "Puppetfile")
            decl.getSlug (r.dependencyRange.getD "")) l st := by
      simp only [Requirement.getNewVersion, htm, hg, hinvalid, Bool.false_eq_true, if_false, hrel]
    constructor
    · intro pre v post hl hpre hv hne
      rw [hentry, hl]
      exact gnvLoop_found tmid _ decl v pre post st decl hg (fun _ => rfl) hn
        (fun u hu => Or.inl (hpre u hu)) hv hne
    · intro hall
      rw [hentry]
      exact gnvLoop_exhausted tmid _ decl l st decl hg (fun _ => rfl) hn
        (fun u hu => Or.inl (hall u hu))

/-- Claim C3 (amended): when processing a dequeued requirement raises
`NoVersionFound` from the version search, the resolver continues the drain
loop on the mutated state when the target slug is on the ignore list, and
fails with exactly that error when it is not. -/
theorem C3_noVersionFound_ignore_dichotomy (cfg : ResolverConfig) (fuel : Nat)
    (st st' : RState) (r : Requirement) (rest : RequirementsStore)
    (tmid : ModId) (a b c slugT : String)
    (hs : st.store = r :: rest)
    (hval : r.isValid = .ok true)
    (htm : r.targetModule = some tmid)
    (hsrc : (match r.sourceModule with
             | some smid => checkDeprecationStatus cfg { st with store := rest } smid
             | none => Except.ok ()) = .ok ())
    (htgt : checkDeprecationStatus cfg { st with store := rest } tmid = .ok ())
    (hslug : (addToGraph { st with store := rest } r).heap.slugOf tmid = slugT)
    (hgnv : r.getNewVersion cfg.registry (addToGraph { st with store := rest } r) =
      (.error (.noVersionFound a b c), st')) :
    (cfg.ignoreList.any (fun s => s = slugT) = true →
      resolveLoop cfg (fuel + 1) st = resolveLoop cfg fuel st') ∧
    (cfg.ignoreList.any (fun s => s = slugT) = false →
      resolveLoop cfg (fuel + 1) st = .error (.noVersionFound a b c)) := by
  have hbody : processRequirement cfg { st with store := rest } r =
      (if cfg.ignoreList.any (fun s => s = slugT) then .ok st'
       else .error (.noVersionFound a b c)) := by
    simp only [processRequirement, hval, htm, hsrc, htgt, hgnv, hslug, exceptBind_ok]
  constructor
  · intro hig
    simp only [resolveLoop, hs, hbody, hig, if_true, exceptBind_ok]
  · intro hig
    simp only [resolveLoop, hs, hbody, hig, Bool.false_eq_true, if_false, exceptBind_error]

/-- Witness for the amended C3 theorem: the unsatisfiable requirement
`test-a => test-c (>=2.0.0)` is continued past when `test-c` is ignored and
fatal when the ignore list is empty. -/
theorem C3_noVersionFound_witness :
    resolveLoop { registry := c3wRegistry, ignoreList := ["test-c"] } 2 c3wState =
      resolveLoop { registry := c3wRegistry, ignoreList := ["test-c"] } 1
        ((c3wReq.getNewVersion c3wRegistry
          (addToGraph { c3wState with store := [] } c3wReq)).2) ∧
    resolveLoop { registry := c3wRegistry } 2 c3wState =
      .error (.noVersionFound "test-a" "test-c" ">=2.0.0") :=
  ⟨(C3_noVersionFound_ignore_dichotomy { registry := c3wRegistry, ignoreList := ["test-c"] }
      1 c3wState
      ((c3wReq.getNewVersion c3wRegistry (addToGraph { c3wState with store := [] } c3wReq)).2)
      c3wReq [] 1 "test-a" "test-c" ">=2.0.0" "test-c"
      rfl (by decide) rfl (by decide) (by decide) (by decide) (by decide)).1 (by decide),
   (C3_noVersionFound_ignore_dichotomy { registry := c3wRegistry }
      1 c3wState
      ((c3wReq.getNewVersion c3wRegistry (addToGraph { c3wState with store := [] } c3wReq)).2)
      c3wReq [] 1 "test-a" "test-c" ">=2.0.0" "test-c"
      rfl (by decide) rfl (by decide) (by decide) (by decide) (by decide)).2 (by decide)⟩

/-- Claim C3 (counterexample to "resolve completes successfully"): with
`test-c` on the ignore list, the run still raises the ignored
`NoVersionFound` for `test-c` first (the empty-ignore run fails exactly
there), continues, and then fails on the unrelated `test-e`; so a run in
which an ignored `NoVersionFound` arises need not complete successfully. -/
theorem C3_counterexample_later_failure :
    runResolver { registry := regC3 } mfC3 50 =
      .error (.noVersionFound "test-a" "test-c" ">=2.0.0") ∧
    runResolver { registry := regC3, ignoreList := ["test-c"] } mfC3 50 =
      .error (.noVersionFound "test-b" "test-e" "<1.0.0") := by
  decide

/-- Witness for the version-search characterisation: with the target at
`2.0.0` rejected by the incoming edge `<=1.5.0`, the search pops `2.0.0`,
finds `1.5.0`, reinserts it at the head of the cache and returns it. -/
theorem C2_getNewVersion_witness :
    c2req.getNewVersion { mods := [], deps := [] } c2st =
      (.ok "1.5.0", { c2st with heap := c2st.heap.setVersion 0 (some "1.5.0"),
                                cache := aset c2st.cache "test-c" ["1.5.0"] }) :=
  ((C2_getNewVersion_characterisation { mods := [], deps := [] } c2req c2st 0 c2decl
      rfl rfl (by decide)).2 ["2.0.0", "1.5.0"] (by decide) (by decide)).1
    ["2.0.0"] "1.5.0" [] rfl (by decide) (by decide) (by decide)

/-- Claim C8 (counterexample): the round trip is not the identity on every
manifest the emitter itself produces — a manifest with a preamble block
parses successfully, but the parser never populates the preamble, so
re-emission differs from the input text. -/
theorem C8_counterexample_preamble_lost :
    (PuppetFile.fromText c8pf.toText).map PuppetFile.toText ≠ some c8pf.toText ∧
    (PuppetFile.fromText c8pf.toText).isSome = true := by
  decide

/-! ## Helper lemmas for the round-trip proof: string and list computations -/

theorem strData_append (a b : String) : (a ++ b).data = a.data ++ b.data := rfl

theorem strData_ne_nil {s : String} (h : s ≠ "") : s.data ≠ [] := by
  intro hd
  apply h
  cases s
  exact congrArg String.mk hd

theorem strMk_ne_empty {l : List Char} (h : l ≠ []) : (⟨l⟩ : String) ≠ "" :=
  fun hc => h (congrArg String.data hc)

theorem takeWhile_append_stop {p : Char → Bool} :
    ∀ (xs : List Char), (∀ c ∈ xs, p c = true) → ∀ {y : Char}, p y = false →
      ∀ (ys : List Char), (xs ++ y :: ys).takeWhile p = xs := by
  intro xs
  induction xs with
  | nil =>
    intro _ y hy ys
    simp [List.takeWhile_cons, hy]
  | cons a t ih =>
    intro hall y hy ys
    have ha : p a = true := hall a (by simp)
    simp only [List.cons_append, List.takeWhile_cons, ha, if_true]
    rw [ih (fun c hc => hall c (by simp [hc])) hy ys]

theorem splitAux_sep {p : Char → Bool} {c : Char} (hc : p c = true)
    (ys acc : List Char) :
    splitCharsAux p (c :: ys) acc = acc.reverse :: splitCharsAux p ys [] := by
  simp [splitCharsAux, hc]

theorem splitAux_nosep {p : Char → Bool} :
    ∀ (xs : List Char), (∀ c ∈ xs, p c = false) → ∀ (ys acc : List Char),
      splitCharsAux p (xs ++ ys) acc = splitCharsAux p ys (xs.reverse ++ acc) := by
  intro xs
  induction xs with
  | nil => intro _ ys acc; simp
  | cons a t ih =>
    intro hall ys acc
    have ha : p a = false := hall a (by simp)
    simp only [List.cons_append, splitCharsAux, ha, Bool.false_eq_true, if_false,
      List.append_eq]
    rw [ih (fun c hc => hall c (by simp [hc])) ys (a :: acc)]
    simp

theorem arrowAux_nosep :
    ∀ (xs : List Char), (∀ c ∈ xs, c ≠ '=') → ∀ (ys cur : List Char),
      splitOnArrowAux (xs ++ ys) cur = splitOnArrowAux ys (xs.reverse ++ cur) := by
  intro xs
  induction xs with
  | nil => intro _ ys cur; simp
  | cons a t ih =>
    intro hall ys cur
    have ha : a ≠ '=' := hall a (by simp)
    have ht : ∀ c ∈ t, c ≠ '=' := fun c hc => hall c (by simp [hc])
    cases hty : t ++ ys with
    | nil =>
      rcases List.append_eq_nil.mp hty with ⟨ht0, hy0⟩
      subst ht0 hy0
      simp [splitOnArrowAux]
    | cons z w =>
      have h1 : splitOnArrowAux (a :: t ++ ys) cur =
          splitOnArrowAux (t ++ ys) (a :: cur) := by
        simp only [List.cons_append, hty, splitOnArrowAux]
        rw [if_neg]
        intro hcon
        exact ha hcon.1
      rw [List.cons_append, hty] at h1
      rw [List.cons_append, hty, h1, ← hty, ih ht ys (a :: cur)]
      simp

theorem dropWhile_headNotSpace :
    ∀ {cs : List Char}, headNotSpace cs → cs.dropWhile isSpaceChar = cs := by
  intro cs h
  cases cs with
  | nil => rfl
  | cons a t =>
    have : isSpaceChar a = false := h
    simp [List.dropWhile_cons, this]

theorem isPrefixOf_self : ∀ (l : List Char), l.isPrefixOf l = true := by
  intro l
  induction l with
  | nil => rfl
  | cons a t ih => simp [List.isPrefixOf, ih]

theorem containsSub_self (s : String) : containsSub s s = true := by
  unfold containsSub
  cases hd : s.data with
  | nil => simp [containsSubChars]
  | cons a t => simp [containsSubChars, isPrefixOf_self]

theorem noHash_prefix {l : List Char} :
    ∀ (hay : List Char), '#' ∉ hay → ('#' :: l).isPrefixOf hay = false := by
  intro hay h
  cases hay with
  | nil => rfl
  | cons a t =>
    have ha : a ≠ '#' := fun hc => h (by simp [hc])
    have hb : ('#' == a) = false := beq_eq_false_iff_ne.mpr (Ne.symm ha)
    simp [List.isPrefixOf, hb]

theorem noHash_containsSub {l : List Char} :
    ∀ (hay : List Char), '#' ∉ hay → containsSubChars hay ('#' :: l) = false := by
  intro hay
  induction hay with
  | nil => intro _; rfl
  | cons a t ih =>
    intro h
    have hpre : ('#' :: l).isPrefixOf (a :: t) = false :=
      noHash_prefix (a :: t) h
    unfold containsSubChars
    rw [hpre]
    simp only [Bool.false_eq_true, if_false]
    exact ih (fun hm => h (by simp [hm]))

/-! Data normal forms of the emitted declaration lines. -/

theorem modLine_data (a n v : String) :
    (modLine a n v).data =
      'm' :: 'o' :: 'd' :: ' ' :: '\'' ::
        (a.data ++ '-' ::
          (n.data ++ '\'' :: ',' :: ' ' :: '\'' :: (v.data ++ ['\'']))) := by
  simp only [modLine, strData_append, List.append_assoc]
  rfl

theorem ne_empty_of_data_cons {s : String} {c : Char} {l : List Char}
    (h : s.data = c :: l) : s ≠ "" := by
  intro hc
  rw [hc] at h
  exact absurd h (by simp)

theorem parseModLine_modLine (a n v : String) (ha : wfAuthor a) (hn : wfWord n)
    (hv : wfWord v) :
    parseModLine (modLine a n v) =
      some { author := a, name := n, forgeModule := true, version := some v,
             git := none, ref := none, comments := [], gitDependencies := none } := by
  have hd := modLine_data a n v
  have hpre : ("mod '".data).isPrefixOf (modLine a n v).data = true := by
    rw [hd]
    simp [List.isPrefixOf]
  have hdrop5 :
      (modLine a n v).data.drop 5 =
        a.data ++ '-' ::
          (n.data ++ '\'' :: ',' :: ' ' :: '\'' :: (v.data ++ ['\''])) := by
    rw [hd]
    rfl
  have hauthor :
      (a.data ++ '-' ::
          (n.data ++ '\'' :: ',' :: ' ' :: '\'' :: (v.data ++ ['\'']))).takeWhile
        (fun c => c ≠ '-') = a.data :=
    takeWhile_append_stop a.data
      (fun c hc => decide_eq_true ((ha.2 c hc).1)) (by decide) _
  have hdropa :
      (a.data ++ '-' ::
          (n.data ++ '\'' :: ',' :: ' ' :: '\'' :: (v.data ++ ['\'']))).drop
        a.data.length =
        '-' :: (n.data ++ '\'' :: ',' :: ' ' :: '\'' :: (v.data ++ ['\''])) :=
    List.drop_left a.data _
  have hname :
      (n.data ++ '\'' :: ',' :: ' ' :: '\'' :: (v.data ++ ['\''])).takeWhile
        (fun c => c ≠ '\'') = n.data :=
    takeWhile_append_stop n.data
      (fun c hc => decide_eq_true ((hn.2 c hc).1)) (by decide) _
  have hdropn :
      (n.data ++ '\'' :: ',' :: ' ' :: '\'' :: (v.data ++ ['\''])).drop
        n.data.length =
        '\'' :: ',' :: ' ' :: '\'' :: (v.data ++ ['\'']) :=
    List.drop_left n.data _
  have hdws : List.dropWhile isSpaceChar (' ' :: '\'' :: (v.data ++ ['\''])) =
      '\'' :: (v.data ++ ['\'']) := by
    rw [List.dropWhile_cons, if_pos (by decide), List.dropWhile_cons,
      if_neg (by decide)]
  have hvtake : (v.data ++ ['\'']).takeWhile (fun c => c ≠ '\'') = v.data :=
    takeWhile_append_stop v.data
      (fun c hc => decide_eq_true ((hv.2 c hc).1)) (by decide) []
  have hvdrop : (v.data ++ ['\'']).drop v.data.length = ['\''] :=
    List.drop_left v.data _
  have hane : ¬ a.data = [] := strData_ne_nil ha.1.1
  have hnne : ¬ n.data = [] := strData_ne_nil hn.1
  have hvne : ¬ v.data = [] := strData_ne_nil hv.1
  simp only [parseModLine, hpre, if_true, hdrop5, hauthor, hdropa, hname, hdropn,
    hdws, List.head?_cons, List.tail_cons, hvtake, hvdrop, hane, hnne, hvne,
    if_false]
  have hparams : parseParams [] = [("", none)] := rfl
  have hget : getParam [("", none)] ":git" = none := rfl
  simp only [hparams, hget]

theorem gitDecl_ref_data (a n g r : String) :
    (modLineGit1 a n ++ gitLine g true ++ refLine r).data =
      'm' :: 'o' :: 'd' :: ' ' :: '\'' ::
        (a.data ++ '-' ::
          (n.data ++ '\'' :: ',' ::
            (' ' :: ' ' :: ' ' :: ' ' :: ':' :: 'g' :: 'i' :: 't' :: ' ' :: '=' ::
              '>' :: ' ' :: '\'' ::
              (g.data ++ '\'' :: ',' ::
                (' ' :: ' ' :: ' ' :: ' ' :: ':' :: 'r' :: 'e' :: 'f' :: ' ' ::
                  '=' :: '>' :: ' ' :: '\'' :: (r.data ++ ['\''])))))) := by
  simp only [modLineGit1, gitLine, refLine, if_true, strData_append,
    List.append_assoc]
  rfl

theorem gitDecl_noref_data (a n g : String) :
    (modLineGit1 a n ++ gitLine g false).data =
      'm' :: 'o' :: 'd' :: ' ' :: '\'' ::
        (a.data ++ '-' ::
          (n.data ++ '\'' :: ',' ::
            (' ' :: ' ' :: ' ' :: ' ' :: ':' :: 'g' :: 'i' :: 't' :: ' ' :: '=' ::
              '>' :: ' ' :: '\'' :: (g.data ++ ['\''])))) := by
  simp only [modLineGit1, gitLine, if_false, Bool.false_eq_true, strData_append,
    List.append_assoc]
  rfl

theorem dropWS_plain {w : List Char} (h : ∀ c ∈ w, isSpaceChar c = false) :
    dropWS w = w :=
  List.filter_eq_self.mpr (fun c hc => decide_eq_true (by simp [h c hc]))

theorem dropWS_append (l1 l2 : List Char) :
    dropWS (l1 ++ l2) = dropWS l1 ++ dropWS l2 := by
  unfold dropWS
  rw [List.filter_append]

theorem splitAux_final {p : Char → Bool} :
    ∀ (xs : List Char), (∀ c ∈ xs, p c = false) → ∀ (acc : List Char),
      splitCharsAux p xs acc = [acc.reverse ++ xs] := by
  intro xs
  induction xs with
  | nil => intro _ acc; simp [splitCharsAux]
  | cons a t ih =>
    intro hall acc
    have ha : p a = false := hall a (by simp)
    simp only [splitCharsAux, ha, Bool.false_eq_true, if_false]
    rw [ih (fun c hc => hall c (by simp [hc])) (a :: acc)]
    simp

theorem splitAux_two {p : Char → Bool} {c : Char} (hc : p c = true)
    (X Y : List Char) (hX : ∀ x ∈ X, p x = false) (hY : ∀ y ∈ Y, p y = false) :
    splitCharsAux p (X ++ c :: Y) [] = [X, Y] := by
  rw [splitAux_nosep X hX, splitAux_sep hc, splitAux_final Y hY]
  simp

theorem arrowAux_final :
    ∀ (xs : List Char), (∀ c ∈ xs, c ≠ '=') → ∀ (cur : List Char),
      splitOnArrowAux xs cur = [cur.reverse ++ xs] := by
  intro xs
  induction xs with
  | nil => intro _ cur; simp [splitOnArrowAux]
  | cons a t ih =>
    intro hall cur
    have ha : a ≠ '=' := hall a (by simp)
    cases t with
    | nil => simp [splitOnArrowAux]
    | cons b t2 =>
      have hstep : splitOnArrowAux (a :: b :: t2) cur =
          splitOnArrowAux (b :: t2) (a :: cur) := by
        simp only [splitOnArrowAux]
        rw [if_neg]
        intro hcon
        exact ha hcon.1
      rw [hstep, ih (fun c hc => hall c (by simp [hc])) (a :: cur)]
      simp

theorem paramOfSeg_git (g : String) (hg : wfWord g) :
    paramOfSeg ([':', 'g', 'i', 't', '=', '>', '\''] ++ (g.data ++ ['\''])) =
      (":git", some g) := by
  have hgq : ∀ c ∈ g.data, (fun c => decide ¬(c = '\'')) c = true :=
    fun c hc => decide_eq_true (hg.2 c hc).1
  have hfil :
      (([':', 'g', 'i', 't', '=', '>', '\''] ++ (g.data ++ ['\''])).filter
        (fun c => ¬(c = '\''))) =
      [':', 'g', 'i', 't', '=', '>'] ++ (g.data ++ []) := by
    rw [List.filter_append, List.filter_append, List.filter_eq_self.mpr hgq]
    rfl
  have hgne : ∀ c ∈ g.data, c ≠ '=' := fun c hc => (hg.2 c hc).2.2.2.1
  unfold paramOfSeg
  rw [hfil, List.append_nil]
  have hsh : ([':', 'g', 'i', 't', '=', '>'] : List Char) ++ g.data =
      [':', 'g', 'i', 't'] ++ ('=' :: '>' :: g.data) := by simp
  unfold splitOnArrow
  rw [hsh, arrowAux_nosep [':', 'g', 'i', 't'] (by decide)]
  have harrow : splitOnArrowAux ('=' :: '>' :: g.data)
        ([':', 'g', 'i', 't'].reverse ++ []) =
      ([':', 'g', 'i', 't'].reverse ++ []).reverse ::
        splitOnArrowAux g.data [] := by
    rw [splitOnArrowAux]
    rw [if_pos ⟨rfl, rfl⟩]
  rw [harrow, arrowAux_final g.data hgne []]
  simp

theorem paramOfSeg_ref (r : String) (hr : wfWord r) :
    paramOfSeg ([':', 'r', 'e', 'f', '=', '>', '\''] ++ (r.data ++ ['\''])) =
      (":ref", some r) := by
  have hrq : ∀ c ∈ r.data, (fun c => decide ¬(c = '\'')) c = true :=
    fun c hc => decide_eq_true (hr.2 c hc).1
  have hfil :
      (([':', 'r', 'e', 'f', '=', '>', '\''] ++ (r.data ++ ['\''])).filter
        (fun c => ¬(c = '\''))) =
      [':', 'r', 'e', 'f', '=', '>'] ++ (r.data ++ []) := by
    rw [List.filter_append, List.filter_append, List.filter_eq_self.mpr hrq]
    rfl
  have hrne : ∀ c ∈ r.data, c ≠ '=' := fun c hc => (hr.2 c hc).2.2.2.1
  unfold paramOfSeg
  rw [hfil, List.append_nil]
  have hsh : ([':', 'r', 'e', 'f', '=', '>'] : List Char) ++ r.data =
      [':', 'r', 'e', 'f'] ++ ('=' :: '>' :: r.data) := by simp
  unfold splitOnArrow
  rw [hsh, arrowAux_nosep [':', 'r', 'e', 'f'] (by decide)]
  have harrow : splitOnArrowAux ('=' :: '>' :: r.data)
        ([':', 'r', 'e', 'f'].reverse ++ []) =
      ([':', 'r', 'e', 'f'].reverse ++ []).reverse ::
        splitOnArrowAux r.data [] := by
    rw [splitOnArrowAux]
    rw [if_pos ⟨rfl, rfl⟩]
  rw [harrow, arrowAux_final r.data hrne []]
  simp

theorem parseParams_gitref (g r : String) (hg : wfWord g) (hr : wfWord r) :
    parseParams
      (',' ::
        (' ' :: ' ' :: ' ' :: ' ' :: ':' :: 'g' :: 'i' :: 't' :: ' ' :: '=' ::
          '>' :: ' ' :: '\'' ::
          (g.data ++ '\'' :: ',' ::
            (' ' :: ' ' :: ' ' :: ' ' :: ':' :: 'r' :: 'e' :: 'f' :: ' ' ::
              '=' :: '>' :: ' ' :: '\'' :: (r.data ++ ['\'']))))) =
      [(":ref", some r), (":git", some g), ("", none)] := by
  have hgplain : ∀ c ∈ g.data, isSpaceChar c = false :=
    fun c hc => (hg.2 c hc).2.2.2.2.2
  have hrplain : ∀ c ∈ r.data, isSpaceChar c = false :=
    fun c hc => (hr.2 c hc).2.2.2.2.2
  have hdws :
      dropWS
        (',' ::
          (' ' :: ' ' :: ' ' :: ' ' :: ':' :: 'g' :: 'i' :: 't' :: ' ' :: '=' ::
            '>' :: ' ' :: '\'' ::
            (g.data ++ '\'' :: ',' ::
              (' ' :: ' ' :: ' ' :: ' ' :: ':' :: 'r' :: 'e' :: 'f' :: ' ' ::
                '=' :: '>' :: ' ' :: '\'' :: (r.data ++ ['\'']))))) =
        [','] ++
          ([':', 'g', 'i', 't', '=', '>', '\''] ++
            (g.data ++
              (['\'', ','] ++
                ([':', 'r', 'e', 'f', '=', '>', '\''] ++
                  (r.data ++ ['\'']))))) := by
    rw [show
        (',' ::
          (' ' :: ' ' :: ' ' :: ' ' :: ':' :: 'g' :: 'i' :: 't' :: ' ' :: '=' ::
            '>' :: ' ' :: '\'' ::
            (g.data ++ '\'' :: ',' ::
              (' ' :: ' ' :: ' ' :: ' ' :: ':' :: 'r' :: 'e' :: 'f' :: ' ' ::
                '=' :: '>' :: ' ' :: '\'' :: (r.data ++ ['\'']))))) =
        [','] ++
          ([' ', ' ', ' ', ' ', ':', 'g', 'i', 't', ' ', '=', '>', ' ', '\''] ++
            (g.data ++
              (['\'', ','] ++
                ([' ', ' ', ' ', ' ', ':', 'r', 'e', 'f', ' ', '=', '>', ' ',
                    '\''] ++ (r.data ++ ['\'']))))) from rfl]
    rw [dropWS_append, dropWS_append, dropWS_append, dropWS_append, dropWS_append,
      dropWS_append, dropWS_plain hgplain, dropWS_plain hrplain]
    rfl
  have hXg : ∀ c ∈ g.data, (fun c => decide (c = ',')) c = false :=
    fun c hc => decide_eq_false (hg.2 c hc).2.2.1
  have hYr : ∀ c ∈ r.data, (fun c => decide (c = ',')) c = false :=
    fun c hc => decide_eq_false (hr.2 c hc).2.2.1
  have hX : ∀ c ∈ ([':', 'g', 'i', 't', '=', '>', '\''] ++ (g.data ++ ['\''])),
      (fun c => decide (c = ',')) c = false := by
    intro c hc
    rcases List.mem_append.mp hc with h1 | h2
    · exact (by decide :
        ∀ x ∈ ([':', 'g', 'i', 't', '=', '>', '\''] : List Char),
          (fun c => decide (c = ',')) x = false) c h1
    · rcases List.mem_append.mp h2 with h3 | h4
      · exact hXg c h3
      · have hc4 : c = '\'' := by simpa using h4
        subst hc4
        decide
  have hY : ∀ c ∈ ([':', 'r', 'e', 'f', '=', '>', '\''] ++ (r.data ++ ['\''])),
      (fun c => decide (c = ',')) c = false := by
    intro c hc
    rcases List.mem_append.mp hc with h1 | h2
    · exact (by decide :
        ∀ x ∈ ([':', 'r', 'e', 'f', '=', '>', '\''] : List Char),
          (fun c => decide (c = ',')) x = false) c h1
    · rcases List.mem_append.mp h2 with h3 | h4
      · exact hYr c h3
      · have hc4 : c = '\'' := by simpa using h4
        subst hc4
        decide
  have hbig :
      ([':', 'g', 'i', 't', '=', '>', '\''] ++
        (g.data ++
          (['\'', ','] ++
            ([':', 'r', 'e', 'f', '=', '>', '\''] ++ (r.data ++ ['\'']))))) =
      (([':', 'g', 'i', 't', '=', '>', '\''] ++ (g.data ++ ['\''])) ++
        ',' :: ([':', 'r', 'e', 'f', '=', '>', '\''] ++ (r.data ++ ['\'']))) := by
    simp [List.append_assoc]
  have hsplit :
      splitCharsAux (fun c => decide (c = ','))
        ([','] ++
          ([':', 'g', 'i', 't', '=', '>', '\''] ++
            (g.data ++
              (['\'', ','] ++
                ([':', 'r', 'e', 'f', '=', '>', '\''] ++
                  (r.data ++ ['\'']))))))
        [] =
      [[], [':', 'g', 'i', 't', '=', '>', '\''] ++ (g.data ++ ['\'']),
        [':', 'r', 'e', 'f', '=', '>', '\''] ++ (r.data ++ ['\''])] := by
    rw [show
        ([','] ++
          ([':', 'g', 'i', 't', '=', '>', '\''] ++
            (g.data ++
              (['\'', ','] ++
                ([':', 'r', 'e', 'f', '=', '>', '\''] ++
                  (r.data ++ ['\''])))))) =
        ',' ::
          ([':', 'g', 'i', 't', '=', '>', '\''] ++
            (g.data ++
              (['\'', ','] ++
                ([':', 'r', 'e', 'f', '=', '>', '\''] ++
                  (r.data ++ ['\'']))))) from rfl]
    rw [splitAux_sep (by decide), hbig, splitAux_two (by decide) _ _ hX hY]
    rfl
  unfold parseParams
  rw [hdws, hsplit]
  rw [List.map_cons, List.map_cons, List.map_cons, List.map_nil,
    paramOfSeg_git g hg, paramOfSeg_ref r hr]
  rw [show paramOfSeg [] = ("", none) from rfl]
  simp

theorem parseParams_gitonly (g : String) (hg : wfWord g) :
    parseParams
      (',' ::
        (' ' :: ' ' :: ' ' :: ' ' :: ':' :: 'g' :: 'i' :: 't' :: ' ' :: '=' ::
          '>' :: ' ' :: '\'' :: (g.data ++ ['\'']))) =
      [(":git", some g), ("", none)] := by
  have hgplain : ∀ c ∈ g.data, isSpaceChar c = false :=
    fun c hc => (hg.2 c hc).2.2.2.2.2
  have hdws :
      dropWS
        (',' ::
          (' ' :: ' ' :: ' ' :: ' ' :: ':' :: 'g' :: 'i' :: 't' :: ' ' :: '=' ::
            '>' :: ' ' :: '\'' :: (g.data ++ ['\'']))) =
        [','] ++
          ([':', 'g', 'i', 't', '=', '>', '\''] ++ (g.data ++ ['\''])) := by
    rw [show
        (',' ::
          (' ' :: ' ' :: ' ' :: ' ' :: ':' :: 'g' :: 'i' :: 't' :: ' ' :: '=' ::
            '>' :: ' ' :: '\'' :: (g.data ++ ['\'']))) =
        [','] ++
          ([' ', ' ', ' ', ' ', ':', 'g', 'i', 't', ' ', '=', '>', ' ', '\''] ++
            (g.data ++ ['\''])) from rfl]
    rw [dropWS_append, dropWS_append, dropWS_append, dropWS_plain hgplain]
    rfl
  have hXg : ∀ c ∈ g.data, (fun c => decide (c = ',')) c = false :=
    fun c hc => decide_eq_false (hg.2 c hc).2.2.1
  have hX : ∀ c ∈ ([':', 'g', 'i', 't', '=', '>', '\''] ++ (g.data ++ ['\''])),
      (fun c => decide (c = ',')) c = false := by
    intro c hc
    rcases List.mem_append.mp hc with h1 | h2
    · exact (by decide :
        ∀ x ∈ ([':', 'g', 'i', 't', '=', '>', '\''] : List Char),
          (fun c => decide (c = ',')) x = false) c h1
    · rcases List.mem_append.mp h2 with h3 | h4
      · exact hXg c h3
      · have hc4 : c = '\'' := by simpa using h4
        subst hc4
        decide
  have hsplit :
      splitCharsAux (fun c => decide (c = ','))
        ([','] ++ ([':', 'g', 'i', 't', '=', '>', '\''] ++ (g.data ++ ['\''])))
        [] =
      [[], [':', 'g', 'i', 't', '=', '>', '\''] ++ (g.data ++ ['\''])] := by
    rw [show
        ([','] ++ ([':', 'g', 'i', 't', '=', '>', '\''] ++ (g.data ++ ['\'']))) =
        ',' :: ([':', 'g', 'i', 't', '=', '>', '\''] ++ (g.data ++ ['\'']))
      from rfl]
    rw [splitAux_sep (by decide), splitAux_final _ hX []]
    rfl
  unfold parseParams
  rw [hdws, hsplit]
  rw [List.map_cons, List.map_cons, List.map_nil, paramOfSeg_git g hg]
  rw [show paramOfSeg [] = ("", none) from rfl]
  simp

theorem parseModLine_gitref (a n g r : String) (ha : wfAuthor a) (hn : wfWord n)
    (hg : wfWord g) (hr : wfWord r) :
    parseModLine (modLineGit1 a n ++ gitLine g true ++ refLine r) =
      some { author := a, name := n, forgeModule := false, version := none,
             git := some g, ref := some r, comments := [],
             gitDependencies := none } := by
  have hd := gitDecl_ref_data a n g r
  have hpre : ("mod '".data).isPrefixOf
      (modLineGit1 a n ++ gitLine g true ++ refLine r).data = true := by
    rw [hd]
    simp [List.isPrefixOf]
  have hdrop5 :
      (modLineGit1 a n ++ gitLine g true ++ refLine r).data.drop 5 =
        a.data ++ '-' ::
          (n.data ++ '\'' :: ',' ::
            (' ' :: ' ' :: ' ' :: ' ' :: ':' :: 'g' :: 'i' :: 't' :: ' ' :: '=' ::
              '>' :: ' ' :: '\'' ::
              (g.data ++ '\'' :: ',' ::
                (' ' :: ' ' :: ' ' :: ' ' :: ':' :: 'r' :: 'e' :: 'f' :: ' ' ::
                  '=' :: '>' :: ' ' :: '\'' :: (r.data ++ ['\'']))))) := by
    rw [hd]
    rfl
  have hauthor :
      (a.data ++ '-' ::
          (n.data ++ '\'' :: ',' ::
            (' ' :: ' ' :: ' ' :: ' ' :: ':' :: 'g' :: 'i' :: 't' :: ' ' :: '=' ::
              '>' :: ' ' :: '\'' ::
              (g.data ++ '\'' :: ',' ::
                (' ' :: ' ' :: ' ' :: ' ' :: ':' :: 'r' :: 'e' :: 'f' :: ' ' ::
                  '=' :: '>' :: ' ' :: '\'' :: (r.data ++ ['\''])))))).takeWhile
        (fun c => c ≠ '-') = a.data :=
    takeWhile_append_stop a.data
      (fun c hc => decide_eq_true ((ha.2 c hc).1)) (by decide) _
  have hdropa :
      (a.data ++ '-' ::
          (n.data ++ '\'' :: ',' ::
            (' ' :: ' ' :: ' ' :: ' ' :: ':' :: 'g' :: 'i' :: 't' :: ' ' :: '=' ::
              '>' :: ' ' :: '\'' ::
              (g.data ++ '\'' :: ',' ::
                (' ' :: ' ' :: ' ' :: ' ' :: ':' :: 'r' :: 'e' :: 'f' :: ' ' ::
                  '=' :: '>' :: ' ' :: '\'' :: (r.data ++ ['\''])))))).drop
        a.data.length =
        '-' ::
          (n.data ++ '\'' :: ',' ::
            (' ' :: ' ' :: ' ' :: ' ' :: ':' :: 'g' :: 'i' :: 't' :: ' ' :: '=' ::
              '>' :: ' ' :: '\'' ::
              (g.data ++ '\'' :: ',' ::
                (' ' :: ' ' :: ' ' :: ' ' :: ':' :: 'r' :: 'e' :: 'f' :: ' ' ::
                  '=' :: '>' :: ' ' :: '\'' :: (r.data ++ ['\'']))))) :=
    List.drop_left a.data _
  have hname :
      (n.data ++ '\'' :: ',' ::
          (' ' :: ' ' :: ' ' :: ' ' :: ':' :: 'g' :: 'i' :: 't' :: ' ' :: '=' ::
            '>' :: ' ' :: '\'' ::
            (g.data ++ '\'' :: ',' ::
              (' ' :: ' ' :: ' ' :: ' ' :: ':' :: 'r' :: 'e' :: 'f' :: ' ' ::
                '=' :: '>' :: ' ' :: '\'' :: (r.data ++ ['\'']))))).takeWhile
        (fun c => c ≠ '\'') = n.data :=
    takeWhile_append_stop n.data
      (fun c hc => decide_eq_true ((hn.2 c hc).1)) (by decide) _
  have hdropn :
      (n.data ++ '\'' :: ',' ::
          (' ' :: ' ' :: ' ' :: ' ' :: ':' :: 'g' :: 'i' :: 't' :: ' ' :: '=' ::
            '>' :: ' ' :: '\'' ::
            (g.data ++ '\'' :: ',' ::
              (' ' :: ' ' :: ' ' :: ' ' :: ':' :: 'r' :: 'e' :: 'f' :: ' ' ::
                '=' :: '>' :: ' ' :: '\'' :: (r.data ++ ['\'']))))).drop
        n.data.length =
        '\'' :: ',' ::
          (' ' :: ' ' :: ' ' :: ' ' :: ':' :: 'g' :: 'i' :: 't' :: ' ' :: '=' ::
            '>' :: ' ' :: '\'' ::
            (g.data ++ '\'' :: ',' ::
              (' ' :: ' ' :: ' ' :: ' ' :: ':' :: 'r' :: 'e' :: 'f' :: ' ' ::
                '=' :: '>' :: ' ' :: '\'' :: (r.data ++ ['\''])))) :=
    List.drop_left n.data _
  have hdw : List.dropWhile isSpaceChar
      (' ' :: ' ' :: ' ' :: ' ' :: ':' :: 'g' :: 'i' :: 't' :: ' ' :: '=' ::
        '>' :: ' ' :: '\'' ::
        (g.data ++ '\'' :: ',' ::
          (' ' :: ' ' :: ' ' :: ' ' :: ':' :: 'r' :: 'e' :: 'f' :: ' ' ::
            '=' :: '>' :: ' ' :: '\'' :: (r.data ++ ['\''])))) =
      ':' :: 'g' :: 'i' :: 't' :: ' ' :: '=' ::
        '>' :: ' ' :: '\'' ::
        (g.data ++ '\'' :: ',' ::
          (' ' :: ' ' :: ' ' :: ' ' :: ':' :: 'r' :: 'e' :: 'f' :: ' ' ::
            '=' :: '>' :: ' ' :: '\'' :: (r.data ++ ['\'']))) := by
    rw [List.dropWhile_cons, if_pos (by decide), List.dropWhile_cons,
      if_pos (by decide), List.dropWhile_cons, if_pos (by decide),
      List.dropWhile_cons, if_pos (by decide), List.dropWhile_cons,
      if_neg (by decide)]
  have hane : ¬ a.data = [] := strData_ne_nil ha.1.1
  have hnne : ¬ n.data = [] := strData_ne_nil hn.1
  simp only [parseModLine, hpre, if_true, hdrop5, hauthor, hdropa, hname, hdropn,
    hdw, List.head?_cons, hane, hnne, if_false]
  rw [if_neg (fun hcon => absurd (Option.some.inj hcon) (by decide))]
  rw [parseParams_gitref g r hg hr]
  rfl

theorem parseModLine_gitonly (a n g : String) (ha : wfAuthor a) (hn : wfWord n)
    (hg : wfWord g) :
    parseModLine (modLineGit1 a n ++ gitLine g false) =
      some { author := a, name := n, forgeModule := false, version := none,
             git := some g, ref := none, comments := [],
             gitDependencies := none } := by
  have hd := gitDecl_noref_data a n g
  have hpre : ("mod '".data).isPrefixOf
      (modLineGit1 a n ++ gitLine g false).data = true := by
    rw [hd]
    simp [List.isPrefixOf]
  have hdrop5 :
      (modLineGit1 a n ++ gitLine g false).data.drop 5 =
        a.data ++ '-' ::
          (n.data ++ '\'' :: ',' ::
            (' ' :: ' ' :: ' ' :: ' ' :: ':' :: 'g' :: 'i' :: 't' :: ' ' :: '=' ::
              '>' :: ' ' :: '\'' :: (g.data ++ ['\'']))) := by
    rw [hd]
    rfl
  have hauthor :
      (a.data ++ '-' ::
          (n.data ++ '\'' :: ',' ::
            (' ' :: ' ' :: ' ' :: ' ' :: ':' :: 'g' :: 'i' :: 't' :: ' ' :: '=' ::
              '>' :: ' ' :: '\'' :: (g.data ++ ['\''])))).takeWhile
        (fun c => c ≠ '-') = a.data :=
    takeWhile_append_stop a.data
      (fun c hc => decide_eq_true ((ha.2 c hc).1)) (by decide) _
  have hdropa :
      (a.data ++ '-' ::
          (n.data ++ '\'' :: ',' ::
            (' ' :: ' ' :: ' ' :: ' ' :: ':' :: 'g' :: 'i' :: 't' :: ' ' :: '=' ::
              '>' :: ' ' :: '\'' :: (g.data ++ ['\''])))).drop a.data.length =
        '-' ::
          (n.data ++ '\'' :: ',' ::
            (' ' :: ' ' :: ' ' :: ' ' :: ':' :: 'g' :: 'i' :: 't' :: ' ' :: '=' ::
              '>' :: ' ' :: '\'' :: (g.data ++ ['\'']))) :=
    List.drop_left a.data _
  have hname :
      (n.data ++ '\'' :: ',' ::
          (' ' :: ' ' :: ' ' :: ' ' :: ':' :: 'g' :: 'i' :: 't' :: ' ' :: '=' ::
            '>' :: ' ' :: '\'' :: (g.data ++ ['\'']))).takeWhile
        (fun c => c ≠ '\'') = n.data :=
    takeWhile_append_stop n.data
      (fun c hc => decide_eq_true ((hn.2 c hc).1)) (by decide) _
  have hdropn :
      (n.data ++ '\'' :: ',' ::
          (' ' :: ' ' :: ' ' :: ' ' :: ':' :: 'g' :: 'i' :: 't' :: ' ' :: '=' ::
            '>' :: ' ' :: '\'' :: (g.data ++ ['\'']))).drop n.data.length =
        '\'' :: ',' ::
          (' ' :: ' ' :: ' ' :: ' ' :: ':' :: 'g' :: 'i' :: 't' :: ' ' :: '=' ::
            '>' :: ' ' :: '\'' :: (g.data ++ ['\''])) :=
    List.drop_left n.data _
  have hdw : List.dropWhile isSpaceChar
      (' ' :: ' ' :: ' ' :: ' ' :: ':' :: 'g' :: 'i' :: 't' :: ' ' :: '=' ::
        '>' :: ' ' :: '\'' :: (g.data ++ ['\''])) =
      ':' :: 'g' :: 'i' :: 't' :: ' ' :: '=' ::
        '>' :: ' ' :: '\'' :: (g.data ++ ['\'']) := by
    rw [List.dropWhile_cons, if_pos (by decide), List.dropWhile_cons,
      if_pos (by decide), List.dropWhile_cons, if_pos (by decide),
      List.dropWhile_cons, if_pos (by decide), List.dropWhile_cons,
      if_neg (by decide)]
  have hane : ¬ a.data = [] := strData_ne_nil ha.1.1
  have hnne : ¬ n.data = [] := strData_ne_nil hn.1
  simp only [parseModLine, hpre, if_true, hdrop5, hauthor, hdropa, hname, hdropn,
    hdw, List.head?_cons, hane, hnne, if_false]
  rw [if_neg (fun hcon => absurd (Option.some.inj hcon) (by decide))]
  rw [parseParams_gitonly g hg]
  rfl

/-! Shapes and classification of the emitted lines. -/

theorem forgeLine_data (u : String) :
    (forgeLine u).data =
      'f' :: 'o' :: 'r' :: 'g' :: 'e' :: ' ' :: '\'' :: (u.data ++ ['\'']) := by
  simp only [forgeLine, strData_append, List.append_assoc]
  rfl

theorem commentLine_data (c : String) :
    (commentLine c).data = '#' :: ' ' :: c.data := rfl

theorem modLineGit1_data (a n : String) :
    (modLineGit1 a n).data =
      'm' :: 'o' :: 'd' :: ' ' :: '\'' ::
        (a.data ++ '-' :: (n.data ++ ['\'', ','])) := by
  simp only [modLineGit1, strData_append, List.append_assoc]
  rfl

theorem gitLine_true_data (g : String) :
    (gitLine g true).data =
      ' ' :: ' ' :: ' ' :: ' ' :: ':' :: 'g' :: 'i' :: 't' :: ' ' :: '=' ::
        '>' :: ' ' :: '\'' :: (g.data ++ ['\'', ',']) := by
  simp only [gitLine, if_true, strData_append, List.append_assoc]
  rfl

theorem gitLine_false_data (g : String) :
    (gitLine g false).data =
      ' ' :: ' ' :: ' ' :: ' ' :: ':' :: 'g' :: 'i' :: 't' :: ' ' :: '=' ::
        '>' :: ' ' :: '\'' :: (g.data ++ ['\'']) := by
  simp only [gitLine, if_false, Bool.false_eq_true, strData_append,
    List.append_assoc]
  rfl

theorem refLine_data (r : String) :
    (refLine r).data =
      ' ' :: ' ' :: ' ' :: ' ' :: ':' :: 'r' :: 'e' :: 'f' :: ' ' :: '=' ::
        '>' :: ' ' :: '\'' :: (r.data ++ ['\'']) := by
  simp only [refLine, strData_append, List.append_assoc]
  rfl

theorem notHash_nil : '#' ∉ ([] : List Char) := List.not_mem_nil _

theorem notHash_cons {c : Char} {l : List Char} (hc : c ≠ '#') (h : '#' ∉ l) :
    '#' ∉ c :: l := fun hm =>
  match List.mem_cons.mp hm with
  | .inl he => hc he.symm
  | .inr m => h m

theorem notHash_append {l1 l2 : List Char} (h1 : '#' ∉ l1) (h2 : '#' ∉ l2) :
    '#' ∉ l1 ++ l2 := fun hm =>
  match List.mem_append.mp hm with
  | .inl m => h1 m
  | .inr m => h2 m

theorem notHash_word {w : String} (h : wfWord w) : '#' ∉ w.data :=
  fun hm => (h.2 _ hm).2.1 rfl

theorem notHash_forgeUrl {u : String} (h : wfForgeUrl u) : '#' ∉ u.data :=
  fun hm => (h.2 _ hm).2.1 rfl

theorem notHash_modLine (a n v : String) (ha : wfAuthor a) (hn : wfWord n)
    (hv : wfWord v) : '#' ∉ (modLine a n v).data := by
  rw [modLine_data]
  exact notHash_cons (by decide) (notHash_cons (by decide) (notHash_cons
    (by decide) (notHash_cons (by decide) (notHash_cons (by decide)
    (notHash_append (notHash_word ha.1) (notHash_cons (by decide)
    (notHash_append (notHash_word hn) (notHash_cons (by decide) (notHash_cons
    (by decide) (notHash_cons (by decide) (notHash_cons (by decide)
    (notHash_append (notHash_word hv) (notHash_cons (by decide)
    notHash_nil)))))))))))))

theorem notHash_modLineGit1 (a n : String) (ha : wfAuthor a) (hn : wfWord n) :
    '#' ∉ (modLineGit1 a n).data := by
  rw [modLineGit1_data]
  exact notHash_cons (by decide) (notHash_cons (by decide) (notHash_cons
    (by decide) (notHash_cons (by decide) (notHash_cons (by decide)
    (notHash_append (notHash_word ha.1) (notHash_cons (by decide)
    (notHash_append (notHash_word hn) (notHash_cons (by decide) (notHash_cons
    (by decide) notHash_nil)))))))))

theorem notHash_gitLine (g : String) (b : Bool) (hg : wfWord g) :
    '#' ∉ (gitLine g b).data := by
  cases b
  · rw [gitLine_false_data]
    exact notHash_cons (by decide) (notHash_cons (by decide) (notHash_cons
      (by decide) (notHash_cons (by decide) (notHash_cons (by decide)
      (notHash_cons (by decide) (notHash_cons (by decide) (notHash_cons
      (by decide) (notHash_cons (by decide) (notHash_cons (by decide)
      (notHash_cons (by decide) (notHash_cons (by decide) (notHash_cons
      (by decide) (notHash_append (notHash_word hg) (notHash_cons (by decide)
      notHash_nil))))))))))))))
  · rw [gitLine_true_data]
    exact notHash_cons (by decide) (notHash_cons (by decide) (notHash_cons
      (by decide) (notHash_cons (by decide) (notHash_cons (by decide)
      (notHash_cons (by decide) (notHash_cons (by decide) (notHash_cons
      (by decide) (notHash_cons (by decide) (notHash_cons (by decide)
      (notHash_cons (by decide) (notHash_cons (by decide) (notHash_cons
      (by decide) (notHash_append (notHash_word hg) (notHash_cons (by decide)
      (notHash_cons (by decide) notHash_nil)))))))))))))))

theorem notHash_refLine (r : String) (hr : wfWord r) :
    '#' ∉ (refLine r).data := by
  rw [refLine_data]
  exact notHash_cons (by decide) (notHash_cons (by decide) (notHash_cons
    (by decide) (notHash_cons (by decide) (notHash_cons (by decide)
    (notHash_cons (by decide) (notHash_cons (by decide) (notHash_cons
    (by decide) (notHash_cons (by decide) (notHash_cons (by decide)
    (notHash_cons (by decide) (notHash_cons (by decide) (notHash_cons
    (by decide) (notHash_append (notHash_word hr) (notHash_cons (by decide)
    notHash_nil))))))))))))))

theorem notHash_forgeLine (u : String) (hu : wfForgeUrl u) :
    '#' ∉ (forgeLine u).data := by
  rw [forgeLine_data]
  exact notHash_cons (by decide) (notHash_cons (by decide) (notHash_cons
    (by decide) (notHash_cons (by decide) (notHash_cons (by decide)
    (notHash_cons (by decide) (notHash_cons (by decide) (notHash_append
    (notHash_forgeUrl hu) (notHash_cons (by decide) notHash_nil))))))))

/-- A line without `#` cannot contain the dependency sentinel. -/
theorem containsSub_depId_false {s : String} (h : '#' ∉ s.data) :
    containsSub s depIdDefault = false :=
  noHash_containsSub s.data h

/-- A comment line `# c` with no `#` in `c` cannot contain the sentinel. -/
theorem containsSub_commentLine_false {c : String} (h : '#' ∉ c.data) :
    containsSub (commentLine c) depIdDefault = false := by
  unfold containsSub
  rw [commentLine_data]
  have e1 : (('#' : Char) == ' ') = false := by decide
  have hpre : ((['#', '#', ' ', 'd', 'e', 'p', 'e', 'n', 'd', 'e', 'n', 'c',
      'i', 'e', 's'] : List Char).isPrefixOf ('#' :: ' ' :: c.data)) = false := by
    simp [List.isPrefixOf, e1]
  unfold containsSubChars
  rw [show depIdDefault.data =
    ['#', '#', ' ', 'd', 'e', 'p', 'e', 'n', 'd', 'e', 'n', 'c', 'i', 'e', 's']
    from rfl]
  rw [hpre]
  simp only [Bool.false_eq_true, if_false]
  exact noHash_containsSub (' ' :: c.data)
    (notHash_cons (by decide) h)

theorem strStartsWith_head_ne {s : String} {c : Char} {rest : List Char}
    (hd : s.data = c :: rest) (hc : c ≠ 'm') :
    strStartsWith s "mod" = false := by
  apply decide_eq_false
  intro hcon
  rw [hd] at hcon
  have h1 : List.head? (List.take ("mod".data.length) (c :: rest)) = some c := rfl
  rw [hcon] at h1
  have h2 : some 'm' = some c := h1
  exact hc (Option.some.inj h2).symm

theorem strStartsWith_mod {s : String} {rest : List Char}
    (hd : s.data = 'm' :: 'o' :: 'd' :: rest) :
    strStartsWith s "mod" = true := by
  apply decide_eq_true
  show s.data.take 3 = _
  rw [hd]
  rfl

theorem isCommentLine_head {s : String} {c : Char} {rest : List Char}
    (hd : s.data = c :: rest) (hsp : isSpaceChar c = false) (hc : c ≠ '#') :
    isCommentLine s = false := by
  unfold isCommentLine
  rw [hd, List.dropWhile_cons, if_neg (by simp [hsp])]
  apply decide_eq_false
  intro hcon
  exact hc (Option.some.inj hcon)

theorem isBlankLine_head {s : String} {c : Char} {rest : List Char}
    (hd : s.data = c :: rest) (hsp : isSpaceChar c = false) :
    isBlankLine s = false := by
  unfold isBlankLine
  rw [hd]
  simp [List.all_cons, hsp]

/-! One-line behaviour of the parse machine on each emitted line shape. -/

theorem forgeMatch_forgeLine (u : String) (hu : wfForgeUrl u) :
    forgeMatchChars (forgeLine u).data = some u := by
  rw [forgeLine_data]
  have hpre : ("forge '".data).isPrefixOf
      ('f' :: 'o' :: 'r' :: 'g' :: 'e' :: ' ' :: '\'' :: (u.data ++ ['\''])) =
      true := by
    simp [List.isPrefixOf]
  have hurl : (u.data ++ ['\'']).takeWhile (fun c => c ≠ '\'') = u.data :=
    takeWhile_append_stop u.data
      (fun c hc => decide_eq_true ((hu.2 c hc).1)) (by decide) []
  have hdrop :
      (('f' :: 'o' :: 'r' :: 'g' :: 'e' :: ' ' :: '\'' ::
        (u.data ++ ['\''])).drop 7) = u.data ++ ['\''] := rfl
  have hhd : ((u.data ++ ['\'']).drop u.data.length).head? = some '\'' := by
    rw [List.drop_left u.data]
    rfl
  have hune : u.data ≠ [] := strData_ne_nil hu.1
  simp only [forgeMatchChars, hpre, if_true, hdrop, hurl]
  rw [if_pos ⟨hune, hhd⟩]

theorem lineStep_forgeLine (st : ParseSt) (u : String) (hu : wfForgeUrl u)
    (hdecl : st.inDecl = false) :
    lineStep depIdDefault st (forgeLine u) = some { st with forge := u } := by
  have h1 : strStartsWith (forgeLine u) "mod" = false :=
    strStartsWith_head_ne (forgeLine_data u) (by decide)
  have h2 : containsSub (forgeLine u) depIdDefault = false :=
    containsSub_depId_false (notHash_forgeLine u hu)
  have h3 : isCommentLine (forgeLine u) = false :=
    isCommentLine_head (forgeLine_data u) (by decide) (by decide)
  have h4 : isBlankLine (forgeLine u) = false :=
    isBlankLine_head (forgeLine_data u) (by decide)
  unfold lineStep
  rw [if_neg (by simp [h1, h2]), if_neg (by simp [h3]), if_neg (by simp [h4]),
    if_neg (by simp [hdecl]), forgeMatch_forgeLine u hu]

theorem commentText_commentLine (c : String) (hh : headNotSpace c.data) :
    commentText (commentLine c) = c := by
  unfold commentText
  rw [commentLine_data, List.dropWhile_cons, if_neg (by decide)]
  rw [show List.drop 1 ('#' :: ' ' :: c.data) = ' ' :: c.data from rfl]
  rw [List.dropWhile_cons, if_pos (by decide), dropWhile_headNotSpace hh]

theorem lineStep_commentLine (st : ParseSt) (c : String) (hwf : wfComment c) :
    lineStep depIdDefault st (commentLine c) =
      some { st with readingComment := st.readingComment ++ [c] } := by
  have hnh : '#' ∉ c.data := fun hm => (hwf.1 _ hm).1 rfl
  have h1 : strStartsWith (commentLine c) "mod" = false :=
    strStartsWith_head_ne (commentLine_data c) (by decide)
  have h2 : containsSub (commentLine c) depIdDefault = false :=
    containsSub_commentLine_false hnh
  have h3 : isCommentLine (commentLine c) = true := by
    unfold isCommentLine
    rw [commentLine_data, List.dropWhile_cons, if_neg (by decide)]
    rfl
  unfold lineStep
  rw [if_neg (by simp [h1, h2]), if_pos h3, commentText_commentLine c hwf.2]

theorem lineStep_empty (st : ParseSt) :
    lineStep depIdDefault st "" = some { st with readingComment := [] } := by
  unfold lineStep
  rw [if_neg (by decide), if_neg (by decide), if_pos (by decide)]

theorem lineStep_sep4 (st : ParseSt) :
    lineStep depIdDefault st "    " = some { st with readingComment := [] } := by
  unfold lineStep
  rw [if_neg (by decide), if_neg (by decide), if_pos (by decide)]

theorem lineStep_modLine (st : ParseSt) (a n v : String) (ha : wfAuthor a)
    (hn : wfWord n) (hv : wfWord v) :
    lineStep depIdDefault st (modLine a n v) =
      (flushSt st).map fun st1 =>
        { st1 with curComment := st1.readingComment, readingComment := [],
                   inDecl := true, cur := modLine a n v } := by
  have h1 : strStartsWith (modLine a n v) "mod" = true :=
    strStartsWith_mod (modLine_data a n v)
  have h2 : containsSub (modLine a n v) depIdDefault = false :=
    containsSub_depId_false (notHash_modLine a n v ha hn hv)
  unfold lineStep
  rw [if_pos (Or.inl h1)]
  simp only [h2, Bool.false_eq_true, if_false]

theorem lineStep_modLineGit1 (st : ParseSt) (a n : String) (ha : wfAuthor a)
    (hn : wfWord n) :
    lineStep depIdDefault st (modLineGit1 a n) =
      (flushSt st).map fun st1 =>
        { st1 with curComment := st1.readingComment, readingComment := [],
                   inDecl := true, cur := modLineGit1 a n } := by
  have h1 : strStartsWith (modLineGit1 a n) "mod" = true :=
    strStartsWith_mod (modLineGit1_data a n)
  have h2 : containsSub (modLineGit1 a n) depIdDefault = false :=
    containsSub_depId_false (notHash_modLineGit1 a n ha hn)
  unfold lineStep
  rw [if_pos (Or.inl h1)]
  simp only [h2, Bool.false_eq_true, if_false]

theorem lineStep_depId (st : ParseSt) :
    lineStep depIdDefault st depIdDefault =
      (flushSt st).map fun st1 =>
        { st1 with curComment := st1.readingComment, readingComment := [],
                   inDeps := true, cur := "", inDecl := false } := by
  unfold lineStep
  rw [if_pos (Or.inr (containsSub_self depIdDefault))]
  simp only [containsSub_self, if_true]

theorem lineStep_gitLine (st : ParseSt) (g : String) (b : Bool) (hg : wfWord g)
    (hdecl : st.inDecl = true) :
    lineStep depIdDefault st (gitLine g b) =
      some { st with cur := st.cur ++ gitLine g b } := by
  have hsp1 : isSpaceChar ' ' = true := by decide
  have hsp2 : isSpaceChar ':' = false := by decide
  have h2 : containsSub (gitLine g b) depIdDefault = false :=
    containsSub_depId_false (notHash_gitLine g b hg)
  have h3 : isCommentLine (gitLine g b) = false := by
    unfold isCommentLine
    cases b
    · rw [gitLine_false_data, List.dropWhile_cons, if_pos (by decide),
        List.dropWhile_cons, if_pos (by decide), List.dropWhile_cons,
        if_pos (by decide), List.dropWhile_cons, if_pos (by decide),
        List.dropWhile_cons, if_neg (by simp [hsp2])]
      apply decide_eq_false
      intro hcon
      exact absurd (Option.some.inj hcon) (by decide)
    · rw [gitLine_true_data, List.dropWhile_cons, if_pos (by decide),
        List.dropWhile_cons, if_pos (by decide), List.dropWhile_cons,
        if_pos (by decide), List.dropWhile_cons, if_pos (by decide),
        List.dropWhile_cons, if_neg (by simp [hsp2])]
      apply decide_eq_false
      intro hcon
      exact absurd (Option.some.inj hcon) (by decide)
  have h4 : isBlankLine (gitLine g b) = false := by
    unfold isBlankLine
    cases b
    · rw [gitLine_false_data]
      simp [List.all_cons, hsp1, hsp2]
    · rw [gitLine_true_data]
      simp [List.all_cons, hsp1, hsp2]
  have h1 : strStartsWith (gitLine g b) "mod" = false := by
    cases b
    · exact strStartsWith_head_ne (gitLine_false_data g) (by decide)
    · exact strStartsWith_head_ne (gitLine_true_data g) (by decide)
  unfold lineStep
  rw [if_neg (by simp [h1, h2]), if_neg (by simp [h3]), if_neg (by simp [h4]),
    if_pos hdecl]

theorem lineStep_refLine (st : ParseSt) (r : String) (hr : wfWord r)
    (hdecl : st.inDecl = true) :
    lineStep depIdDefault st (refLine r) =
      some { st with cur := st.cur ++ refLine r } := by
  have hsp1 : isSpaceChar ' ' = true := by decide
  have hsp2 : isSpaceChar ':' = false := by decide
  have h1 : strStartsWith (refLine r) "mod" = false :=
    strStartsWith_head_ne (refLine_data r) (by decide)
  have h2 : containsSub (refLine r) depIdDefault = false :=
    containsSub_depId_false (notHash_refLine r hr)
  have h3 : isCommentLine (refLine r) = false := by
    unfold isCommentLine
    rw [refLine_data, List.dropWhile_cons, if_pos (by decide),
      List.dropWhile_cons, if_pos (by decide), List.dropWhile_cons,
      if_pos (by decide), List.dropWhile_cons, if_pos (by decide),
      List.dropWhile_cons, if_neg (by simp [hsp2])]
    apply decide_eq_false
    intro hcon
    exact absurd (Option.some.inj hcon) (by decide)
  have h4 : isBlankLine (refLine r) = false := by
    unfold isBlankLine
    rw [refLine_data]
    simp [List.all_cons, hsp1, hsp2]
  unfold lineStep
  rw [if_neg (by simp [h1, h2]), if_neg (by simp [h3]), if_neg (by simp [h4]),
    if_pos hdecl]

/-! Flushing a block-boundary state. -/

theorem flushSt_not_inDecl {st : ParseSt} (h : st.inDecl = false) :
    flushSt st = some st := by
  unfold flushSt
  rw [if_neg (by simp [h])]

theorem flushSt_midSt_none (u : String) (dep : Bool)
    (M D : List ModuleDeclaration) :
    flushSt (midSt u dep M D none) = some (midSt u dep M D none) :=
  flushSt_not_inDecl rfl

theorem parseModLine_pendCur (m : ModuleDeclaration) (hm : wfMod m) :
    parseModLine (pendCur (some m)) = some { normMod m with comments := [] } := by
  cases hbm : m.forgeModule with
  | true =>
    have hf : wfForgeMod m := hm.1 hbm
    rcases hver : m.version with _ | v
    · have hov := hf.2.2.2.1
      rw [hver] at hov
      exact absurd hov (by simp [wfOptWord])
    · have hv : wfWord v := by
        have := hf.2.2.2.1
        rw [hver] at this
        exact this
      have hcur : pendCur (some m) = modLine m.author m.name v := by
        simp [pendCur, hbm, hver]
      rw [hcur, parseModLine_modLine m.author m.name v hf.2.1 hf.2.2.1 hv]
      simp [normMod, hbm, hver]
  | false =>
    have hg : wfGitMod m := hm.2 hbm
    rcases hgit : m.git with _ | g
    · have hov := hg.2.2.2.1
      rw [hgit] at hov
      exact absurd hov (by simp [wfOptWord])
    · have hgw : wfWord g := by
        have := hg.2.2.2.1
        rw [hgit] at this
        exact this
      rcases href : m.ref with _ | r
      · have hrt : refTruthy m = false := by simp [refTruthy, href]
        have hcur : pendCur (some m) =
            modLineGit1 m.author m.name ++ gitLine g false := by
          simp [pendCur, hbm, gitDeclCur, hrt, hgit]
        rw [hcur, parseModLine_gitonly m.author m.name g hg.2.1 hg.2.2.1 hgw]
        simp [normMod, hbm, hgit, href]
      · have hrw : wfWord r := by
          have := hg.2.2.2.2.1
          rw [href] at this
          exact this
        have hrt : refTruthy m = true := by
          simp [refTruthy, href]
          exact hrw.1
        have hcur : pendCur (some m) =
            modLineGit1 m.author m.name ++ gitLine g true ++ refLine r := by
          simp [pendCur, hbm, gitDeclCur, hrt, hgit, href]
        rw [hcur,
          parseModLine_gitref m.author m.name g r hg.2.1 hg.2.2.1 hgw hrw]
        simp [normMod, hbm, hgit, href]

theorem pendCur_some_ne (m : ModuleDeclaration) (hm : wfMod m) :
    pendCur (some m) ≠ "" := by
  cases hbm : m.forgeModule with
  | true =>
    have hcur : pendCur (some m) =
        modLine m.author m.name (m.version.getD "") := by
      simp [pendCur, hbm]
    rw [hcur]
    exact ne_empty_of_data_cons (modLine_data _ _ _)
  | false =>
    cases hrt : refTruthy m with
    | false =>
      have hcur : pendCur (some m) =
          modLineGit1 m.author m.name ++ gitLine (m.git.getD "") false := by
        simp [pendCur, hbm, gitDeclCur, hrt]
      rw [hcur]
      exact ne_empty_of_data_cons (gitDecl_noref_data _ _ _)
    | true =>
      have hcur : pendCur (some m) =
          modLineGit1 m.author m.name ++ gitLine (m.git.getD "") true ++
            refLine (m.ref.getD "") := by
        simp [pendCur, hbm, gitDeclCur, hrt]
      rw [hcur]
      exact ne_empty_of_data_cons (gitDecl_ref_data _ _ _ _)

theorem flushSt_midSt_some_top (u : String) (M D : List ModuleDeclaration)
    (m : ModuleDeclaration) (hm : wfMod m) :
    flushSt (midSt u false M D (some m)) =
      some { midSt u false M D (some m) with modules := M ++ [normMod m] } := by
  unfold flushSt
  rw [if_pos ⟨rfl, pendCur_some_ne m hm⟩]
  show (match parseModLine (pendCur (some m)) with
    | none => none
    | some mm => _) = _
  rw [parseModLine_pendCur m hm]
  show some (if false = true then _ else _) = _
  rw [if_neg (by simp)]
  have hcc : { { normMod m with comments := [] } with
      comments := (midSt u false M D (some m)).curComment } = normMod m := by
    cases hb : m.forgeModule <;> simp [midSt, pendComments, normMod, hb]
  simp only [midSt] at hcc ⊢
  rw [hcc]

theorem flushSt_midSt_some_dep (u : String) (M D : List ModuleDeclaration)
    (m : ModuleDeclaration) (hm : wfMod m) :
    flushSt (midSt u true M D (some m)) =
      some { midSt u true M D (some m) with
               dependentModules := D ++ [normMod m] } := by
  unfold flushSt
  rw [if_pos ⟨rfl, pendCur_some_ne m hm⟩]
  show (match parseModLine (pendCur (some m)) with
    | none => none
    | some mm => _) = _
  rw [parseModLine_pendCur m hm]
  show some (if true = true then _ else _) = _
  rw [if_pos rfl]
  have hcc : { { normMod m with comments := [] } with
      comments := (midSt u true M D (some m)).curComment } = normMod m := by
    cases hb : m.forgeModule <;> simp [midSt, pendComments, normMod, hb]
  simp only [midSt] at hcc ⊢
  rw [hcc]

/-! Running whole blocks of emitted lines. -/

theorem runLines_nil (d : String) (o : Option ParseSt) : runLines d o [] = o := rfl

theorem runLines_cons (d : String) (o : Option ParseSt) (l : String)
    (ls : List String) :
    runLines d o (l :: ls) =
      runLines d (o.bind (fun st => lineStep d st l)) ls := rfl

theorem runLines_append (d : String) (o : Option ParseSt) (l1 l2 : List String) :
    runLines d o (l1 ++ l2) = runLines d (runLines d o l1) l2 := by
  unfold runLines
  rw [List.foldl_append]

theorem runLines_comments :
    ∀ (cs : List String) (st : ParseSt), (∀ c ∈ cs, wfComment c) →
      runLines depIdDefault (some st) (cs.map commentLine) =
        some { st with readingComment := st.readingComment ++ cs } := by
  intro cs
  induction cs with
  | nil =>
    intro st _
    simp [runLines_nil]
  | cons c rest ih =>
    intro st hall
    rw [List.map_cons, runLines_cons]
    rw [show (some st).bind (fun s => lineStep depIdDefault s (commentLine c)) =
      lineStep depIdDefault st (commentLine c) from rfl]
    rw [lineStep_commentLine st c (hall c (by simp))]
    rw [ih _ (fun x hx => hall x (by simp [hx]))]
    simp [List.append_assoc]

theorem flushSt_readingComment (st : ParseSt) (X : List String) :
    flushSt { st with readingComment := X } =
      (flushSt st).map (fun st1 => { st1 with readingComment := X }) := by
  unfold flushSt
  by_cases h : (st.inDecl = true) ∧ st.cur ≠ ""
  · rw [if_pos h, if_pos h]
    cases parseModLine st.cur with
    | none => rfl
    | some mm =>
      cases hd : st.inDeps <;> simp [hd]
  · rw [if_neg h, if_neg h]
    rfl

theorem runLines_forgeBlock_top (u : String) (M D : List ModuleDeclaration)
    (pend : Option ModuleDeclaration) (m : ModuleDeclaration)
    (hm : wfForgeMod m) (hp : wfPend pend) :
    runLines depIdDefault (some (midSt u false M D pend)) (forgeBlock m) =
      some (midSt u false (M ++ pendMods pend) D (some m)) := by
  rcases hver : m.version with _ | v
  · have hov := hm.2.2.2.1
    rw [hver] at hov
    exact absurd hov (by simp [wfOptWord])
  have hv : wfWord v := by
    have := hm.2.2.2.1
    rw [hver] at this
    exact this
  unfold forgeBlock
  rw [runLines_append, runLines_comments m.comments _ hm.2.2.2.2]
  rw [runLines_cons, runLines_nil]
  rw [show (some { midSt u false M D pend with
      readingComment := (midSt u false M D pend).readingComment ++ m.comments }).bind
      (fun s => lineStep depIdDefault s
        (modLine m.author m.name (m.version.getD ""))) =
    lineStep depIdDefault { midSt u false M D pend with
      readingComment := (midSt u false M D pend).readingComment ++ m.comments }
      (modLine m.author m.name (m.version.getD "")) from rfl]
  have hvg : wfWord (m.version.getD "") := by
    rw [hver]
    exact hv
  rw [lineStep_modLine _ m.author m.name (m.version.getD "") hm.2.1 hm.2.2.1 hvg]
  have hrc : { midSt u false M D pend with
      readingComment := (midSt u false M D pend).readingComment ++ m.comments } =
      { midSt u false M D pend with readingComment := m.comments } := by
    simp [midSt]
  rw [hrc, flushSt_readingComment (midSt u false M D pend) m.comments]
  cases pend with
  | none =>
    rw [flushSt_midSt_none]
    show some _ = _
    simp only [Option.map_some, Option.map_some]
    have : pendMods none = ([] : List ModuleDeclaration) := rfl
    rw [this, List.append_nil]
    simp [midSt, pendCur, pendComments, hm.1]
  | some p =>
    rw [flushSt_midSt_some_top u M D p hp]
    simp only [Option.map_some]
    show some _ = some _
    simp [midSt, pendCur, pendComments, pendMods, hm.1]

theorem runLines_forgeBlock_dep (u : String) (M D : List ModuleDeclaration)
    (pend : Option ModuleDeclaration) (m : ModuleDeclaration)
    (hm : wfForgeMod m) (hp : wfPend pend) :
    runLines depIdDefault (some (midSt u true M D pend)) (forgeBlock m) =
      some (midSt u true M (D ++ pendMods pend) (some m)) := by
  rcases hver : m.version with _ | v
  · have hov := hm.2.2.2.1
    rw [hver] at hov
    exact absurd hov (by simp [wfOptWord])
  have hv : wfWord v := by
    have := hm.2.2.2.1
    rw [hver] at this
    exact this
  unfold forgeBlock
  rw [runLines_append, runLines_comments m.comments _ hm.2.2.2.2]
  rw [runLines_cons, runLines_nil]
  rw [show (some { midSt u true M D pend with
      readingComment := (midSt u true M D pend).readingComment ++ m.comments }).bind
      (fun s => lineStep depIdDefault s
        (modLine m.author m.name (m.version.getD ""))) =
    lineStep depIdDefault { midSt u true M D pend with
      readingComment := (midSt u true M D pend).readingComment ++ m.comments }
      (modLine m.author m.name (m.version.getD "")) from rfl]
  have hvg : wfWord (m.version.getD "") := by
    rw [hver]
    exact hv
  rw [lineStep_modLine _ m.author m.name (m.version.getD "") hm.2.1 hm.2.2.1 hvg]
  have hrc : { midSt u true M D pend with
      readingComment := (midSt u true M D pend).readingComment ++ m.comments } =
      { midSt u true M D pend with readingComment := m.comments } := by
    simp [midSt]
  rw [hrc, flushSt_readingComment (midSt u true M D pend) m.comments]
  cases pend with
  | none =>
    rw [flushSt_midSt_none]
    have hpm : pendMods none = ([] : List ModuleDeclaration) := rfl
    rw [hpm, List.append_nil]
    simp [midSt, pendCur, pendComments, hm.1]
  | some p =>
    rw [flushSt_midSt_some_dep u M D p hp]
    simp [midSt, pendCur, pendComments, pendMods, hm.1]

theorem runLines_gitBlock_top (u : String) (M D : List ModuleDeclaration)
    (pend : Option ModuleDeclaration) (m : ModuleDeclaration)
    (hm : wfGitMod m) (hp : wfPend pend) :
    runLines depIdDefault (some (midSt u false M D pend)) (gitBlock m) =
      some (midSt u false (M ++ pendMods pend) D (some m)) := by
  rcases hgit : m.git with _ | g
  · have hov := hm.2.2.2.1
    rw [hgit] at hov
    exact absurd hov (by simp [wfOptWord])
  have hgw : wfWord g := by
    have := hm.2.2.2.1
    rw [hgit] at this
    exact this
  have hgg : wfWord (m.git.getD "") := by
    rw [hgit]
    exact hgw
  unfold gitBlock
  rw [runLines_append, runLines_append,
    runLines_comments m.comments _ hm.2.2.2.2.2]
  have hrc : { midSt u false M D pend with
      readingComment := (midSt u false M D pend).readingComment ++ m.comments } =
      { midSt u false M D pend with readingComment := m.comments } := by
    simp [midSt]
  rw [hrc]
  rw [runLines_cons]
  simp only [Option.some_bind]
  rw [lineStep_modLineGit1 _ m.author m.name hm.2.1 hm.2.2.1]
  rw [flushSt_readingComment (midSt u false M D pend) m.comments]
  cases pend with
  | none =>
    rw [flushSt_midSt_none]
    have hpm : pendMods none = ([] : List ModuleDeclaration) := rfl
    rw [hpm, List.append_nil]
    simp only [Option.map_some']
    rw [runLines_cons, runLines_nil]
    simp only [Option.some_bind]
    rw [lineStep_gitLine _ (m.git.getD "") (refTruthy m) hgg rfl]
    cases hrt : refTruthy m with
    | false =>
      rw [if_neg (by simp [hrt])]
      rw [runLines_nil]
      simp [midSt, pendCur, pendComments, gitDeclCur, hrt, hm.1, hgit]
    | true =>
      rw [if_pos (by simp [hrt])]
      have hrw : wfWord (m.ref.getD "") := by
        rcases href : m.ref with _ | r
        · rw [refTruthy, href] at hrt
          exact absurd hrt (by simp)
        · have := hm.2.2.2.2.1
          rw [href] at this
          exact this
      rw [runLines_cons, runLines_nil]
      simp only [Option.some_bind]
      rw [lineStep_refLine _ (m.ref.getD "") hrw rfl]
      simp [midSt, pendCur, pendComments, gitDeclCur, hrt, hm.1, hgit]
  | some p =>
    rw [flushSt_midSt_some_top u M D p hp]
    simp only [Option.map_some']
    rw [runLines_cons, runLines_nil]
    simp only [Option.some_bind]
    rw [lineStep_gitLine _ (m.git.getD "") (refTruthy m) hgg rfl]
    cases hrt : refTruthy m with
    | false =>
      rw [if_neg (by simp [hrt])]
      rw [runLines_nil]
      simp [midSt, pendCur, pendComments, pendMods, gitDeclCur, hrt, hm.1, hgit]
    | true =>
      rw [if_pos (by simp [hrt])]
      have hrw : wfWord (m.ref.getD "") := by
        rcases href : m.ref with _ | r
        · rw [refTruthy, href] at hrt
          exact absurd hrt (by simp)
        · have := hm.2.2.2.2.1
          rw [href] at this
          exact this
      rw [runLines_cons, runLines_nil]
      simp only [Option.some_bind]
      rw [lineStep_refLine _ (m.ref.getD "") hrw rfl]
      simp [midSt, pendCur, pendComments, pendMods, gitDeclCur, hrt, hm.1, hgit]

/-! Running whole sections (separator-joined block sequences). -/

theorem joinSep_cons_eq (sepl : String) :
    ∀ (bs : List (List String)) (b : List String),
      joinSep [sepl] (b :: bs) =
        b ++ ((bs.map (fun blk => sepl :: blk)).flatten) := by
  intro bs
  induction bs with
  | nil => intro b; simp [joinSep]
  | cons b2 bs2 ih =>
    intro b
    rw [show joinSep [sepl] (b :: b2 :: bs2) =
      b ++ [sepl] ++ joinSep [sepl] (b2 :: bs2) from rfl]
    rw [ih b2]
    simp [List.append_assoc]

theorem runLines_sec_flatten_top (sep : String)
    (hsep : ∀ st : ParseSt,
      lineStep depIdDefault st sep = some { st with readingComment := [] })
    (blockF : ModuleDeclaration → List String)
    (P : ModuleDeclaration → Prop)
    (hPwf : ∀ m, P m → wfMod m)
    (hblockF : ∀ (u' : String) (M' D' : List ModuleDeclaration)
        (pend' : Option ModuleDeclaration) (m : ModuleDeclaration),
        P m → wfPend pend' →
        runLines depIdDefault (some (midSt u' false M' D' pend')) (blockF m) =
          some (midSt u' false (M' ++ pendMods pend') D' (some m))) :
    ∀ (ms : List ModuleDeclaration) (u : String)
      (M D : List ModuleDeclaration) (pend : Option ModuleDeclaration),
      (∀ m ∈ ms, P m) → wfPend pend →
      runLines depIdDefault (some (midSt u false M D pend))
        (((ms.map blockF).map (fun blk => sep :: blk)).flatten) =
        some (midSt u false (secAcc M pend ms).1 D (secAcc M pend ms).2) := by
  intro ms
  induction ms with
  | nil =>
    intro u M D pend _ _
    simp [runLines_nil, secAcc]
  | cons m rest ih =>
    intro u M D pend hall hp
    rw [List.map_cons, List.map_cons, List.flatten_cons, runLines_append]
    rw [show ((sep :: blockF m : List String)) = [sep] ++ blockF m from rfl]
    rw [runLines_append, runLines_cons, runLines_nil]
    simp only [Option.some_bind]
    rw [hsep (midSt u false M D pend)]
    have hid : { midSt u false M D pend with readingComment := [] } =
        midSt u false M D pend := by
      simp [midSt]
    rw [hid, hblockF u M D pend m (hall m (by simp)) hp]
    rw [ih u (M ++ pendMods pend) D (some m)
      (fun x hx => hall x (by simp [hx]))
      (by show wfMod m; exact hPwf m (hall m (by simp)))]
    rfl

theorem run_section_top (sep : String)
    (hsep : ∀ st : ParseSt,
      lineStep depIdDefault st sep = some { st with readingComment := [] })
    (blockF : ModuleDeclaration → List String)
    (P : ModuleDeclaration → Prop)
    (hPwf : ∀ m, P m → wfMod m)
    (hblockF : ∀ (u' : String) (M' D' : List ModuleDeclaration)
        (pend' : Option ModuleDeclaration) (m : ModuleDeclaration),
        P m → wfPend pend' →
        runLines depIdDefault (some (midSt u' false M' D' pend')) (blockF m) =
          some (midSt u' false (M' ++ pendMods pend') D' (some m))) :
    ∀ (ms : List ModuleDeclaration) (u : String)
      (M D : List ModuleDeclaration) (pend : Option ModuleDeclaration),
      (∀ m ∈ ms, P m) → wfPend pend →
      runLines depIdDefault (some (midSt u false M D pend))
        (joinSep [sep] (ms.map blockF)) =
        some (midSt u false (secAcc M pend ms).1 D (secAcc M pend ms).2) := by
  intro ms u M D pend hall hp
  cases ms with
  | nil => simp [joinSep, runLines_nil, secAcc]
  | cons m rest =>
    rw [List.map_cons, joinSep_cons_eq sep _ (blockF m), runLines_append]
    rw [hblockF u M D pend m (hall m (by simp)) hp]
    rw [runLines_sec_flatten_top sep hsep blockF P hPwf hblockF rest u
      (M ++ pendMods pend) D (some m) (fun x hx => hall x (by simp [hx]))
      (by show wfMod m; exact hPwf m (hall m (by simp)))]
    rfl

theorem runLines_sec_flatten_dep
    (hsep : ∀ st : ParseSt,
      lineStep depIdDefault st "" = some { st with readingComment := [] }) :
    ∀ (ms : List ModuleDeclaration) (u : String)
      (M D : List ModuleDeclaration) (pend : Option ModuleDeclaration),
      (∀ m ∈ ms, wfForgeMod m) → wfPend pend →
      runLines depIdDefault (some (midSt u true M D pend))
        (((ms.map forgeBlock).map (fun blk => "" :: blk)).flatten) =
        some (midSt u true M (secAcc D pend ms).1 (secAcc D pend ms).2) := by
  intro ms
  induction ms with
  | nil =>
    intro u M D pend _ _
    simp [runLines_nil, secAcc]
  | cons m rest ih =>
    intro u M D pend hall hp
    rw [List.map_cons, List.map_cons, List.flatten_cons, runLines_append]
    rw [show (("" :: forgeBlock m : List String)) = [""] ++ forgeBlock m from rfl]
    rw [runLines_append, runLines_cons, runLines_nil]
    simp only [Option.some_bind]
    rw [hsep (midSt u true M D pend)]
    have hid : { midSt u true M D pend with readingComment := [] } =
        midSt u true M D pend := by
      simp [midSt]
    rw [hid, runLines_forgeBlock_dep u M D pend m (hall m (by simp)) hp]
    have hwfm : wfMod m := by
      refine ⟨fun _ => hall m (by simp), fun hb => ?_⟩
      exact absurd ((hall m (by simp)).1) (by simp [hb])
    rw [ih u M (D ++ pendMods pend) (some m)
      (fun x hx => hall x (by simp [hx])) (by show wfMod m; exact hwfm)]
    rfl

theorem run_section_dep
    (hsep : ∀ st : ParseSt,
      lineStep depIdDefault st "" = some { st with readingComment := [] }) :
    ∀ (ms : List ModuleDeclaration) (u : String)
      (M D : List ModuleDeclaration) (pend : Option ModuleDeclaration),
      (∀ m ∈ ms, wfForgeMod m) → wfPend pend →
      runLines depIdDefault (some (midSt u true M D pend))
        (joinSep [""] (ms.map forgeBlock)) =
        some (midSt u true M (secAcc D pend ms).1 (secAcc D pend ms).2) := by
  intro ms u M D pend hall hp
  cases ms with
  | nil => simp [joinSep, runLines_nil, secAcc]
  | cons m rest =>
    rw [List.map_cons, joinSep_cons_eq "" _ (forgeBlock m), runLines_append]
    rw [runLines_forgeBlock_dep u M D pend m (hall m (by simp)) hp]
    have hwfm : wfMod m := by
      refine ⟨fun _ => hall m (by simp), fun hb => ?_⟩
      exact absurd ((hall m (by simp)).1) (by simp [hb])
    rw [runLines_sec_flatten_dep hsep rest u M (D ++ pendMods pend) (some m)
      (fun x hx => hall x (by simp [hx])) (by show wfMod m; exact hwfm)]
    rfl

/-! Fixed line groups of the emitted manifest. -/

theorem flushSt_midSt_top (u : String) (M D : List ModuleDeclaration)
    (pend : Option ModuleDeclaration) (hp : wfPend pend) :
    flushSt (midSt u false M D pend) =
      some { midSt u false M D pend with modules := M ++ pendMods pend } := by
  cases pend with
  | none =>
    rw [flushSt_midSt_none]
    simp [midSt, pendMods]
  | some p => exact flushSt_midSt_some_top u M D p hp

theorem flushSt_midSt_dep (u : String) (M D : List ModuleDeclaration)
    (pend : Option ModuleDeclaration) (hp : wfPend pend) :
    flushSt (midSt u true M D pend) =
      some { midSt u true M D pend with
               dependentModules := D ++ pendMods pend } := by
  cases pend with
  | none =>
    rw [flushSt_midSt_none]
    simp [midSt, pendMods]
  | some p => exact flushSt_midSt_some_dep u M D p hp

theorem run_prelude (u : String) (hu : wfForgeUrl u) :
    runLines depIdDefault (some ({} : ParseSt)) [forgeLine u, ""] =
      some (midSt u false [] [] none) := by
  rw [runLines_cons, runLines_cons, runLines_nil]
  simp only [Option.some_bind]
  rw [lineStep_forgeLine ({} : ParseSt) u hu rfl]
  simp only [Option.some_bind]
  rw [lineStep_empty]
  show some _ = some _
  simp [midSt, pendCur, pendComments]

theorem run_header2 (u : String) (dep : Bool) (M D : List ModuleDeclaration)
    (pend : Option ModuleDeclaration) (c : String) (hwf : wfComment c) :
    runLines depIdDefault (some (midSt u dep M D pend)) [commentLine c, ""] =
      some (midSt u dep M D pend) := by
  rw [runLines_cons, runLines_cons, runLines_nil]
  simp only [Option.some_bind]
  rw [lineStep_commentLine _ c hwf]
  simp only [Option.some_bind]
  rw [lineStep_empty]
  show some _ = some _
  simp [midSt]

theorem run_header3 (u : String) (dep : Bool) (M D : List ModuleDeclaration)
    (pend : Option ModuleDeclaration) (c : String) (hwf : wfComment c) :
    runLines depIdDefault (some (midSt u dep M D pend))
      ["", commentLine c, ""] = some (midSt u dep M D pend) := by
  rw [runLines_cons]
  simp only [Option.some_bind]
  rw [lineStep_empty]
  have hid : { midSt u dep M D pend with readingComment := [] } =
      midSt u dep M D pend := by
    simp [midSt]
  rw [hid]
  exact run_header2 u dep M D pend c hwf

theorem run_depid_trio (u : String) (M D : List ModuleDeclaration)
    (pend : Option ModuleDeclaration) (hp : wfPend pend) :
    runLines depIdDefault (some (midSt u false M D pend))
      ["", depIdDefault, ""] =
      some (midSt u true (M ++ pendMods pend) D none) := by
  rw [runLines_cons]
  simp only [Option.some_bind]
  rw [lineStep_empty]
  have hid : { midSt u false M D pend with readingComment := [] } =
      midSt u false M D pend := by
    simp [midSt]
  rw [hid, runLines_cons, runLines_cons, runLines_nil]
  simp only [Option.some_bind]
  rw [lineStep_depId, flushSt_midSt_top u M D pend hp]
  simp only [Option.map_some']
  simp only [Option.some_bind]
  rw [lineStep_empty]
  show some _ = some _
  simp [midSt, pendCur, pendComments]

theorem secAcc_flush :
    ∀ (ms : List ModuleDeclaration) (acc : List ModuleDeclaration)
      (pend : Option ModuleDeclaration),
      (secAcc acc pend ms).1 ++ pendMods (secAcc acc pend ms).2 =
        acc ++ pendMods pend ++ ms.map normMod := by
  intro ms
  induction ms with
  | nil => intro acc pend; simp [secAcc]
  | cons m rest ih =>
    intro acc pend
    have hdef : secAcc acc pend (m :: rest) =
        secAcc (acc ++ pendMods pend) (some m) rest := rfl
    rw [hdef, ih (acc ++ pendMods pend) (some m)]
    simp [pendMods, List.append_assoc]

theorem sortByName_sorted_id :
    ∀ (l : List ModuleDeclaration), isSortedByName l = true → sortByName l = l := by
  intro l
  induction l with
  | nil => intro _; rfl
  | cons a rest ih =>
    intro hs
    have hstep : sortByName (a :: rest) = insertByName a (sortByName rest) := rfl
    cases rest with
    | nil => rfl
    | cons b rest2 =>
      have hab : nameLtB a b = true := by
        have : (nameLtB a b && isSortedByName (b :: rest2)) = true := hs
        exact (Bool.and_eq_true_iff.mp this).1
      have htail : isSortedByName (b :: rest2) = true := by
        have : (nameLtB a b && isSortedByName (b :: rest2)) = true := hs
        exact (Bool.and_eq_true_iff.mp this).2
      rw [hstep, ih htail]
      unfold insertByName
      rw [if_pos hab]

theorem secAcc_wfPend :
    ∀ (ms : List ModuleDeclaration) (acc : List ModuleDeclaration)
      (pend : Option ModuleDeclaration),
      (∀ m ∈ ms, wfMod m) → wfPend pend → wfPend (secAcc acc pend ms).2 := by
  intro ms
  induction ms with
  | nil => intro acc pend _ hp; exact hp
  | cons m rest ih =>
    intro acc pend hall _
    have hdef : secAcc acc pend (m :: rest) =
        secAcc (acc ++ pendMods pend) (some m) rest := rfl
    rw [hdef]
    exact ih (acc ++ pendMods pend) (some m)
      (fun x hx => hall x (by simp [hx]))
      (by show wfMod m; exact hall m (by simp))

/-! On escape-free fields the rendered blocks coincide with their plain
forms, so the faithful emission agrees with `toLinesPlain`. -/

theorem gitBlockE_escFree {m : ModuleDeclaration} (h : escFreeMod m) :
    gitBlockE m = gitBlock m := by
  obtain ⟨h1, h2, h3, h4, h5⟩ := h
  unfold escFree at h1 h2 h4 h5
  unfold gitBlockE gitBlock
  rw [h1, h2, h4, h5]

theorem forgeBlockE_escFree {m : ModuleDeclaration} (h : escFreeMod m) :
    forgeBlockE m = forgeBlock m := by
  obtain ⟨h1, h2, h3, h4, h5⟩ := h
  unfold escFree at h1 h2 h3
  unfold forgeBlockE forgeBlock
  rw [h1, h2, h3]

theorem escFree_empty : escFree "" := rfl

theorem escFreeMod_normMod {m : ModuleDeclaration} (h : escFreeMod m) :
    escFreeMod (normMod m) := by
  obtain ⟨h1, h2, h3, h4, h5⟩ := h
  unfold escFreeMod normMod
  cases hb : m.forgeModule
  · rw [if_neg (show ¬(false = true) from by decide)]
    exact ⟨h1, h2, escFree_empty, h4, h5⟩
  · rw [if_pos (show true = true from rfl)]
    exact ⟨h1, h2, h3, escFree_empty, escFree_empty⟩

theorem fromLines_toLines (pf : PuppetFile) (h : canonicalPF pf) :
    PuppetFile.fromLines depIdDefault (toLinesPlain depIdDefault pf) =
      some
        { forge := pf.forge, preambleLines := [],
          modules :=
            ((pf.modules.filter (fun m => ¬ m.forgeModule)).map normMod) ++
              ((pf.modules.filter (fun m => m.forgeModule)).map normMod),
          dependentModules := pf.dependentModules.map normMod } := by
  obtain ⟨hu, hpre, hmods, hdeps, hsg, hsf, hsd, hef, hem, hed⟩ := h
  have hG : sortByName (pf.modules.filter (fun m => ¬ m.forgeModule)) =
      pf.modules.filter (fun m => ¬ m.forgeModule) := sortByName_sorted_id _ hsg
  have hF : sortByName (pf.modules.filter (fun m => m.forgeModule)) =
      pf.modules.filter (fun m => m.forgeModule) := sortByName_sorted_id _ hsf
  have hD : sortByName pf.dependentModules = pf.dependentModules :=
    sortByName_sorted_id _ hsd
  have hGwf : ∀ m ∈ pf.modules.filter (fun m => ¬ m.forgeModule), wfGitMod m := by
    intro m hm
    have h1 := List.mem_filter.mp hm
    have hb : m.forgeModule = false := by
      have := h1.2
      simp at this
      exact this
    exact (hmods m h1.1).2 hb
  have hFwf : ∀ m ∈ pf.modules.filter (fun m => m.forgeModule), wfForgeMod m := by
    intro m hm
    have h1 := List.mem_filter.mp hm
    have hb : m.forgeModule = true := by
      have := h1.2
      simp at this
      exact this
    exact (hmods m h1.1).1 hb
  unfold PuppetFile.fromLines toLinesPlain
  rw [hpre, hG, hF, hD]
  rw [if_neg (by simp)]
  rw [show ("# Git modules" : String) = commentLine "Git modules" from rfl]
  rw [show ("# Forge modules" : String) = commentLine "Forge modules" from rfl]
  rw [runLines_append, runLines_append, runLines_append, runLines_append,
    runLines_append, runLines_append, runLines_append]
  rw [run_prelude pf.forge hu]
  rw [runLines_nil]
  rw [run_header2 pf.forge false [] [] none "Git modules" (by decide)]
  rw [run_section_top "    " lineStep_sep4 gitBlock wfGitMod
    (fun m hg => ⟨fun hb => absurd hg.1 (by simp [hb]), fun _ => hg⟩)
    (fun u' M' D' pend' m hg hp => runLines_gitBlock_top u' M' D' pend' m hg hp)
    (pf.modules.filter (fun m => ¬ m.forgeModule)) pf.forge [] [] none hGwf
    (by show True; trivial)]
  rw [run_header3 pf.forge false _ [] _ "Forge modules" (by decide)]
  have hPG : wfPend (secAcc [] none
      (pf.modules.filter (fun m => ¬ m.forgeModule))).2 :=
    secAcc_wfPend _ [] none
      (fun m hm => ⟨fun hb => absurd (hGwf m hm).1 (by simp [hb]),
        fun _ => hGwf m hm⟩)
      (by show True; trivial)
  rw [run_section_top "" lineStep_empty forgeBlock wfForgeMod
    (fun m hf => ⟨fun _ => hf, fun hb => absurd hf.1 (by simp [hb])⟩)
    (fun u' M' D' pend' m hf hp => runLines_forgeBlock_top u' M' D' pend' m hf hp)
    (pf.modules.filter (fun m => m.forgeModule)) pf.forge _ [] _ hFwf hPG]
  have hPF : wfPend (secAcc (secAcc [] none
      (pf.modules.filter (fun m => ¬ m.forgeModule))).1
      (secAcc [] none (pf.modules.filter (fun m => ¬ m.forgeModule))).2
      (pf.modules.filter (fun m => m.forgeModule))).2 :=
    secAcc_wfPend _ _ _
      (fun m hm => ⟨fun _ => hFwf m hm, fun hb => absurd (hFwf m hm).1
        (by simp [hb])⟩) hPG
  rw [run_depid_trio pf.forge _ [] _ hPF]
  rw [run_section_dep lineStep_empty pf.dependentModules pf.forge _ [] none
    hdeps (by show True; trivial)]
  have hPD : wfPend (secAcc [] none pf.dependentModules).2 :=
    secAcc_wfPend _ [] none
      (fun m hm => ⟨fun _ => hdeps m hm, fun hb => absurd (hdeps m hm).1
        (by simp [hb])⟩)
      (by show True; trivial)
  simp only [Option.some_bind]
  rw [flushSt_midSt_dep _ _ _ _ hPD]
  simp only [Option.map_some']
  have hmodseq :
      (secAcc (secAcc [] none
          (pf.modules.filter (fun m => ¬ m.forgeModule))).1
        (secAcc [] none (pf.modules.filter (fun m => ¬ m.forgeModule))).2
        (pf.modules.filter (fun m => m.forgeModule))).1 ++
      pendMods (secAcc (secAcc [] none
          (pf.modules.filter (fun m => ¬ m.forgeModule))).1
        (secAcc [] none (pf.modules.filter (fun m => ¬ m.forgeModule))).2
        (pf.modules.filter (fun m => m.forgeModule))).2 =
      ((pf.modules.filter (fun m => ¬ m.forgeModule)).map normMod) ++
      ((pf.modules.filter (fun m => m.forgeModule)).map normMod) := by
    rw [secAcc_flush, secAcc_flush]
    simp [pendMods]
  have hdepeq :
      (secAcc [] none pf.dependentModules).1 ++
        pendMods (secAcc [] none pf.dependentModules).2 =
      pf.dependentModules.map normMod := by
    rw [secAcc_flush]
    simp [pendMods]
  simp only [midSt]
  rw [hmodseq, hdepeq]

/-! Re-emission of the parsed manifest produces the same lines. -/

theorem normMod_forgeModule (m : ModuleDeclaration) :
    (normMod m).forgeModule = m.forgeModule := by
  cases hb : m.forgeModule <;> simp [normMod, hb]

theorem normMod_name (m : ModuleDeclaration) : (normMod m).name = m.name := by
  cases hb : m.forgeModule <;> simp [normMod, hb]

theorem nameLtB_normMod (a b : ModuleDeclaration) :
    nameLtB (normMod a) (normMod b) = nameLtB a b := by
  unfold nameLtB
  rw [normMod_name, normMod_name]

theorem isSorted_map_norm :
    ∀ l : List ModuleDeclaration,
      isSortedByName (l.map normMod) = isSortedByName l := by
  intro l
  induction l with
  | nil => rfl
  | cons a rest ih =>
    cases rest with
    | nil => rfl
    | cons b t =>
      show (nameLtB (normMod a) (normMod b) &&
        isSortedByName (List.map normMod (b :: t))) =
        (nameLtB a b && isSortedByName (b :: t))
      rw [ih, nameLtB_normMod]

theorem gitBlock_normMod (m : ModuleDeclaration) (hb : m.forgeModule = false) :
    gitBlock (normMod m) = gitBlock m := by
  simp [gitBlock, normMod, hb, refTruthy]

theorem forgeBlock_normMod (m : ModuleDeclaration) (hb : m.forgeModule = true) :
    forgeBlock (normMod m) = forgeBlock m := by
  simp [forgeBlock, normMod, hb]

theorem toLines_parsed (pf : PuppetFile) (h : canonicalPF pf) :
    PuppetFile.toLines depIdDefault
      { forge := pf.forge, preambleLines := [],
        modules :=
          ((pf.modules.filter (fun m => ¬ m.forgeModule)).map normMod) ++
            ((pf.modules.filter (fun m => m.forgeModule)).map normMod),
        dependentModules := pf.dependentModules.map normMod } =
      toLinesPlain depIdDefault pf := by
  obtain ⟨hu, hpre, hmods, hdeps, hsg, hsf, hsd, hef, hem, hed⟩ := h
  have hGmem : ∀ x ∈ (pf.modules.filter (fun m => ¬ m.forgeModule)).map normMod,
      x.forgeModule = false := by
    intro x hx
    rcases List.mem_map.mp hx with ⟨m, hm, rfl⟩
    have h1 := List.mem_filter.mp hm
    have hb : m.forgeModule = false := by
      have := h1.2
      simp at this
      exact this
    rw [normMod_forgeModule, hb]
  have hFmem : ∀ x ∈ (pf.modules.filter (fun m => m.forgeModule)).map normMod,
      x.forgeModule = true := by
    intro x hx
    rcases List.mem_map.mp hx with ⟨m, hm, rfl⟩
    have h1 := List.mem_filter.mp hm
    have hb : m.forgeModule = true := by
      have := h1.2
      simp at this
      exact this
    rw [normMod_forgeModule, hb]
  have hfilterG :
      (((pf.modules.filter (fun m => ¬ m.forgeModule)).map normMod) ++
        ((pf.modules.filter (fun m => m.forgeModule)).map normMod)).filter
        (fun m => ¬ m.forgeModule) =
      (pf.modules.filter (fun m => ¬ m.forgeModule)).map normMod := by
    rw [List.filter_append]
    rw [List.filter_eq_self.mpr (fun a ha => by simp [hGmem a ha])]
    rw [show ((pf.modules.filter (fun m => m.forgeModule)).map normMod).filter
        (fun m => ¬ m.forgeModule) = [] from
      List.filter_eq_nil_iff.mpr (fun a ha => by simp [hFmem a ha])]
    rw [List.append_nil]
  have hfilterF :
      (((pf.modules.filter (fun m => ¬ m.forgeModule)).map normMod) ++
        ((pf.modules.filter (fun m => m.forgeModule)).map normMod)).filter
        (fun m => m.forgeModule) =
      (pf.modules.filter (fun m => m.forgeModule)).map normMod := by
    rw [List.filter_append]
    rw [show ((pf.modules.filter (fun m => ¬ m.forgeModule)).map normMod).filter
        (fun m => m.forgeModule) = [] from
      List.filter_eq_nil_iff.mpr (fun a ha => by simp [hGmem a ha])]
    rw [List.filter_eq_self.mpr (fun a ha => by simp [hFmem a ha])]
    rw [List.nil_append]
  have hsortG : sortByName
      ((pf.modules.filter (fun m => ¬ m.forgeModule)).map normMod) =
      (pf.modules.filter (fun m => ¬ m.forgeModule)).map normMod :=
    sortByName_sorted_id _ (by rw [isSorted_map_norm]; exact hsg)
  have hsortF : sortByName
      ((pf.modules.filter (fun m => m.forgeModule)).map normMod) =
      (pf.modules.filter (fun m => m.forgeModule)).map normMod :=
    sortByName_sorted_id _ (by rw [isSorted_map_norm]; exact hsf)
  have hsortD : sortByName (pf.dependentModules.map normMod) =
      pf.dependentModules.map normMod :=
    sortByName_sorted_id _ (by rw [isSorted_map_norm]; exact hsd)
  have hmapG : ((pf.modules.filter (fun m => ¬ m.forgeModule)).map normMod).map
      gitBlockE = (pf.modules.filter (fun m => ¬ m.forgeModule)).map gitBlock := by
    rw [List.map_map]
    apply List.map_congr_left
    intro m hm
    have h1 := List.mem_filter.mp hm
    have hb : m.forgeModule = false := by
      have := h1.2
      simp at this
      exact this
    show gitBlockE (normMod m) = gitBlock m
    rw [gitBlockE_escFree (escFreeMod_normMod (hem m h1.1))]
    exact gitBlock_normMod m hb
  have hmapF : ((pf.modules.filter (fun m => m.forgeModule)).map normMod).map
      forgeBlockE =
      (pf.modules.filter (fun m => m.forgeModule)).map forgeBlock := by
    rw [List.map_map]
    apply List.map_congr_left
    intro m hm
    have h1 := List.mem_filter.mp hm
    have hb : m.forgeModule = true := by
      have := h1.2
      simp at this
      exact this
    show forgeBlockE (normMod m) = forgeBlock m
    rw [forgeBlockE_escFree (escFreeMod_normMod (hem m h1.1))]
    exact forgeBlock_normMod m hb
  have hmapD : (pf.dependentModules.map normMod).map forgeBlockE =
      pf.dependentModules.map forgeBlock := by
    rw [List.map_map]
    apply List.map_congr_left
    intro m hm
    show forgeBlockE (normMod m) = forgeBlock m
    rw [forgeBlockE_escFree (escFreeMod_normMod (hed m hm))]
    exact forgeBlock_normMod m (hdeps m hm).1
  unfold PuppetFile.toLines toLinesPlain
  rw [hpre]
  rw [if_neg (show ¬(([] : List String) ≠ []) from by simp),
    if_neg (show ¬(([] : List String) ≠ []) from by simp)]
  rw [hfilterG, hfilterF, hsortG, hsortF, hsortD, hmapG, hmapF, hmapD]
  rw [show hbsEscape pf.forge = pf.forge from hef]
  rw [show hbsEscape depIdDefault = depIdDefault from by decide]
  rw [sortByName_sorted_id _ hsg, sortByName_sorted_id _ hsf,
    sortByName_sorted_id _ hsd]

/-! No emitted line contains a newline, so joining on newlines is invertible. -/

theorem chr_notMem_cons {x c : Char} {l : List Char} (hc : c ≠ x) (h : x ∉ l) :
    x ∉ c :: l := fun hm =>
  match List.mem_cons.mp hm with
  | .inl he => hc he.symm
  | .inr m => h m

theorem chr_notMem_append {x : Char} {l1 l2 : List Char} (h1 : x ∉ l1)
    (h2 : x ∉ l2) : x ∉ l1 ++ l2 := fun hm =>
  match List.mem_append.mp hm with
  | .inl m => h1 m
  | .inr m => h2 m

theorem noNL_word {w : String} (h : wfWord w) : '\n' ∉ w.data :=
  fun hm => absurd (h.2 _ hm).2.2.2.2.2 (by decide)

theorem noNL_commentBody {c : String} (h : wfComment c) : '\n' ∉ c.data :=
  fun hm => (h.1 _ hm).2.1 rfl

theorem noNL_forgeUrl {u : String} (h : wfForgeUrl u) : '\n' ∉ u.data :=
  fun hm => (h.2 _ hm).2.2.1 rfl

theorem noNL_forgeLine {u : String} (hu : wfForgeUrl u) :
    '\n' ∉ (forgeLine u).data := by
  rw [forgeLine_data]
  exact chr_notMem_cons (by decide) (chr_notMem_cons (by decide)
    (chr_notMem_cons (by decide) (chr_notMem_cons (by decide)
    (chr_notMem_cons (by decide) (chr_notMem_cons (by decide)
    (chr_notMem_cons (by decide) (chr_notMem_append (noNL_forgeUrl hu)
    (chr_notMem_cons (by decide) (List.not_mem_nil _)))))))))

theorem noNL_commentLine {c : String} (h : wfComment c) :
    '\n' ∉ (commentLine c).data := by
  rw [commentLine_data]
  exact chr_notMem_cons (by decide) (chr_notMem_cons (by decide)
    (noNL_commentBody h))

theorem noNL_modLine {a n v : String} (ha : wfAuthor a) (hn : wfWord n)
    (hv : wfWord v) : '\n' ∉ (modLine a n v).data := by
  rw [modLine_data]
  exact chr_notMem_cons (by decide) (chr_notMem_cons (by decide)
    (chr_notMem_cons (by decide) (chr_notMem_cons (by decide)
    (chr_notMem_cons (by decide) (chr_notMem_append (noNL_word ha.1)
    (chr_notMem_cons (by decide) (chr_notMem_append (noNL_word hn)
    (chr_notMem_cons (by decide) (chr_notMem_cons (by decide)
    (chr_notMem_cons (by decide) (chr_notMem_cons (by decide)
    (chr_notMem_append (noNL_word hv) (chr_notMem_cons (by decide)
    (List.not_mem_nil _))))))))))))))

theorem noNL_modLineGit1 {a n : String} (ha : wfAuthor a) (hn : wfWord n) :
    '\n' ∉ (modLineGit1 a n).data := by
  rw [modLineGit1_data]
  exact chr_notMem_cons (by decide) (chr_notMem_cons (by decide)
    (chr_notMem_cons (by decide) (chr_notMem_cons (by decide)
    (chr_notMem_cons (by decide) (chr_notMem_append (noNL_word ha.1)
    (chr_notMem_cons (by decide) (chr_notMem_append (noNL_word hn)
    (chr_notMem_cons (by decide) (chr_notMem_cons (by decide)
    (List.not_mem_nil _))))))))))

theorem noNL_gitLine {g : String} (b : Bool) (hg : wfWord g) :
    '\n' ∉ (gitLine g b).data := by
  cases b
  · rw [gitLine_false_data]
    exact chr_notMem_cons (by decide) (chr_notMem_cons (by decide)
      (chr_notMem_cons (by decide) (chr_notMem_cons (by decide)
      (chr_notMem_cons (by decide) (chr_notMem_cons (by decide)
      (chr_notMem_cons (by decide) (chr_notMem_cons (by decide)
      (chr_notMem_cons (by decide) (chr_notMem_cons (by decide)
      (chr_notMem_cons (by decide) (chr_notMem_cons (by decide)
      (chr_notMem_cons (by decide) (chr_notMem_append (noNL_word hg)
      (chr_notMem_cons (by decide) (List.not_mem_nil _)))))))))))))))
  · rw [gitLine_true_data]
    exact chr_notMem_cons (by decide) (chr_notMem_cons (by decide)
      (chr_notMem_cons (by decide) (chr_notMem_cons (by decide)
      (chr_notMem_cons (by decide) (chr_notMem_cons (by decide)
      (chr_notMem_cons (by decide) (chr_notMem_cons (by decide)
      (chr_notMem_cons (by decide) (chr_notMem_cons (by decide)
      (chr_notMem_cons (by decide) (chr_notMem_cons (by decide)
      (chr_notMem_cons (by decide) (chr_notMem_append (noNL_word hg)
      (chr_notMem_cons (by decide) (chr_notMem_cons (by decide)
      (List.not_mem_nil _))))))))))))))))

theorem noNL_refLine {r : String} (hr : wfWord r) :
    '\n' ∉ (refLine r).data := by
  rw [refLine_data]
  exact chr_notMem_cons (by decide) (chr_notMem_cons (by decide)
    (chr_notMem_cons (by decide) (chr_notMem_cons (by decide)
    (chr_notMem_cons (by decide) (chr_notMem_cons (by decide)
    (chr_notMem_cons (by decide) (chr_notMem_cons (by decide)
    (chr_notMem_cons (by decide) (chr_notMem_cons (by decide)
    (chr_notMem_cons (by decide) (chr_notMem_cons (by decide)
    (chr_notMem_cons (by decide) (chr_notMem_append (noNL_word hr)
    (chr_notMem_cons (by decide) (List.not_mem_nil _)))))))))))))))

theorem wfOptWord_getD {o : Option String} (h : wfOptWord o) :
    wfWord (o.getD "") := by
  cases o with
  | none => exact absurd h (by simp [wfOptWord])
  | some s => exact h

theorem refTruthy_word {m : ModuleDeclaration} (h : wfOptRef m.ref)
    (ht : refTruthy m = true) : wfWord (m.ref.getD "") := by
  unfold refTruthy at ht
  revert h ht
  generalize m.ref = o
  intro h ht
  cases o with
  | none => exact absurd ht (by decide)
  | some s => exact h

theorem noNL_gitBlock {m : ModuleDeclaration} (hm : wfGitMod m) :
    ∀ l ∈ gitBlock m, '\n' ∉ l.data := by
  intro l hl
  unfold gitBlock at hl
  rcases List.mem_append.mp hl with h1 | h2
  · rcases List.mem_append.mp h1 with h3 | h4
    · rcases List.mem_map.mp h3 with ⟨c, hc, rfl⟩
      exact noNL_commentLine (hm.2.2.2.2.2 c hc)
    · rcases List.mem_cons.mp h4 with rfl | h5
      · exact noNL_modLineGit1 hm.2.1 hm.2.2.1
      · have hgg : wfWord (m.git.getD "") := wfOptWord_getD hm.2.2.2.1
        rcases List.mem_cons.mp h5 with rfl | h6
        · exact noNL_gitLine _ hgg
        · exact absurd h6 (List.not_mem_nil _)
  · by_cases hrt : refTruthy m = true
    · rw [if_pos hrt] at h2
      rcases List.mem_cons.mp h2 with rfl | h7
      · exact noNL_refLine (refTruthy_word hm.2.2.2.2.1 hrt)
      · exact absurd h7 (List.not_mem_nil _)
    · rw [if_neg hrt] at h2
      exact absurd h2 (List.not_mem_nil _)

theorem noNL_forgeBlock {m : ModuleDeclaration} (hm : wfForgeMod m) :
    ∀ l ∈ forgeBlock m, '\n' ∉ l.data := by
  intro l hl
  unfold forgeBlock at hl
  rcases List.mem_append.mp hl with h1 | h2
  · rcases List.mem_map.mp h1 with ⟨c, hc, rfl⟩
    exact noNL_commentLine (hm.2.2.2.2 c hc)
  · rcases List.mem_cons.mp h2 with rfl | h3
    · exact noNL_modLine hm.2.1 hm.2.2.1 (wfOptWord_getD hm.2.2.2.1)
    · exact absurd h3 (List.not_mem_nil _)

theorem mem_joinSep {sep : List String} :
    ∀ {bs : List (List String)} {l : String}, l ∈ joinSep sep bs →
      l ∈ sep ∨ ∃ b ∈ bs, l ∈ b := by
  intro bs
  induction bs with
  | nil =>
    intro l hl
    exact absurd hl (List.not_mem_nil _)
  | cons b bs2 ih =>
    intro l hl
    cases bs2 with
    | nil => exact Or.inr ⟨b, by simp, hl⟩
    | cons b2 t =>
      rw [show joinSep sep (b :: b2 :: t) =
        b ++ sep ++ joinSep sep (b2 :: t) from rfl] at hl
      rcases List.mem_append.mp hl with h1 | h2
      · rcases List.mem_append.mp h1 with h3 | h4
        · exact Or.inr ⟨b, by simp, h3⟩
        · exact Or.inl h4
      · rcases ih h2 with h5 | ⟨b', hb', hl'⟩
        · exact Or.inl h5
        · exact Or.inr ⟨b', by simp [hb'], hl'⟩

theorem noNL_toLines (pf : PuppetFile) (h : canonicalPF pf) :
    ∀ l ∈ toLinesPlain depIdDefault pf, '\n' ∉ l.data := by
  obtain ⟨hu, hpre, hmods, hdeps, hsg, hsf, hsd, hef, hem, hed⟩ := h
  intro l hl
  unfold toLinesPlain at hl
  rw [hpre, if_neg (by simp)] at hl
  rw [sortByName_sorted_id _ hsg, sortByName_sorted_id _ hsf,
    sortByName_sorted_id _ hsd] at hl
  have hGwf : ∀ m ∈ pf.modules.filter (fun m => ¬ m.forgeModule),
      wfGitMod m := by
    intro m hm
    have h1 := List.mem_filter.mp hm
    have hb : m.forgeModule = false := by
      have := h1.2
      simp at this
      exact this
    exact (hmods m h1.1).2 hb
  have hFwf : ∀ m ∈ pf.modules.filter (fun m => m.forgeModule),
      wfForgeMod m := by
    intro m hm
    have h1 := List.mem_filter.mp hm
    have hb : m.forgeModule = true := by
      have := h1.2
      simp at this
      exact this
    exact (hmods m h1.1).1 hb
  rcases List.mem_append.mp hl with hl | hJD
  rcases List.mem_append.mp hl with hl | hH3
  rcases List.mem_append.mp hl with hl | hJF
  rcases List.mem_append.mp hl with hl | hH2
  rcases List.mem_append.mp hl with hl | hJG
  rcases List.mem_append.mp hl with hl | hH1
  rcases List.mem_append.mp hl with hA | hP
  · rcases List.mem_cons.mp hA with rfl | hA2
    · exact noNL_forgeLine hu
    · rcases List.mem_cons.mp hA2 with rfl | hA3
      · exact List.not_mem_nil _
      · exact absurd hA3 (List.not_mem_nil _)
  · exact absurd hP (List.not_mem_nil _)
  · rcases List.mem_cons.mp hH1 with rfl | hH1b
    · decide
    · rcases List.mem_cons.mp hH1b with rfl | hH1c
      · exact List.not_mem_nil _
      · exact absurd hH1c (List.not_mem_nil _)
  · rcases mem_joinSep hJG with hsep | ⟨b, hb, hlb⟩
    · rcases List.mem_cons.mp hsep with rfl | hx
      · decide
      · exact absurd hx (List.not_mem_nil _)
    · rcases List.mem_map.mp hb with ⟨m, hmem, rfl⟩
      exact noNL_gitBlock (hGwf m hmem) l hlb
  · rcases List.mem_cons.mp hH2 with rfl | hH2b
    · exact List.not_mem_nil _
    · rcases List.mem_cons.mp hH2b with rfl | hH2c
      · decide
      · rcases List.mem_cons.mp hH2c with rfl | hH2d
        · exact List.not_mem_nil _
        · exact absurd hH2d (List.not_mem_nil _)
  · rcases mem_joinSep hJF with hsep | ⟨b, hb, hlb⟩
    · rcases List.mem_cons.mp hsep with rfl | hx
      · exact List.not_mem_nil _
      · exact absurd hx (List.not_mem_nil _)
    · rcases List.mem_map.mp hb with ⟨m, hmem, rfl⟩
      exact noNL_forgeBlock (hFwf m hmem) l hlb
  · rcases List.mem_cons.mp hH3 with rfl | hH3b
    · exact List.not_mem_nil _
    · rcases List.mem_cons.mp hH3b with rfl | hH3c
      · decide
      · rcases List.mem_cons.mp hH3c with rfl | hH3d
        · exact List.not_mem_nil _
        · exact absurd hH3d (List.not_mem_nil _)
  · rcases mem_joinSep hJD with hsep | ⟨b, hb, hlb⟩
    · rcases List.mem_cons.mp hsep with rfl | hx
      · exact List.not_mem_nil _
      · exact absurd hx (List.not_mem_nil _)
    · rcases List.mem_map.mp hb with ⟨m, hmem, rfl⟩
      exact noNL_forgeBlock (hdeps m hmem) l hlb

theorem strSplit_joinLines :
    ∀ (L : List String), L ≠ [] → (∀ l ∈ L, '\n' ∉ l.data) →
      strSplit (strJoinLines L) (fun c => c = '\n') = L := by
  intro L
  induction L with
  | nil => intro hne _; exact absurd rfl hne
  | cons l rest ih =>
    intro _ hall
    have hlnl : ∀ c ∈ l.data, (fun c => decide (c = '\n')) c = false :=
      fun c hc => decide_eq_false
        (fun he => hall l (by simp) (he ▸ hc))
    cases rest with
    | nil =>
      show strSplit l (fun c => c = '\n') = [l]
      unfold strSplit
      rw [splitAux_final l.data hlnl []]
      rfl
    | cons l2 rest2 =>
      have hjoin : strJoinLines (l :: l2 :: rest2) =
          l ++ "\n" ++ strJoinLines (l2 :: rest2) := rfl
      have hdata : (l ++ "\n" ++ strJoinLines (l2 :: rest2)).data =
          l.data ++ '\n' :: (strJoinLines (l2 :: rest2)).data := by
        simp [strData_append]
      unfold strSplit
      rw [hjoin, hdata]
      rw [splitAux_nosep l.data hlnl, splitAux_sep (by decide)]
      have hrest := ih (by simp) (fun x hx => hall x (by simp [hx]))
      unfold strSplit at hrest
      rw [List.map_cons]
      simp only [List.append_nil, List.reverse_reverse]
      rw [hrest]

theorem toLines_ne_nil (pf : PuppetFile) : toLinesPlain depIdDefault pf ≠ [] := by
  unfold toLinesPlain
  simp

theorem toLines_esc (pf : PuppetFile) (h : canonicalPF pf) :
    pf.toLines depIdDefault = toLinesPlain depIdDefault pf := by
  obtain ⟨hu, hpre, hmods, hdeps, hsg, hsf, hsd, hef, hem, hed⟩ := h
  have hG : sortByName (pf.modules.filter (fun m => ¬ m.forgeModule)) =
      pf.modules.filter (fun m => ¬ m.forgeModule) := sortByName_sorted_id _ hsg
  have hF : sortByName (pf.modules.filter (fun m => m.forgeModule)) =
      pf.modules.filter (fun m => m.forgeModule) := sortByName_sorted_id _ hsf
  have hD : sortByName pf.dependentModules = pf.dependentModules :=
    sortByName_sorted_id _ hsd
  have hmapG : (pf.modules.filter (fun m => ¬ m.forgeModule)).map gitBlockE =
      (pf.modules.filter (fun m => ¬ m.forgeModule)).map gitBlock := by
    apply List.map_congr_left
    intro m hm
    exact gitBlockE_escFree (hem m (List.mem_filter.mp hm).1)
  have hmapF : (pf.modules.filter (fun m => m.forgeModule)).map forgeBlockE =
      (pf.modules.filter (fun m => m.forgeModule)).map forgeBlock := by
    apply List.map_congr_left
    intro m hm
    exact forgeBlockE_escFree (hem m (List.mem_filter.mp hm).1)
  have hmapD : pf.dependentModules.map forgeBlockE =
      pf.dependentModules.map forgeBlock := by
    apply List.map_congr_left
    intro m hm
    exact forgeBlockE_escFree (hed m hm)
  unfold PuppetFile.toLines toLinesPlain
  rw [hpre]
  rw [if_neg (show ¬(([] : List String) ≠ []) from by simp),
    if_neg (show ¬(([] : List String) ≠ []) from by simp)]
  rw [hG, hF, hD, hmapG, hmapF, hmapD]
  rw [show hbsEscape pf.forge = pf.forge from hef]
  rw [show hbsEscape depIdDefault = depIdDefault from by decide]

/-- Claim C8 (amended): for every manifest text in the emitter's canonical
form — no preamble block, wellformed hyphen-separated module declarations
whose rendered fields hold none of the characters the Handlebars escaping
rewrites, each section strictly sorted by module name — parsing and
re-emitting reproduces the text byte for byte. -/
theorem C8_amended_roundtrip_canonical (pf : PuppetFile) (h : canonicalPF pf) :
    ∃ pf2, PuppetFile.fromText pf.toText = some pf2 ∧
      pf2.toText = pf.toText := by
  refine
    ⟨{ forge := pf.forge, preambleLines := [],
       modules :=
         ((pf.modules.filter (fun m => ¬ m.forgeModule)).map normMod) ++
           ((pf.modules.filter (fun m => m.forgeModule)).map normMod),
       dependentModules := pf.dependentModules.map normMod }, ?_, ?_⟩
  · unfold PuppetFile.fromText PuppetFile.toText
    rw [toLines_esc pf h]
    rw [strSplit_joinLines _ (toLines_ne_nil pf) (noNL_toLines pf h)]
    exact fromLines_toLines pf h
  · unfold PuppetFile.toText
    rw [toLines_parsed pf h, toLines_esc pf h]

/-- Witness for the amended C8 round trip on a concrete canonical manifest
with a commented repo module, two forge modules and a dependent module. -/
theorem C8_amended_witness :
    ∃ pf2, PuppetFile.fromText c8wit.toText = some pf2 ∧
      pf2.toText = c8wit.toText :=
  C8_amended_roundtrip_canonical c8wit (by decide)

end Puppet
